import Mathlib

/-! Edit-log store of the Obsidian DataviewJS heatmap scripts.

A shallow embedding of the `data.json` edit log kept by
`HeatmapRadar.js` (hash recording, v7.0), by
`HeatmapRadarCombined_记录文件名_并去重.js` (path recording, v6.1) and by the
count-recording scripts, of the heatmap grid and the radar statistics drawn from it,
and of the line queue of `termynal_backup.js`.

Modelling conventions.

* A JavaScript `Set` is the list of its members in insertion order.
* A JavaScript object used as a dictionary is an association list in insertion
  order; `obj[k] = v` replaces in place when `k` is an own key and appends
  otherwise.  Keys that are canonical array indices (which JavaScript
  enumerates first) and keys naming members of `Object.prototype` are outside
  the model: the day keys the scripts create always contain two `-`.
* Everything the scripting host provides (document index, clock, locale
  formatting, date parsing, SHA-256, collation, storage) is a field of `Host`.
* `await` is sequential composition: the host state is fixed during one call.
-/

set_option autoImplicit false

/-! ## JavaScript containers -/

namespace Js

/-- Dictionary object: own enumerable string keys in insertion order. -/
abbrev Obj (β : Type) := List (String × β)

/-- Property read `obj[k]`; `none` is `undefined`. -/
def Obj.get? {β : Type} : Obj β → String → Option β
  | [], _ => none
  | (k, v) :: rest, key => if k = key then some v else Obj.get? rest key

/-- Property write `obj[k] = v`. -/
def Obj.set {β : Type} : Obj β → String → β → Obj β
  | [], key, v => [(key, v)]
  | (k, w) :: rest, key, v => if k = key then (k, v) :: rest else (k, w) :: Obj.set rest key v

/-- The list `Object.keys(obj)`. -/
def Obj.keys {β : Type} (o : Obj β) : List String := o.map Prod.fst

/-- Method `set.add(x)` on an insertion-ordered set. -/
def JsSet.add {α : Type} [DecidableEq α] (s : List α) (x : α) : List α :=
  if x ∈ s then s else s ++ [x]

/-- Constructor `new Set(iterable)`. -/
def JsSet.ofList {α : Type} [DecidableEq α] (xs : List α) : List α :=
  xs.foldl JsSet.add []

/-- Comparison `Array.prototype.sort(cmp)` for a consistent comparator: the stable
sort, computed by insertion. `a` stays before `b` when `cmp(a, b) <= 0`. -/
def sortBy {α : Type} (cmp : α → α → Int) (xs : List α) : List α :=
  xs.insertionSort fun a b => cmp a b ≤ 0

/-- UTF-16 code units of a string. -/
def utf16 (s : String) : List Nat :=
  s.data.flatMap fun c =>
    if c.toNat < 65536 then [c.toNat]
    else [55296 + (c.toNat - 65536) / 1024, 56320 + (c.toNat - 65536) % 1024]

/-- Lexicographic order on code-unit sequences. -/
def lexLe : List Nat → List Nat → Bool
  | [], _ => true
  | _ :: _, [] => false
  | a :: as, b :: bs => if a < b then true else if b < a then false else lexLe as bs

/-- Default `Array.prototype.sort()` on strings: ascending by UTF-16 code units. -/
def sortDefault (xs : List String) : List String :=
  xs.insertionSort fun a b => lexLe (utf16 a) (utf16 b) = true

/-- Split `s.split(c)` for a one-character separator, on character lists. -/
def splitChars (c : Char) : List Char → List (List Char)
  | [] => [[]]
  | x :: xs =>
    if x = c then [] :: splitChars c xs
    else match splitChars c xs with
      | [] => [[x]]
      | first :: rest => (x :: first) :: rest

/-- Split `s.split(c)` on strings. -/
def split (c : Char) (s : String) : List String :=
  (splitChars c s.data).map String.mk

/-- Element `arr[i]` interpolated into a template literal. -/
def part (parts : List String) (i : Nat) : String :=
  (parts.get? i).getD "undefined"

/-- Test `s.startsWith(p)`. -/
def startsWith (s p : String) : Bool := p.data.isPrefixOf s.data

end Js

open Js

/-! ## Host and configuration -/

/-- One entry of `app.vault.getMarkdownFiles()`: `file.path`, `file.stat.mtime` (epoch ms). -/
structure TFile where
  path : String
  mtime : Int
deriving DecidableEq, Repr

/-- What the scripting host provides during one call. -/
structure Host where
  /-- Result of `app.vault.getMarkdownFiles()`. -/
  markdownFiles : List TFile
  /-- Whether `app.vault.getAbstractFileByPath(p)` is neither null nor undefined. -/
  abstractFile : String → Bool
  /-- Clock `new Date()`, epoch ms. -/
  now : Int
  /-- Formatter `toLocaleString('zh-CN', ...)` in Asia/Shanghai with year, month, day. -/
  toLocaleDate : Int → String
  /-- Same formatter with hour, minute and second added. -/
  toLocaleDateTime : Int → String
  /-- Parser `new Date(str)`; `none` is an invalid date. -/
  parseDate : String → Option Int
  /-- Bytes of `crypto.subtle.digest('SHA-256', utf8(path))`. -/
  sha256 : String → List Nat
  /-- Collation `a.localeCompare(b)`. -/
  localeCompare : String → String → Int
  /-- Whether the storage adapter throws on use. -/
  storageFails : Bool

/-- The `CONFIG` fields the edit log reads. -/
structure Config where
  useHashMode : Bool
  hashAlgorithm : String
  enableHashCache : Bool
  ignoreFolders : List String
deriving DecidableEq, Repr

/-- Function `formatDate(date)` (lines 186-196). -/
def formatDate (h : Host) (date : Int) : String :=
  let beijingDateStr := h.toLocaleDate date
  let parts := split '/' beijingDateStr
  part parts 0 ++ "-" ++ part parts 1 ++ "-" ++ part parts 2

/-- Function `getTodayString()` (lines 170-181). -/
def getTodayString (h : Host) : String :=
  let beijingDateStr := h.toLocaleDate h.now
  let parts := split '/' beijingDateStr
  part parts 0 ++ "-" ++ part parts 1 ++ "-" ++ part parts 2

/-- Function `getCurrentTimestamp()` (lines 201-217). -/
def getCurrentTimestamp (h : Host) : String :=
  let beijingTimeStr := h.toLocaleDateTime h.now
  let pieces := split ' ' beijingTimeStr
  let datePart := (pieces.get? 0).getD ""
  let parts := split '/' datePart
  part parts 0 ++ "-" ++ part parts 1 ++ "-" ++ part parts 2 ++ " " ++ part pieces 1

/-- Function `shouldIgnore(path)` (lines 222-224). -/
def shouldIgnore (cfg : Config) (path : String) : Bool :=
  cfg.ignoreFolders.any fun folder => startsWith path folder

/-- Function `validatePath(path)` (lines 229-232). -/
def validatePath (h : Host) (path : String) : Bool :=
  h.abstractFile path

/-- Padding `digits.padStart(2, '0')` on a digit list. -/
def padStart2 (digits : List Char) : List Char :=
  List.replicate (2 - digits.length) '0' ++ digits

/-- Uncached `hashPath(path)` (lines 131-154): hex of the first 8 digest bytes. -/
def hashPath (h : Host) (path : String) : String :=
  String.join (((h.sha256 path).take 8).map fun b => String.mk (padStart2 (Nat.toDigits 16 b)))

/-- Function `isHashFormat(str)`: the test of the regular expression `^[a-f0-9]{16}$`. -/
def isHashFormat (str : String) : Bool :=
  str.data.length == 16 &&
    str.data.all fun c => ('a'.toNat ≤ c.toNat && c.toNat ≤ 'f'.toNat) ||
      ('0'.toNat ≤ c.toNat && c.toNat ≤ '9'.toNat)

/-! ## Data model -/

/-- In-memory ledger object (`data`): each field may be `undefined`. -/
structure Ledger where
  dailyEdits : Option (Obj (List String))
  version : Option Nat
  mode : Option String
  hashAlgorithm : Option String
  lastFullScan : Option String
  lastUpdate : Option String
deriving DecidableEq, Repr

/-- Bucket of day `d`, a missing bucket (or missing `dailyEdits`) counting as empty:
`data.dailyEdits?.[d] || []`. -/
def Ledger.bucket (l : Ledger) (d : String) : List String :=
  ((l.dailyEdits.getD []).get? d).getD []

/-- Day keys `Object.keys(data.dailyEdits || {})`. -/
def Ledger.days (l : Ledger) : List String :=
  Obj.keys (l.dailyEdits.getD [])

/-- Value of one day in the parsed file: an array of strings, or a value that is not an
array. An array with elements of another type is a `JsonValue`. -/
inductive JsonDay where
  | arr (items : List String)
  | notArray
deriving DecidableEq, Repr

/-- Top-level members of the JSON text of `data.json`; `dailyEdits` lists the members
of its object in text order (a name may be repeated in a JSON text). -/
structure RawLedger where
  dailyEdits : Option (List (String × JsonDay))
  version : Option Nat
  mode : Option String
  hashAlgorithm : Option String
  lastFullScan : Option String
  lastUpdate : Option String
deriving DecidableEq, Repr

/-- State of the persisted file `CONFIG.dataFile`. -/
inductive DataFile where
  /-- No such file: `getAbstractFileByPath` returns null. -/
  | absent
  /-- The file exists and reading it, `JSON.parse` or the access to the parsed value
  throws (malformed JSON text, or the text `null`). -/
  | unparsable
  /-- The file exists and parses to an object. -/
  | parsed (raw : RawLedger)
deriving DecidableEq, Repr

/-- What `JSON.parse(JSON.stringify(data))` gives for a ledger: `undefined` fields vanish. -/
def Ledger.toRaw (l : Ledger) : RawLedger :=
  { dailyEdits := l.dailyEdits.map fun o => o.map fun kv => (kv.1, JsonDay.arr kv.2)
    version := l.version
    mode := l.mode
    hashAlgorithm := l.hashAlgorithm
    lastFullScan := l.lastFullScan
    lastUpdate := l.lastUpdate }

/-- Object built by `JSON.parse` from the members of a JSON object: a repeated name
keeps its first position and its last value. -/
def jsonObject {β : Type} (members : List (String × β)) : Obj β :=
  members.foldl (fun (acc : Obj β) (m : String × β) => Obj.set acc m.1 m.2) []

/-- Body of the validation loop of `readDataFile` for one entry of
`Object.entries(data.dailyEdits)`. -/
def resetNonArray (dailyEdits : Obj JsonDay) (entry : String × JsonDay) : Obj JsonDay :=
  match entry.2 with
  | JsonDay.arr _ => dailyEdits
  | JsonDay.notArray => Obj.set dailyEdits entry.1 (JsonDay.arr [])

/-- Body of `readDataFile` shared by both scripts; `defaultVersion` is 7 or 6. -/
def readDataFileWith (defaultVersion : Nat) : DataFile → Option Ledger
  | DataFile.absent => none
  | DataFile.unparsable => none
  | DataFile.parsed raw =>
    let dailyEdits0 : Obj JsonDay := jsonObject (raw.dailyEdits.getD [])
    let version := match raw.version with
      | none => defaultVersion
      | some v => if v = 0 then defaultVersion else v
    let dailyEdits := dailyEdits0.foldl resetNonArray dailyEdits0
    some
      { dailyEdits := some (dailyEdits.map fun kv =>
          (kv.1, match kv.2 with
            | JsonDay.arr items => items
            | JsonDay.notArray => []))
        version := some version
        mode := raw.mode
        hashAlgorithm := raw.hashAlgorithm
        lastFullScan := raw.lastFullScan
        lastUpdate := raw.lastUpdate }

/-- Count conversion at the end of both loaders: `countData[date] = hashes.length`. -/
def toCounts (data : Ledger) : Obj Nat :=
  (data.dailyEdits.getD []).foldl
    (fun (countData : Obj Nat) (entry : String × List String) =>
      Obj.set countData entry.1 entry.2.length)
    []

/-- Conversion `data.dailyEdits[date] = Array.from(set)` of every entry of a date map
into a fresh object (the loop of `fullScanAllFiles`). -/
def arraysOf (dateMap : Obj (List String)) : Obj (List String) :=
  dateMap.foldl
    (fun (acc : Obj (List String)) (entry : String × List String) =>
      Obj.set acc entry.1 entry.2)
    []

/-- Body of the loop of `getAllFilesDateMap` for a file that is not ignored, recording
identifier `ident` under the file's modification day. -/
def recordFile (h : Host) (dateMap : Obj (List String)) (file : TFile) (ident : String) :
    Obj (List String) :=
  let modDateStr := formatDate h file.mtime
  let dateMap1 := if (dateMap.get? modDateStr).isNone then Obj.set dateMap modDateStr []
    else dateMap
  Obj.set dateMap1 modDateStr (JsSet.add ((dateMap1.get? modDateStr).getD []) ident)

/-- The sorted copy `sortedDailyEdits` built by `writeDataFile`. -/
def sortDailyEdits (h : Host) (dailyEdits : Obj (List String)) : Obj (List String) :=
  let sortedKeys := sortBy (fun a b => h.localeCompare b a) (Obj.keys dailyEdits)
  sortedKeys.foldl
    (fun (acc : Obj (List String)) key =>
      Obj.set acc key (sortDefault ((dailyEdits.get? key).getD [])))
    []

/-- Outcome of one run of a loader. -/
structure Run where
  /-- Ledger `data` at the count conversion. -/
  data : Ledger
  /-- Returned `countData`. -/
  countData : Obj Nat
  /-- Persisted file once the detached write has finished. -/
  file : DataFile
deriving DecidableEq, Repr

/-- File after a `writeDataFile` call: replaced on success, untouched on failure. -/
def persist (written : Option Ledger) (file : DataFile) : DataFile :=
  match written with
  | some l => DataFile.parsed l.toRaw
  | none => file

/-! ## HeatmapRadar.js (hash recording) -/

namespace HeatmapRadar

/-- The `CONFIG` of `HeatmapRadar.js` (lines 51-83). -/
def CONFIG : Config :=
  { useHashMode := true
    hashAlgorithm := "SHA-256-64bit"
    enableHashCache := true
    ignoreFolders := [".obsidian", ".trash", ".git", "Plugin_Dir/BRAT"] }

/-- Function `readDataFile()` (lines 239-273). -/
def readDataFile (file : DataFile) : Option Ledger :=
  readDataFileWith 7 file

/-- Function `writeDataFile(data)` (lines 278-321): the object it stringifies and
stores, `none` when it throws before that (it then returns false). A storage failure
is placed at the first adapter call, before `data` is touched. -/
def writeDataFile (cfg : Config) (h : Host) (data : Ledger) : Option Ledger :=
  if h.storageFails then none
  else match data.dailyEdits with
    | none => none
    | some dailyEdits =>
      let sortedDailyEdits := sortDailyEdits h dailyEdits
      some
        { dailyEdits := some sortedDailyEdits
          lastUpdate := some (getCurrentTimestamp h)
          mode := some (if cfg.useHashMode then "hash-based" else "path-based")
          version := some 7
          hashAlgorithm := if cfg.useHashMode then some cfg.hashAlgorithm else data.hashAlgorithm
          lastFullScan := data.lastFullScan }

/-- Identifier recorded for a file: `hashPath(file.path)` in hash mode, else the path. -/
def identifier (cfg : Config) (h : Host) (path : String) : String :=
  if cfg.useHashMode then hashPath h path else path

/-- Function `getAllFilesDateMap()` (lines 326-350): day to `Set` of identifiers. -/
def getAllFilesDateMap (cfg : Config) (h : Host) : Obj (List String) :=
  h.markdownFiles.foldl
    (fun (dateMap : Obj (List String)) file =>
      if shouldIgnore cfg file.path then dateMap
      else recordFile h dateMap file (identifier cfg h file.path))
    []

/-- Comparison `mtime >= t` of two `Date`s; false against an invalid date. -/
def dateGe (mtime : Int) (t : Option Int) : Bool :=
  match t with
  | some v => decide (v ≤ mtime)
  | none => false

/-- Comparison `mtime <= t` of two `Date`s; false against an invalid date. -/
def dateLe (mtime : Int) (t : Option Int) : Bool :=
  match t with
  | some v => decide (mtime ≤ v)
  | none => false

/-- Function `getTodayModifiedFiles()` (lines 360-389): the `Set` todayHashes. -/
def getTodayModifiedFiles (cfg : Config) (h : Host) : List String :=
  let today := getTodayString h
  let todayStart := h.parseDate (today ++ " 00:00:00")
  let todayEnd := h.parseDate (today ++ " 23:59:59")
  h.markdownFiles.foldl
    (fun (todayHashes : List String) file =>
      if shouldIgnore cfg file.path then todayHashes
      else if dateGe file.mtime todayStart && dateLe file.mtime todayEnd then
        JsSet.add todayHashes (identifier cfg h file.path)
      else todayHashes)
    []

/-- Function `fullScanAllFiles()` (lines 394-419). -/
def fullScanAllFiles (cfg : Config) (h : Host) : Ledger :=
  let dateMap := getAllFilesDateMap cfg h
  { dailyEdits := some (arraysOf dateMap)
    lastFullScan := some (getTodayString h)
    version := some 7
    mode := some (if cfg.useHashMode then "hash-based" else "path-based")
    hashAlgorithm := if cfg.useHashMode then some cfg.hashAlgorithm else none
    lastUpdate := none }

/-- Function `validateHash(hash)` (lines 424-436). -/
def validateHash (cfg : Config) (h : Host) (hash : String) : Bool :=
  h.markdownFiles.any fun file =>
    !shouldIgnore cfg file.path && decide (hashPath h file.path = hash)

/-- Function `validatePathOrHash(pathOrHash)` (lines 441-449). -/
def validatePathOrHash (cfg : Config) (h : Host) (pathOrHash : String) : Bool :=
  if cfg.useHashMode && isHashFormat pathOrHash then validateHash cfg h pathOrHash
  else validatePath h pathOrHash

/-- Function `mergeDataSafely(localData, remoteData)` (lines 454-499); `valid` is the
awaited existence check, `validatePathOrHash` in the script. The debug log is omitted. -/
def mergeDataSafely (valid : String → Bool) (localData remoteData : Ledger) : Ledger :=
  let allDates := JsSet.ofList (localData.days ++ remoteData.days)
  let step := fun (st : Obj (List String) × Nat) (date : String) =>
    let localItems := localData.bucket date
    let remoteItems := remoteData.bucket date
    let mergedItems := JsSet.ofList (localItems ++ remoteItems)
    let inner := mergedItems.foldl
      (fun (acc : List String × Nat) item =>
        if valid item then (acc.1 ++ [item], acc.2) else (acc.1, acc.2 + 1))
      ([], st.2)
    let validItems := inner.1
    if validItems.length > 0 then (Obj.set st.1 date validItems, inner.2) else (st.1, inner.2)
  let out := allDates.foldl step ([], 0)
  { localData with dailyEdits := some out.1 }

/-- Steps 3-4 of `loadHashBasedModeData` on the object `data` (lines 533-541 and
553-560): make sure today's bucket exists, then add today's observations to it. -/
def addToday (data : Ledger) (today : String) (todayModified : List String) : Ledger :=
  let dailyEdits0 := data.dailyEdits.getD []
  let dailyEdits1 := if (dailyEdits0.get? today).isNone then Obj.set dailyEdits0 today []
    else dailyEdits0
  let existingTodaySet := JsSet.ofList ((dailyEdits1.get? today).getD [])
  let afterAdds := todayModified.foldl JsSet.add existingTodaySet
  { data with dailyEdits := some (Obj.set dailyEdits1 today afterAdds) }

/-- Function `loadHashBasedModeData()` (lines 510-581). `file1` is the persisted file at
the first read, `file2` at the re-read just before the update (the same file unless
another writer came in between). -/
def loadHashBasedModeData (cfg : Config) (h : Host) (file1 file2 : DataFile) : Run :=
  let today := getTodayString h
  match readDataFile file1 with
  | none =>
    let scanned := fullScanAllFiles cfg h
    let first := writeDataFile cfg h scanned
    let data := first.getD scanned
    let file := persist first file1
    { data := data
      countData := toCounts data
      file := persist (writeDataFile cfg h data) file }
  | some cached =>
    let todayModified := getTodayModifiedFiles cfg h
    let data := match readDataFile file2 with
      | some latestRemoteData => addToday latestRemoteData today todayModified
      | none => addToday cached today todayModified
    { data := data
      countData := toCounts data
      file := persist (writeDataFile cfg h data) file2 }

/-- Background task of `loadHeatmapData` (lines 661-705): the persisted file it leaves;
an exception inside it is caught and logged. -/
def backgroundUpdate (cfg : Config) (h : Host) (file1 file2 : DataFile) : DataFile :=
  let today := getTodayString h
  match readDataFile file1 with
  | none => persist (writeDataFile cfg h (fullScanAllFiles cfg h)) file1
  | some cached =>
    let todayModified := getTodayModifiedFiles cfg h
    let data := match readDataFile file2 with
      | some latestRemoteData => addToday latestRemoteData today todayModified
      | none => addToday cached today todayModified
    persist (writeDataFile cfg h data) file2

/-- The per-run entry point together with its write, with no other writer in between:
the persisted file one run of `loadHashBasedModeData` leaves. -/
def recordToday (cfg : Config) (h : Host) (file : DataFile) : DataFile :=
  (loadHashBasedModeData cfg h file file).file

end HeatmapRadar

/-! ## HeatmapRadarCombined_记录文件名_并去重.js (path recording) -/

namespace PathRecord

/-- The `CONFIG` of the path-recording script (lines 50-71); it has no hash mode. -/
def CONFIG : Config :=
  { useHashMode := false
    hashAlgorithm := ""
    enableHashCache := false
    ignoreFolders := [".obsidian", ".trash", ".git"] }

/-- Function `readDataFile()` (lines 175-209). -/
def readDataFile (file : DataFile) : Option Ledger :=
  readDataFileWith 6 file

/-- Function `writeDataFile(data)` (lines 214-251). -/
def writeDataFile (h : Host) (data : Ledger) : Option Ledger :=
  if h.storageFails then none
  else match data.dailyEdits with
    | none => none
    | some dailyEdits =>
      let sortedDailyEdits := sortDailyEdits h dailyEdits
      some { data with
        dailyEdits := some sortedDailyEdits
        lastUpdate := some (getCurrentTimestamp h) }

/-- Function `getAllFilesDateMap()` (lines 256-273). -/
def getAllFilesDateMap (cfg : Config) (h : Host) : Obj (List String) :=
  h.markdownFiles.foldl
    (fun (dateMap : Obj (List String)) file =>
      if shouldIgnore cfg file.path then dateMap
      else recordFile h dateMap file file.path)
    []

/-- Function `fullScanAllFiles()` (lines 278-302). -/
def fullScanAllFiles (cfg : Config) (h : Host) : Ledger :=
  { dailyEdits := some (arraysOf (getAllFilesDateMap cfg h))
    lastFullScan := some (getTodayString h)
    version := some 6
    mode := some "path-based"
    hashAlgorithm := none
    lastUpdate := none }

/-- Function `mergeDataSafely(localData, remoteData)` (lines 315-355); `valid` is
`validatePath` in the script. The debug log is omitted. -/
def mergeDataSafely (valid : String → Bool) (localData remoteData : Ledger) : Ledger :=
  let allDates := JsSet.ofList (localData.days ++ remoteData.days)
  let step := fun (st : Obj (List String) × Nat) (date : String) =>
    let localPaths := localData.bucket date
    let remotePaths := remoteData.bucket date
    let mergedPaths := JsSet.ofList (localPaths ++ remotePaths)
    let validPaths := mergedPaths.filter fun path => valid path
    let removedCount := st.2 + (mergedPaths.filter fun path => !valid path).length
    if validPaths.length > 0 then (Obj.set st.1 date validPaths, removedCount)
    else (st.1, removedCount)
  let out := allDates.foldl step ([], 0)
  { localData with dailyEdits := some out.1 }

/-- Function `loadPathBasedModeData()` (lines 360-417), with `file1` and `file2` as in
`HeatmapRadar.loadHashBasedModeData`. -/
def loadPathBasedModeData (cfg : Config) (h : Host) (file1 file2 : DataFile) : Run :=
  let realTimeMap := getAllFilesDateMap cfg h
  match readDataFile file1 with
  | none =>
    let scanned := fullScanAllFiles cfg h
    let first := writeDataFile h scanned
    let data := first.getD scanned
    let file := persist first file1
    { data := data
      countData := toCounts data
      file := persist (writeDataFile h data) file }
  | some cached =>
    let data := match readDataFile file2 with
      | some latestRemoteData =>
        let tempLocalData : Ledger :=
          { dailyEdits := some (arraysOf realTimeMap)
            version := some 6
            mode := none
            hashAlgorithm := none
            lastFullScan := none
            lastUpdate := none }
        mergeDataSafely (validatePath h) tempLocalData latestRemoteData
      | none => { cached with dailyEdits := some (arraysOf realTimeMap) }
    { data := data
      countData := toCounts data
      file := persist (writeDataFile h data) file2 }

end PathRecord

/-! ## Identifier format and cache -/

/-- Lowercase hexadecimal digit of a number below 16. -/
def hexDigit (n : Nat) : Char :=
  if n < 10 then Char.ofNat (48 + n) else Char.ofNat (87 + n)

/-- Two-digit zero-padded lowercase hexadecimal of a byte, written from the words of the
specification; `hashPath` computes it as `b.toString(16).padStart(2, '0')`. -/
def hexByte (b : Nat) : String :=
  String.mk [hexDigit (b / 16), hexDigit (b % 16)]

/-- Character of the class `[a-f0-9]`. -/
def isHexChar (c : Char) : Bool :=
  ('a'.toNat ≤ c.toNat && c.toNat ≤ 'f'.toNat) || ('0'.toNat ≤ c.toNat && c.toNat ≤ '9'.toNat)

namespace HeatmapRadar

/-- Function `hashPath(path)` with the module-level `hashCache` (lines 124-154): the
returned identifier and the cache after the call. The `Map` is an insertion-ordered
dictionary. -/
def hashPathCached (cfg : Config) (h : Host) (hashCache : Obj String) (path : String) :
    String × Obj String :=
  if cfg.enableHashCache && (hashCache.get? path).isSome then
    ((hashCache.get? path).getD "undefined", hashCache)
  else
    let shortHash := hashPath h path
    (shortHash, if cfg.enableHashCache then Obj.set hashCache path shortHash else hashCache)

/-- The cache after a sequence of `hashPath` calls, starting from `hashCache`. -/
def cacheAfter (cfg : Config) (h : Host) (hashCache : Obj String) (paths : List String) :
    Obj String :=
  paths.foldl (fun cache path => (hashPathCached cfg h cache path).2) hashCache

end HeatmapRadar

/-! ## Day keys -/

/-- ASCII decimal digit. -/
def isDigit (c : Char) : Bool := '0'.toNat ≤ c.toNat && c.toNat ≤ '9'.toNat

/-- A key of the form `YYYY-MM-DD`. -/
def isDayKey (s : String) : Bool :=
  match s.data with
  | [y1, y2, y3, y4, s1, m1, m2, s2, d1, d2] =>
    isDigit y1 && isDigit y2 && isDigit y3 && isDigit y4 && decide (s1 = '-') &&
      isDigit m1 && isDigit m2 && decide (s2 = '-') && isDigit d1 && isDigit d2
  | _ => false

/-! ## The persisted file with unrestricted array elements -/

/-- Element of a persisted array: a string, or a value of another JSON type. -/
inductive JsonItem where
  | str (s : String)
  | num (n : Int)
  | null
  /-- A boolean, a nested array or a nested object. -/
  | nested
deriving DecidableEq, Repr

/-- Value of one day in the parsed file when array elements are unrestricted. -/
inductive JsonValue where
  | arr (items : List JsonItem)
  | notArray
deriving DecidableEq, Repr

/-- Body of the validation loop of `readDataFile` (lines 255-260) on unrestricted values:
the test is `Array.isArray(value)`. -/
def resetNonArrayValue (dailyEdits : Obj JsonValue) (entry : String × JsonValue) :
    Obj JsonValue :=
  match entry.2 with
  | JsonValue.arr _ => dailyEdits
  | JsonValue.notArray => Obj.set dailyEdits entry.1 (JsonValue.arr [])

/-- The `dailyEdits` of the ledger `readDataFile` returns for a file that parses to an
object, from the members of its `dailyEdits` (none when the member is missing), with
array elements unrestricted. -/
def readDailyEdits (members : Option (List (String × JsonValue))) : Obj (List JsonItem) :=
  let dailyEdits0 : Obj JsonValue := jsonObject (members.getD [])
  let dailyEdits := dailyEdits0.foldl resetNonArrayValue dailyEdits0
  dailyEdits.map fun kv =>
    (kv.1, match kv.2 with
      | JsonValue.arr items => items
      | JsonValue.notArray => [])

/-- A day value whose array holds strings only, among the unrestricted values. -/
def JsonDay.toValue : JsonDay → JsonValue
  | JsonDay.arr items => JsonValue.arr (items.map JsonItem.str)
  | JsonDay.notArray => JsonValue.notArray

/-- Whether a bucket is an array of strings. -/
def allStrings (bucket : List JsonItem) : Bool :=
  bucket.all fun item =>
    match item with
    | JsonItem.str _ => true
    | _ => false

/-! ## Exceptions

The definitions above take every host call to return. The ones below follow the same
code with the calls that may throw made explicit; a thrown exception is `Except.error`
and propagates through `await` and through callbacks until a `try` block catches it. -/

/-- Host calls that throw. -/
structure Faults where
  /-- Whether `app.vault.getMarkdownFiles()` throws. -/
  indexThrows : Bool
  /-- Whether `crypto.subtle.digest` rejects, or `crypto.subtle` is missing. -/
  digestThrows : Bool
  /-- Whether `app.vault.getAbstractFileByPath(p)` throws for the path `p`. -/
  lookupThrows : String → Bool

/-- White space and line terminators that `String.prototype.trim` removes. -/
def isTrimSpace (c : Char) : Bool :=
  (9 ≤ c.toNat && c.toNat ≤ 13) || c.toNat == 32 || c.toNat == 160 || c.toNat == 5760 ||
    (8192 ≤ c.toNat && c.toNat ≤ 8202) || c.toNat == 8232 || c.toNat == 8233 ||
    c.toNat == 8239 || c.toNat == 8287 || c.toNat == 12288 || c.toNat == 65279

/-- Method `s.trim()`. -/
def trim (s : String) : String :=
  String.mk ((s.data.dropWhile isTrimSpace).reverse.dropWhile isTrimSpace).reverse

/-- Method `arr.filter(callback)` with a callback that may throw: it runs on the
elements in order and the first exception propagates. -/
def filterE (p : String → Except String Bool) : List String → Except String (List String)
  | [] => Except.ok []
  | a :: as => do
    let keep ← p a
    let rest ← filterE p as
    pure (if keep then a :: rest else rest)

/-- Function `validatePath(path)` when the lookup may throw; it has no `try` block. -/
def validatePathE (h : Host) (faults : Faults) (path : String) : Except String Bool :=
  if faults.lookupThrows path then Except.error "getAbstractFileByPath"
  else Except.ok (validatePath h path)

namespace HeatmapRadar

/-- Call `app.vault.getMarkdownFiles()`. -/
def markdownFilesE (h : Host) (faults : Faults) : Except String (List TFile) :=
  if faults.indexThrows then Except.error "getMarkdownFiles" else Except.ok h.markdownFiles

/-- Function `hashPath(path)` when the digest may reject: nothing is cached then, so
every call reaches the digest. -/
def hashPathE (h : Host) (faults : Faults) (path : String) : Except String String :=
  if faults.digestThrows then Except.error "digest" else Except.ok (hashPath h path)

/-- Identifier recorded for a file, hashing only in hash mode. -/
def identifierE (cfg : Config) (h : Host) (faults : Faults) (path : String) :
    Except String String :=
  if cfg.useHashMode then hashPathE h faults path else Except.ok path

/-- Function `getAllFilesDateMap()` (lines 326-350); it has no `try` block. -/
def getAllFilesDateMapE (cfg : Config) (h : Host) (faults : Faults) :
    Except String (Obj (List String)) := do
  let files ← markdownFilesE h faults
  files.foldlM
    (fun (dateMap : Obj (List String)) file =>
      if shouldIgnore cfg file.path then pure dateMap
      else do
        let ident ← identifierE cfg h faults file.path
        pure (recordFile h dateMap file ident))
    []

/-- Function `getTodayModifiedFiles()` (lines 360-389); it has no `try` block. -/
def getTodayModifiedFilesE (cfg : Config) (h : Host) (faults : Faults) :
    Except String (List String) := do
  let today := getTodayString h
  let todayStart := h.parseDate (today ++ " 00:00:00")
  let todayEnd := h.parseDate (today ++ " 23:59:59")
  let files ← markdownFilesE h faults
  files.foldlM
    (fun (todayHashes : List String) file =>
      if shouldIgnore cfg file.path then pure todayHashes
      else if dateGe file.mtime todayStart && dateLe file.mtime todayEnd then do
        let ident ← identifierE cfg h faults file.path
        pure (JsSet.add todayHashes ident)
      else pure todayHashes)
    []

/-- Function `fullScanAllFiles()` (lines 394-419); it has no `try` block. -/
def fullScanAllFilesE (cfg : Config) (h : Host) (faults : Faults) : Except String Ledger := do
  let dateMap ← getAllFilesDateMapE cfg h faults
  pure
    { dailyEdits := some (arraysOf dateMap)
      lastFullScan := some (getTodayString h)
      version := some 7
      mode := some (if cfg.useHashMode then "hash-based" else "path-based")
      hashAlgorithm := if cfg.useHashMode then some cfg.hashAlgorithm else none
      lastUpdate := none }

/-- Function `loadHashBasedModeData()` (lines 510-581). `readDataFile` and
`writeDataFile` catch their own exceptions; the scans are awaited outside any `try`
block, and the `try` of step 5 only surrounds the detached write. -/
def loadHashBasedModeDataE (cfg : Config) (h : Host) (faults : Faults)
    (file1 file2 : DataFile) : Except String Run := do
  let today := getTodayString h
  match readDataFile file1 with
  | none =>
    let scanned ← fullScanAllFilesE cfg h faults
    let first := writeDataFile cfg h scanned
    let data := first.getD scanned
    let file := persist first file1
    pure
      { data := data
        countData := toCounts data
        file := persist (writeDataFile cfg h data) file }
  | some cached =>
    let todayModified ← getTodayModifiedFilesE cfg h faults
    let data := match readDataFile file2 with
      | some latestRemoteData => addToday latestRemoteData today todayModified
      | none => addToday cached today todayModified
    pure
      { data := data
        countData := toCounts data
        file := persist (writeDataFile cfg h data) file2 }

/-- Function `loadHeatmapData()` (lines 655-721): what the awaiting caller receives.
`type` is `heatmapCfg.type`; `cdayData` and `mdayData` stand for the calls
`getCdayData()` and `getMdayData()`. The background task is detached and wrapped in its
own `try` block, so it contributes nothing to the result. -/
def loadHeatmapDataE (cfg : Config) (h : Host) (faults : Faults) (type : Option String)
    (cdayData mdayData : Except String (Obj Nat)) (file1 file2 : DataFile) :
    Except String (Obj Nat) :=
  let type := trim (type.getD "")
  if type = "" ∨ type = "default" then
    (loadHashBasedModeDataE cfg h faults file1 file2).map fun run => run.countData
  else if type = "cday" then cdayData
  else if type = "mday" then mdayData
  else (loadHashBasedModeDataE cfg h faults file1 file2).map fun run => run.countData

/-- Function `mergeDataSafely(localData, remoteData)` (lines 454-499) with an existence
check that may throw; the function has no `try` block. -/
def mergeDataSafelyE (valid : String → Except String Bool) (localData remoteData : Ledger) :
    Except String Ledger := do
  let allDates := JsSet.ofList (localData.days ++ remoteData.days)
  let out ← allDates.foldlM
    (fun (st : Obj (List String) × Nat) (date : String) => do
      let localItems := localData.bucket date
      let remoteItems := remoteData.bucket date
      let mergedItems := JsSet.ofList (localItems ++ remoteItems)
      let inner ← mergedItems.foldlM
        (fun (acc : List String × Nat) item => do
          let isValid ← valid item
          pure (if isValid then (acc.1 ++ [item], acc.2) else (acc.1, acc.2 + 1)))
        ([], st.2)
      let validItems := inner.1
      pure (if validItems.length > 0 then (Obj.set st.1 date validItems, inner.2)
        else (st.1, inner.2)))
    ([], 0)
  pure { localData with dailyEdits := some out.1 }

end HeatmapRadar

namespace PathRecord

/-- Function `mergeDataSafely(localData, remoteData)` (lines 315-355) with an existence
check that may throw inside the `filter` callback; the function has no `try` block. -/
def mergeDataSafelyE (valid : String → Except String Bool) (localData remoteData : Ledger) :
    Except String Ledger := do
  let allDates := JsSet.ofList (localData.days ++ remoteData.days)
  let out ← allDates.foldlM
    (fun (st : Obj (List String) × Nat) (date : String) => do
      let localPaths := localData.bucket date
      let remotePaths := remoteData.bucket date
      let mergedPaths := JsSet.ofList (localPaths ++ remotePaths)
      let validPaths ← filterE valid mergedPaths
      let removedCount := st.2 + (mergedPaths.length - validPaths.length)
      pure (if validPaths.length > 0 then (Obj.set st.1 date validPaths, removedCount)
        else (st.1, removedCount)))
    ([], 0)
  pure { localData with dailyEdits := some out.1 }

end PathRecord

/-! ## view_default.js and HeatmapRadarCombined_and_save_data_to_datajson.js (count recording) -/

namespace CountRecord

/-- The `CONFIG` fields both count-recording scripts read for the edit log. -/
def CONFIG : Config :=
  { useHashMode := false
    hashAlgorithm := ""
    enableHashCache := false
    ignoreFolders := [".obsidian", ".trash", ".git"] }

/-- In-memory ledger object (`data`) as `readDataFile` returns it: `dailyEdits` maps a
day to a non-negative integer count. It is also the parsed content of the file the
scripts write. -/
structure CountLedger where
  dailyEdits : Obj Nat
  version : Option Nat
  lastFullScan : Option String
  lastUpdate : Option String
deriving DecidableEq, Repr

/-- Function `writeDataFile(data)` of the count-recording scripts: the object it
stringifies and stores, `none` when the storage adapter throws (it then returns
false, with `data` untouched). -/
def writeDataFile (h : Host) (data : CountLedger) : Option CountLedger :=
  if h.storageFails then none
  else
    let sortedKeys := sortBy (fun a b => h.localeCompare b a) (Obj.keys data.dailyEdits)
    let sortedDailyEdits := sortedKeys.foldl
      (fun (acc : Obj Nat) key => Obj.set acc key ((data.dailyEdits.get? key).getD 0))
      []
    some { data with
      dailyEdits := sortedDailyEdits
      lastUpdate := some (getCurrentTimestamp h) }

/-- Outcome of one call of `updateTodayData`. -/
structure Update where
  /-- Object `data` after the call (it is updated in place). -/
  data : CountLedger
  /-- Returned flag. -/
  returned : Bool
  /-- Content of the persisted file after the call; `none` is no file. -/
  file : Option CountLedger
deriving DecidableEq, Repr

/-- The `Set` todayFiles built by the loop of `updateTodayData`. -/
def todayFiles (cfg : Config) (h : Host) : List String :=
  let today := getTodayString h
  h.markdownFiles.foldl
    (fun (todayFiles : List String) file =>
      if shouldIgnore cfg file.path then todayFiles
      else if formatDate h file.mtime = today then JsSet.add todayFiles file.path
      else todayFiles)
    []

/-- Function `updateTodayData(data)`; `file` is the content of the persisted file
before the call. The result of `writeDataFile` is not looked at by the script. -/
def updateTodayData (cfg : Config) (h : Host) (data : CountLedger) (file : Option CountLedger) :
    Update :=
  let today := getTodayString h
  let oldCount := (data.dailyEdits.get? today).getD 0
  let newCount := (todayFiles cfg h).length
  let data1 := { data with dailyEdits := Obj.set data.dailyEdits today newCount }
  if oldCount ≠ newCount then
    match writeDataFile h data1 with
    | some written => { data := written, returned := true, file := some written }
    | none => { data := data1, returned := true, file := file }
  else { data := data1, returned := false, file := file }

end CountRecord

/-! ## Radar chart: folder attribution and statistics -/

/-- One entry of `cfg.radar.categories`; `none` is an absent `tags` or `folders`. -/
structure Category where
  name : String
  tags : Option (List String)
  folders : Option (List String)
deriving DecidableEq, Repr

/-- One Dataview page: `page.file.path` and `page.file.ext`. -/
structure Page where
  path : String
  ext : String
deriving DecidableEq, Repr

/-- The Dataview queries of the radar chart. -/
structure Dataview where
  /-- Pages of the folder source: the result of `dv.pages` on the quoted folder. -/
  pagesInFolder : String → List Page
  /-- Pages of the tag source: the result of `dv.pages` on `#` followed by the tag. -/
  pagesWithTag : String → List Page

/-- Function `normalizePath(path)`: first the leading and the trailing run of `/` are
removed, then every backslash (code 92) is replaced by `/`. -/
def normalizePath (path : String) : String :=
  if path = "" then ""
  else
    let trimmed := ((path.data.dropWhile fun c => c = '/').reverse.dropWhile
      fun c => c = '/').reverse
    String.mk (trimmed.map fun c => if c = Char.ofNat 92 then '/' else c)

/-- One element of `sortedFolders`. -/
structure FolderEntry where
  folder : String
  category : String
  depth : Nat
deriving DecidableEq, Repr

/-- The array `sortedFolders`: every configured folder with its category and its
depth, the number of non-empty pieces of the folder as written split at `/`, sorted by
descending depth. -/
def sortedFolders (categories : List Category) : List FolderEntry :=
  sortBy (fun a b => (b.depth : Int) - (a.depth : Int))
    (categories.flatMap fun cat =>
      (cat.folders.getD []).map fun f =>
        { folder := normalizePath f
          category := cat.name
          depth := ((split '/' f).filter fun s => s ≠ "").length })

/-- The `Map` fileOwnership, from normalized file path to category name. -/
def fileOwnership (dv : Dataview) (categories : List Category) : Obj String :=
  (sortedFolders categories).foldl
    (fun (fileOwnership : Obj String) entry =>
      ((dv.pagesInFolder entry.folder).filter fun p => p.ext = "md").foldl
        (fun (fileOwnership : Obj String) page =>
          let pagePath := normalizePath page.path
          if (fileOwnership.get? pagePath).isSome then fileOwnership
          else Obj.set fileOwnership pagePath entry.category)
        fileOwnership)
    []

/-- The three `Set`s of `radarData` for one category: countedPages, folderFiles and
tagFiles. -/
def radarSets (dv : Dataview) (fileOwnership : Obj String) (cat : Category) :
    List String × List String × List String :=
  let afterFolders := fileOwnership.foldl
    (fun (st : List String × List String × List String) (entry : String × String) =>
      if entry.2 = cat.name then (JsSet.add st.1 entry.1, JsSet.add st.2.1 entry.1, st.2.2)
      else st)
    ([], [], [])
  match cat.tags with
  | none => afterFolders
  | some tags =>
    tags.foldl
      (fun (st : List String × List String × List String) tag =>
        (dv.pagesWithTag tag).foldl
          (fun (st : List String × List String × List String) page =>
            let pagePath := normalizePath page.path
            (JsSet.add st.1 pagePath, st.2.1, JsSet.add st.2.2 pagePath))
          st)
      afterFolders

/-- The loop computing `overlapCount`. -/
def overlapCount (folderFiles tagFiles : List String) : Nat :=
  tagFiles.foldl (fun (n : Nat) filePath => if filePath ∈ folderFiles then n + 1 else n) 0

/-- The pair (displayFolderCount, displayTagCount). `Math.round` on the quotient is
computed on rationals: the floor of the value plus one half. -/
def displayCounts (totalCount folderCount tagCount overlapCount : Nat) : Int × Int :=
  if folderCount > 0 ∧ tagCount > 0 then
    let sum : Int := (folderCount : Int) + (tagCount : Int) - (overlapCount : Int)
    if sum = (totalCount : Int) then
      let displayFolderCount : Int := (folderCount : Int) - (overlapCount : Int)
      (displayFolderCount, (totalCount : Int) - displayFolderCount)
    else
      let ratio : ℚ := (folderCount : ℚ) / ((folderCount : ℚ) + (tagCount : ℚ))
      let displayFolderCount : Int := Rat.floor ((totalCount : ℚ) * ratio + 1 / 2)
      (displayFolderCount, (totalCount : Int) - displayFolderCount)
  else if folderCount > 0 then ((totalCount : Int), 0)
  else if tagCount > 0 then (0, (totalCount : Int))
  else ((folderCount : Int), (tagCount : Int))

/-- The `stats` of one element of `radarData`. -/
structure RadarStats where
  fromFolders : Int
  fromTags : Int
  overlap : Nat
  total : Nat
deriving DecidableEq, Repr

/-- The `stats` that `radarData` computes for one category. -/
def radarData (dv : Dataview) (fileOwnership : Obj String) (cat : Category) : RadarStats :=
  let sets := radarSets dv fileOwnership cat
  let totalCount := sets.1.length
  let folderCount := sets.2.1.length
  let tagCount := sets.2.2.length
  let overlap := overlapCount sets.2.1 sets.2.2
  let display := displayCounts totalCount folderCount tagCount overlap
  { fromFolders := display.1
    fromTags := display.2
    overlap := overlap
    total := totalCount }

/-! ## Heatmap grid -/

/-- What the week loop of the heatmap reads. -/
structure HeatmapInput where
  /-- Clock `new Date()`, epoch ms. -/
  today : Int
  /-- Weekday `today.getDay()`, 0 for Sunday. -/
  getDay : Nat
  /-- The string built from `getFullYear`, `getMonth` and `getDate` of an instant. -/
  localDateString : Int → String
  /-- The counts `heatData`. -/
  heatData : Obj Nat

/-- Constant `daylong`. -/
def daylong : Int := 24 * 60 * 60 * 1000

/-- Constant `startDay`. -/
def startDay (g : HeatmapInput) : Int :=
  g.today - ((g.getDay : Int) + 104 * 7) * daylong

/-- Instant `theDay` of the cell numbered `dayCount`. -/
def theDay (g : HeatmapInput) (dayCount : Nat) : Int :=
  startDay g + (dayCount : Int) * daylong

/-- The flag `future` of the cell numbered `dayCount`. -/
def future (g : HeatmapInput) (dayCount : Nat) : Bool :=
  decide (dayCount > 729) && decide (theDay g dayCount - g.today ≥ daylong - 1)

/-- Default `levelGetter`. -/
def levelGetter (count : Nat) : Nat :=
  if count < 5 then count else 5

/-- One cell appended by `addDay`. -/
structure DayCell where
  className : List String
  tipLabel : String
deriving DecidableEq, Repr

/-- Body of the day loop for the cell numbered `dayCount` (the month label is left out). -/
def dayCell (g : HeatmapInput) (dayCount : Nat) : DayCell :=
  let theDayStr := g.localDateString (theDay g dayCount)
  let count := (g.heatData.get? theDayStr).getD 0
  let level := levelGetter count
  let className := ["dms-heatmap-day", "dms-heatmap-level-" ++ toString level]
  { className := if future g dayCount then className ++ ["dms-heatmap-future-day"] else className
    tipLabel :=
      if future g dayCount then ""
      else "aria-label=\"" ++ (if level ≠ 0 then toString count ++ " " else "") ++ theDayStr
        ++ "\"" }

/-- The week loop: `weeks` columns are still to come and `dayCount` cells have been
rendered. Each column is the list of its seven cells. -/
def weekLoop (g : HeatmapInput) : Nat → Nat → List (List DayCell)
  | 0, _ => []
  | weeks + 1, dayCount =>
    if startDay g + (dayCount : Int) * daylong > g.today then []
    else ((List.range 7).map fun d => dayCell g (dayCount + d)) :: weekLoop g weeks (dayCount + 7)

/-- The columns rendered by the heatmap: the loop over 105 weeks. -/
def heatmapWeeks (g : HeatmapInput) : List (List DayCell) :=
  weekLoop g 105 0

/-! ## termynal_backup.js: the line queue and the instance identifier

In `processLines` the state is changed by the loop alone (no `restart` or `stop`
comes in during an `await`, so `isRunning` stays true), and every awaited promise
resolves. A line identifier is the instance identifier followed by the
`originalIndex` of the line, so a set of line identifiers is modelled by the set of
these numbers. -/

namespace ObsidianTermynal

/-- One element of `state.lineQueue`; `lineDelay` is `none` when it is `undefined`. -/
structure LineData where
  type : String
  lineDelay : Option Nat
  originalIndex : Nat
deriving DecidableEq, Repr

/-- The `Set` outputTypes. -/
def outputTypes : List String :=
  ["output", "comment", "warning", "success", "error"]

/-- One element of a batch. -/
structure BatchEntry where
  lineData : LineData
  index : Nat
deriving DecidableEq, Repr

/-- The `for` loop of `collectOutputBatch`, at index `i` with the lines from `i` on. -/
def collectLoop (processedLines : List Nat) : List LineData → Nat → List BatchEntry →
    List BatchEntry
  | [], _, batch => batch
  | lineData :: rest, i, batch =>
    if lineData.originalIndex ∈ processedLines then
      if batch.length = 0 then collectLoop processedLines rest (i + 1) batch else batch
    else if lineData.type ∉ outputTypes then batch
    else
      let batch1 := batch ++ [{ lineData := lineData, index := i }]
      if lineData.lineDelay.isSome then batch1
      else collectLoop processedLines rest (i + 1) batch1

/-- Method `collectOutputBatch(startIndex)`. -/
def collectOutputBatch (lineQueue : List LineData) (processedLines : List Nat)
    (startIndex : Nat) : List BatchEntry :=
  collectLoop processedLines (lineQueue.drop startIndex) startIndex []

/-- What one iteration of the loop of `processLines` does. -/
inductive Step where
  /-- The line at this index was already processed: it is skipped. -/
  | skipped (index : Nat)
  /-- The lines at these indices were processed as one batch. -/
  | batch (indices : List Nat)
  /-- The line at this index was processed on its own. -/
  | single (index : Nat)
deriving DecidableEq, Repr

/-- Indices of the queue an iteration has dealt with. -/
def Step.indices : Step → List Nat
  | Step.skipped index => [index]
  | Step.batch indices => indices
  | Step.single index => [index]

/-- The `while` loop of `processLines` at index `i`. `fuel` bounds the number of
evaluations of the loop condition: `none` means the bound was reached before the loop
ended. `inDom` tells whether the document already holds an element for a line when the
loop starts. The result is the final `processedLines` and the iterations made. -/
def processLoop (lineQueue : List LineData) (inDom : Nat → Bool) :
    Nat → Nat → List Nat → List Step → Option (List Nat × List Step)
  | 0, _, _, _ => none
  | fuel + 1, i, processedLines, steps =>
    match lineQueue.get? i with
    | none => some (processedLines, steps)
    | some lineData =>
      if lineData.originalIndex ∈ processedLines ∨ inDom lineData.originalIndex = true then
        processLoop lineQueue inDom fuel (i + 1)
          (JsSet.add processedLines lineData.originalIndex) (steps ++ [Step.skipped i])
      else if lineData.type ∈ outputTypes then
        let batch := collectOutputBatch lineQueue processedLines i
        processLoop lineQueue inDom fuel (i + batch.length)
          (batch.foldl (fun (s : List Nat) e => JsSet.add s e.lineData.originalIndex)
            processedLines)
          (steps ++ [Step.batch (batch.map fun e => e.index)])
      else
        processLoop lineQueue inDom fuel (i + 1)
          (JsSet.add processedLines lineData.originalIndex) (steps ++ [Step.single i])

/-- Method `processLines()`: the queue is sorted by `originalIndex`, then the loop runs
from index 0. -/
def processLines (fuel : Nat) (lineQueue : List LineData) (processedLines : List Nat)
    (inDom : Nat → Bool) : Option (List Nat × List Step) :=
  processLoop (sortBy (fun a b => (a.originalIndex : Int) - (b.originalIndex : Int)) lineQueue)
    inDom fuel 0 processedLines []

/-- Text `JSON.stringify(s)` of a string. -/
def jsonQuote (s : String) : String :=
  "\"" ++ String.join (s.data.map fun c =>
    if c = Char.ofNat 34 then String.mk [Char.ofNat 92, Char.ofNat 34]
    else if c = Char.ofNat 92 then String.mk [Char.ofNat 92, Char.ofNat 92]
    else if c = Char.ofNat 8 then String.mk [Char.ofNat 92, 'b']
    else if c = Char.ofNat 9 then String.mk [Char.ofNat 92, 't']
    else if c = Char.ofNat 10 then String.mk [Char.ofNat 92, 'n']
    else if c = Char.ofNat 12 then String.mk [Char.ofNat 92, 'f']
    else if c = Char.ofNat 13 then String.mk [Char.ofNat 92, 'r']
    else if c.toNat < 32 then
      String.mk [Char.ofNat 92, 'u', '0', '0', hexDigit (c.toNat / 16), hexDigit (c.toNat % 16)]
    else String.mk [c]) ++ "\""

/-- Text `JSON.stringify` gives for the object holding lines, title and theme; `lines`
is the JSON text of `config.lines`, and an `undefined` title or theme leaves its member
out. -/
def configStr (lines : String) (title theme : Option String) : String :=
  "\x7b" ++ String.intercalate ","
    (["\"lines\":" ++ lines]
      ++ (match title with
        | some t => ["\"title\":" ++ jsonQuote t]
        | none => [])
      ++ (match theme with
        | some t => ["\"theme\":" ++ jsonQuote t]
        | none => []))
    ++ "\x7d"

/-- Conversion to a signed 32-bit integer, as the bitwise operators do. -/
def toInt32 (x : Int) : Int :=
  (x + 2147483648) % 4294967296 - 2147483648

/-- Digit of `toString(36)`. -/
def digit36 (d : Nat) : Char :=
  if d < 10 then Char.ofNat (48 + d) else Char.ofNat (87 + d)

/-- Digits of a number in base 36, most significant first. -/
def toDigits36 : Nat → Nat → List Char → List Char
  | 0, _, acc => acc
  | fuel + 1, n, acc =>
    if n / 36 = 0 then digit36 (n % 36) :: acc
    else toDigits36 fuel (n / 36) (digit36 (n % 36) :: acc)

/-- Method `generateInstanceId()`. -/
def generateInstanceId (lines : String) (title theme : Option String) : String :=
  let hash := (utf16 (configStr lines title theme)).foldl
    (fun (hash : Int) (c : Nat) => toInt32 (toInt32 (hash * 32) - hash + (c : Int)))
    0
  "termynal_" ++ String.mk ((toDigits36 (hash.natAbs + 1) hash.natAbs []).take 8)

end ObsidianTermynal

/-! ## A concrete host, for evaluating the scripts -/

namespace Fixture

/-- Epoch milliseconds of 2025-10-01 00:00:00 in Asia/Shanghai. -/
def october : Int := 1759248000000

/-- Two decimal digits of a number below 100. -/
def pad2 (n : Nat) : String :=
  String.mk [Char.ofNat (48 + n / 10 % 10), Char.ofNat (48 + n % 10)]

/-- Day-of-month formatting in Asia/Shanghai, exact for instants of October 2025. -/
def toLocaleDate (ms : Int) : String :=
  "2025/10/" ++ pad2 (1 + ((ms - october) / 86400000).toNat)

/-- Date and time formatting; the time of day is fixed at noon. -/
def toLocaleDateTime (ms : Int) : String :=
  toLocaleDate ms ++ " 12:00:00"

/-- Parser of a machine whose time zone is Asia/Shanghai, for the two strings that
`getTodayModifiedFiles` builds on 2025-10-19. -/
def parseDate (str : String) : Option Int :=
  if str = "2025-10-19 00:00:00" then some (october + 18 * 86400000)
  else if str = "2025-10-19 23:59:59" then some (october + 18 * 86400000 + 86399000)
  else none

/-- Stand-in for SHA-256: 32 bytes read off the characters of the path. -/
def sha256 (path : String) : List Nat :=
  ((path.data.map fun (c : Char) => c.toNat % 256) ++ List.replicate 32 0).take 32

/-- Collation by UTF-16 code units. -/
def localeCompare (a b : String) : Int :=
  if a = b then 0 else if lexLe (utf16 a) (utf16 b) then -1 else 1

/-- Host on 2025-10-19 12:00 (Asia/Shanghai) with the given markdown files. -/
def host (files : List TFile) : Host :=
  { markdownFiles := files
    abstractFile := fun p => files.any fun f => decide (f.path = p)
    now := october + 18 * 86400000 + 43200000
    toLocaleDate := toLocaleDate
    toLocaleDateTime := toLocaleDateTime
    parseDate := parseDate
    sha256 := sha256
    localeCompare := localeCompare
    storageFails := false }

/-- A ledger holding the given days, with the metadata `HeatmapRadar.js` writes. -/
def hashLedger (days : List (String × List String)) : Ledger :=
  { dailyEdits := some days
    version := some 7
    mode := some "hash-based"
    hashAlgorithm := some "SHA-256-64bit"
    lastFullScan := some "2025-10-01"
    lastUpdate := some "2025-10-18 12:00:00" }

/-- Vault holding `Keep.md`, last modified on 2025-10-18 at 10:00; `Old.md`, recorded
on the same day, has been deleted since. -/
def vaultAfterDelete : Host :=
  host [{ path := "Keep.md", mtime := october + 17 * 86400000 + 36000000 }]

/-- Ledger recording both `Old.md` and `Keep.md` on 2025-10-18. -/
def ledgerBeforeDelete : Ledger :=
  hashLedger
    [("2025-10-18", [hashPath vaultAfterDelete "Old.md", hashPath vaultAfterDelete "Keep.md"])]

/-- Persisted file holding `ledgerBeforeDelete`. -/
def fileBeforeDelete : DataFile :=
  DataFile.parsed ledgerBeforeDelete.toRaw

/-- Vault holding `Note.md`, modified today (2025-10-19) at 09:00. -/
def vaultNote : Host :=
  host [{ path := "Note.md", mtime := october + 18 * 86400000 + 32400000 }]

/-- Ledger recording `Plan.md` for today and `Note.md` for 2025-10-17. -/
def ledgerNote : Ledger :=
  hashLedger [("2025-10-19", [hashPath vaultNote "Plan.md"]),
    ("2025-10-17", [hashPath vaultNote "Note.md"])]

/-- Persisted file holding `ledgerNote`. -/
def fileNote : DataFile :=
  DataFile.parsed ledgerNote.toRaw

/-- Persisted file whose bucket of 2025-10-18 lists the identifier of `Note.md` twice. -/
def fileRepeated : DataFile :=
  DataFile.parsed (hashLedger
    [("2025-10-18", [hashPath vaultNote "Note.md", hashPath vaultNote "Note.md"])]).toRaw

/-- Parsed file whose day 2025-10-18 is not an array and whose day 2025-10-17 is one. -/
def rawMalformed : RawLedger :=
  { dailyEdits := some [("2025-10-18", JsonDay.notArray), ("2025-10-17", JsonDay.arr ["Note.md"])]
    version := some 7
    mode := some "hash-based"
    hashAlgorithm := some "SHA-256-64bit"
    lastFullScan := none
    lastUpdate := some "2025-10-18 12:00:00" }

/-- Ledger whose days and identifiers are out of order. -/
def ledgerUnsorted : Ledger :=
  hashLedger [("2025-10-17", ["b.md", "a.md"]), ("2025-10-19", ["Note.md", "Plan.md", "Doc.md"])]

/-- Parser of a machine whose time zone is UTC, for the two strings that
`getTodayModifiedFiles` builds on 2025-10-19: midnight UTC is 08:00 in Asia/Shanghai. -/
def parseDateUtc (str : String) : Option Int :=
  if str = "2025-10-19 00:00:00" then some (october + 18 * 86400000 + 28800000)
  else if str = "2025-10-19 23:59:59" then some (october + 18 * 86400000 + 28800000 + 86399000)
  else none

/-- Vault on a machine in UTC at 2025-10-19 12:00 (Asia/Shanghai) holding `Early.md`,
modified on 2025-10-19 at 03:00 (Asia/Shanghai). -/
def vaultUtc : Host :=
  { host [{ path := "Early.md", mtime := october + 18 * 86400000 + 10800000 }] with
    parseDate := parseDateUtc }

/-- Vault on a machine in Asia/Shanghai at 2025-10-19 23:59:59.800 holding `Late.md`,
modified on 2025-10-19 at 23:59:59.500. -/
def vaultLate : Host :=
  { host [{ path := "Late.md", mtime := october + 18 * 86400000 + 86399500 }] with
    now := october + 18 * 86400000 + 86399800 }

/-- No host call throws. -/
def noFaults : Faults :=
  { indexThrows := false, digestThrows := false, lookupThrows := fun _ => false }

/-- Listing the document index throws. -/
def indexFault : Faults :=
  { indexThrows := true, digestThrows := false, lookupThrows := fun _ => false }

/-- The digest is not available. -/
def digestFault : Faults :=
  { indexThrows := false, digestThrows := true, lookupThrows := fun _ => false }

/-- The lookup of `Note.md` throws. -/
def lookupFault : Faults :=
  { indexThrows := false, digestThrows := false, lookupThrows := fun p => decide (p = "Note.md") }

/-- Host equal to `vaultNote` whose storage adapter throws. -/
def vaultNoteReadOnly : Host :=
  { vaultNote with storageFails := true }

/-- Local view recording `Note.md` for 2025-10-19, in the path-recording format. -/
def localNote : Ledger :=
  { dailyEdits := some [("2025-10-19", ["Note.md"])]
    version := some 6
    mode := none
    hashAlgorithm := none
    lastFullScan := none
    lastUpdate := none }

/-- Remote ledger recording `Plan.md` for 2025-10-19 and `Note.md` for 2025-10-17. -/
def remoteNote : Ledger :=
  { dailyEdits := some [("2025-10-19", ["Plan.md"]), ("2025-10-17", ["Note.md"])]
    version := some 6
    mode := some "path-based"
    hashAlgorithm := none
    lastFullScan := some "2025-10-01"
    lastUpdate := some "2025-10-18 12:00:00" }

/-- The `CONFIG` of `HeatmapRadar.js` with `useHashMode` switched off. -/
def pathConfig : Config :=
  { HeatmapRadar.CONFIG with useHashMode := false }

/-- Persisted file left by the full reconcile of the path-recording script on `vaultNote`. -/
def fileAfterFullScan : DataFile :=
  (PathRecord.loadPathBasedModeData PathRecord.CONFIG vaultNote DataFile.absent DataFile.absent).file

/-- Count ledger recording one edit for today and three for 2025-10-17. -/
def countLedger : CountRecord.CountLedger :=
  { dailyEdits := [("2025-10-17", 3), ("2025-10-19", 1)]
    version := some 4
    lastFullScan := some "2025-10-01"
    lastUpdate := some "2025-10-18 12:00:00" }

/-- Vault holding `Note.md` and `Plan.md`, both modified today, `Old.md` modified on
2025-10-17 and an ignored file modified today. -/
def vaultCount : Host :=
  host [{ path := "Note.md", mtime := october + 18 * 86400000 + 32400000 },
    { path := "Old.md", mtime := october + 16 * 86400000 + 32400000 },
    { path := "Plan.md", mtime := october + 18 * 86400000 + 36000000 },
    { path := ".trash/Gone.md", mtime := october + 18 * 86400000 + 36000000 }]

/-- Folder source over a list of vault paths: the pages lying under the folder. -/
def dataview (paths : List String) (tagged : List (String × String)) : Dataview :=
  { pagesInFolder := fun folder =>
      (paths.filter fun p => startsWith p (folder ++ "/")).map fun p => { path := p, ext := "md" }
    pagesWithTag := fun tag =>
      (tagged.filter fun e => e.1 = tag).map fun e => { path := e.2, ext := "md" } }

/-- Vault with one note in folder `A` and one in its sub-folder `A/B`. -/
def dataviewNested : Dataview :=
  dataview ["A/B/x.md", "A/y.md"] []

/-- Categories whose sub-folder is written with a backslash. -/
def categoriesBackslash : List Category :=
  [{ name := "Parent", tags := none, folders := some ["A"] },
    { name := "Child", tags := none, folders := some ["A\\B"] }]

/-- The same categories with the sub-folder written with `/`. -/
def categoriesSlash : List Category :=
  [{ name := "Parent", tags := none, folders := some ["A"] },
    { name := "Child", tags := none, folders := some ["A/B"] }]

/-- Heatmap rendered on Sunday 2025-10-19 at 12:00, without any count. -/
def sunday : HeatmapInput :=
  { today := october + 18 * 86400000 + 43200000
    getDay := 0
    localDateString := fun ms => "2025-10-" ++ pad2 (1 + ((ms - october) / 86400000).toNat)
    heatData := [] }

/-- Queue of five lines: a command, three lines of output of which the second has its
own delay, and a command. -/
def queueFive : List ObsidianTermynal.LineData :=
  [{ type := "input", lineDelay := none, originalIndex := 0 },
    { type := "output", lineDelay := none, originalIndex := 1 },
    { type := "output", lineDelay := some 500, originalIndex := 2 },
    { type := "output", lineDelay := none, originalIndex := 3 },
    { type := "input", lineDelay := none, originalIndex := 4 }]

/-- JSON text of a `lines` array holding one command. -/
def linesJson : String :=
  "[\x7b\"type\":\"input\",\"value\":\"ls\"\x7d]"

end Fixture

/-! ## Container lemmas -/

namespace Js

section Sets

variable {α : Type} [DecidableEq α]

theorem JsSet.mem_add (s : List α) (x y : α) : y ∈ JsSet.add s x ↔ y ∈ s ∨ y = x := by
  unfold JsSet.add
  by_cases hx : x ∈ s
  · simp only [hx, if_true]
    constructor
    · exact Or.inl
    · rintro (hy | rfl)
      · exact hy
      · exact hx
  · simp [hx]

theorem JsSet.nodup_add (s : List α) (x : α) (hs : s.Nodup) : (JsSet.add s x).Nodup := by
  unfold JsSet.add
  by_cases hx : x ∈ s
  · simpa [hx] using hs
  · simp only [hx, if_false]
    exact List.Nodup.append hs (List.nodup_singleton x) (by simpa using hx)

theorem JsSet.mem_foldl_add (xs s : List α) (y : α) :
    y ∈ xs.foldl JsSet.add s ↔ y ∈ s ∨ y ∈ xs := by
  induction xs generalizing s with
  | nil => simp
  | cons a as ih =>
    simp only [List.foldl_cons, ih, JsSet.mem_add, List.mem_cons]
    tauto

theorem JsSet.nodup_foldl_add (xs s : List α) (hs : s.Nodup) :
    (xs.foldl JsSet.add s).Nodup := by
  induction xs generalizing s with
  | nil => simpa using hs
  | cons a as ih => exact ih _ (JsSet.nodup_add s a hs)

theorem JsSet.mem_ofList (xs : List α) (y : α) : y ∈ JsSet.ofList xs ↔ y ∈ xs := by
  simp [JsSet.ofList, JsSet.mem_foldl_add]

theorem JsSet.nodup_ofList (xs : List α) : (JsSet.ofList xs).Nodup :=
  JsSet.nodup_foldl_add xs [] List.nodup_nil

theorem JsSet.foldl_add_of_nodup (xs s : List α) (h : (s ++ xs).Nodup) :
    xs.foldl JsSet.add s = s ++ xs := by
  induction xs generalizing s with
  | nil => simp
  | cons a as ih =>
    have ha : a ∉ s := by
      intro hmem
      have := List.disjoint_of_nodup_append h
      exact this hmem (List.mem_cons_self a as)
    have hstep : JsSet.add s a = s ++ [a] := by simp [JsSet.add, ha]
    rw [List.foldl_cons, hstep, ih]
    · simp
    · simpa using h

theorem JsSet.ofList_of_nodup (xs : List α) (h : xs.Nodup) : JsSet.ofList xs = xs := by
  have := JsSet.foldl_add_of_nodup xs [] (by simpa using h)
  simpa [JsSet.ofList] using this

end Sets

section Objects

variable {β : Type}

theorem Obj.get?_set (o : Obj β) (k key : String) (v : β) :
    (Obj.set o k v).get? key = if k = key then some v else o.get? key := by
  induction o with
  | nil =>
    by_cases hk : k = key <;> simp [Obj.set, Obj.get?, hk]
  | cons e rest ih =>
    obtain ⟨k0, w⟩ := e
    by_cases h0 : k0 = k
    · subst h0
      by_cases hk : k0 = key <;> simp [Obj.set, Obj.get?, hk]
    · by_cases hk : k = key
      · subst hk
        simp [Obj.set, Obj.get?, h0, ih]
      · by_cases hk0 : k0 = key
        · subst hk0
          simp [Obj.set, Obj.get?, h0, hk]
        · simp [Obj.set, Obj.get?, h0, hk, hk0, ih]

theorem Obj.mem_keys_iff (o : Obj β) (key : String) :
    key ∈ Obj.keys o ↔ (o.get? key).isSome = true := by
  induction o with
  | nil => simp [Obj.keys, Obj.get?]
  | cons e rest ih =>
    obtain ⟨k0, w⟩ := e
    by_cases hk : k0 = key
    · simp [Obj.keys, Obj.get?, hk]
    · have ih2 : key ∈ List.map Prod.fst rest ↔ (Obj.get? rest key).isSome = true := ih
      have hk2 : ¬ key = k0 := fun h => hk h.symm
      simp only [Obj.keys, Obj.get?, hk, if_false, List.map_cons, List.mem_cons, hk2, false_or]
      exact ih2

theorem Obj.get?_eq_none_iff (o : Obj β) (key : String) :
    o.get? key = none ↔ key ∉ Obj.keys o := by
  rw [Obj.mem_keys_iff]
  cases o.get? key <;> simp

theorem Obj.mem_of_get? (o : Obj β) (key : String) (v : β) (h : o.get? key = some v) :
    (key, v) ∈ o := by
  induction o with
  | nil => simp [Obj.get?] at h
  | cons e rest ih =>
    obtain ⟨k0, w⟩ := e
    by_cases hk : k0 = key
    · simp [Obj.get?, hk] at h
      simp [hk, h]
    · simp [Obj.get?, hk] at h
      exact List.mem_cons_of_mem _ (ih h)

theorem Obj.get?_of_mem (o : Obj β) (hn : (Obj.keys o).Nodup) (key : String) (v : β)
    (h : (key, v) ∈ o) : o.get? key = some v := by
  induction o with
  | nil => simp at h
  | cons e rest ih =>
    obtain ⟨k0, w⟩ := e
    simp only [Obj.keys, List.map_cons, List.nodup_cons] at hn
    rcases List.mem_cons.mp h with heq | hmem
    · cases heq
      simp [Obj.get?]
    · have hne : k0 ≠ key := by
        intro hk
        apply hn.1
        rw [hk]
        exact List.mem_map_of_mem Prod.fst hmem
      simp only [Obj.get?, hne, if_false]
      exact ih hn.2 hmem

theorem Obj.keys_set (o : Obj β) (k : String) (v : β) :
    Obj.keys (Obj.set o k v) = if k ∈ Obj.keys o then Obj.keys o else Obj.keys o ++ [k] := by
  induction o with
  | nil => simp [Obj.set, Obj.keys]
  | cons e rest ih =>
    obtain ⟨k0, w⟩ := e
    have ih2 : List.map Prod.fst (Obj.set rest k v) =
        if k ∈ List.map Prod.fst rest then List.map Prod.fst rest
        else List.map Prod.fst rest ++ [k] := ih
    by_cases h0 : k0 = k
    · subst h0
      simp [Obj.set, Obj.keys]
    · have h1 : ¬ k = k0 := fun h => h0 h.symm
      by_cases hk : k ∈ List.map Prod.fst rest
      · simp only [Obj.set, Obj.keys, h0, if_false, List.map_cons, List.mem_cons, h1, false_or,
          hk, if_true, ih2]
      · simp only [Obj.set, Obj.keys, h0, if_false, List.map_cons, List.mem_cons, h1, false_or,
          hk, ih2, List.cons_append]

theorem Obj.nodup_keys_set (o : Obj β) (k : String) (v : β) (hn : (Obj.keys o).Nodup) :
    (Obj.keys (Obj.set o k v)).Nodup := by
  rw [Obj.keys_set]
  by_cases hk : k ∈ Obj.keys o
  · simpa [hk] using hn
  · simp only [hk, if_false]
    exact List.Nodup.append hn (List.nodup_singleton k) (by simpa using hk)

theorem Obj.forall_set (P : β → Prop) (o : Obj β) (k : String) (v : β)
    (ho : ∀ e ∈ o, P e.2) (hv : P v) : ∀ e ∈ Obj.set o k v, P e.2 := by
  induction o with
  | nil =>
    intro e he
    simp [Obj.set] at he
    subst he
    exact hv
  | cons e0 rest ih =>
    obtain ⟨k0, w⟩ := e0
    intro e he
    by_cases h0 : k0 = k
    · simp only [Obj.set, h0, if_true, List.mem_cons] at he
      rcases he with rfl | hmem
      · exact hv
      · exact ho e (List.mem_cons_of_mem _ hmem)
    · simp only [Obj.set, h0, if_false, List.mem_cons] at he
      rcases he with rfl | hmem
      · exact ho _ (List.mem_cons_self _ _)
      · exact ih (fun e he => ho e (List.mem_cons_of_mem _ he)) e hmem

theorem Obj.set_of_not_mem (o : Obj β) (k : String) (v : β) (hk : k ∉ Obj.keys o) :
    Obj.set o k v = o ++ [(k, v)] := by
  induction o with
  | nil => simp [Obj.set]
  | cons e rest ih =>
    obtain ⟨k0, w⟩ := e
    simp only [Obj.keys, List.map_cons, List.mem_cons, not_or] at hk
    have h0 : ¬ k0 = k := fun h => hk.1 h.symm
    simp only [Obj.set, h0, if_false, List.cons_append]
    rw [ih hk.2]

/-- Rebuilding an object entry by entry, mapping each value, when its keys are distinct. -/
theorem Obj.foldl_set_map_of_nodup {γ : Type} (f : β → γ) (o : Obj β) (acc : Obj γ)
    (hn : (Obj.keys acc ++ Obj.keys o).Nodup) :
    o.foldl (fun (a : Obj γ) (e : String × β) => Obj.set a e.1 (f e.2)) acc
      = acc ++ o.map fun e => (e.1, f e.2) := by
  induction o generalizing acc with
  | nil => simp
  | cons e rest ih =>
    have hk : e.1 ∉ Obj.keys acc := by
      simp only [Obj.keys, List.map_cons] at hn
      have hd := List.disjoint_of_nodup_append hn
      intro hmem
      exact hd hmem (List.mem_cons_self _ _)
    rw [List.foldl_cons, Obj.set_of_not_mem acc e.1 (f e.2) hk, ih]
    · simp
    · simpa [Obj.keys] using hn

theorem Obj.keys_map {γ : Type} (f : β → γ) (o : Obj β) :
    Obj.keys (o.map fun e => (e.1, f e.2)) = Obj.keys o := by
  simp [Obj.keys, List.map_map, Function.comp_def]

theorem Obj.get?_map {γ : Type} (f : β → γ) (o : Obj β) (key : String) :
    Obj.get? (o.map fun e => (e.1, f e.2)) key = (o.get? key).map f := by
  induction o with
  | nil => simp [Obj.get?]
  | cons e rest ih =>
    obtain ⟨k0, w⟩ := e
    by_cases hk : k0 = key
    · simp [Obj.get?, hk]
    · simp only [List.map_cons, Obj.get?, hk, if_false]
      exact ih

/-- Writing a computed value under each key of a list, into the empty object. -/
theorem Obj.get?_foldl_set_keys (g : String → β) (ks : List String) (acc : Obj β)
    (key : String) :
    (ks.foldl (fun (a : Obj β) k => Obj.set a k (g k)) acc).get? key
      = if key ∈ ks then some (g key) else acc.get? key := by
  induction ks generalizing acc with
  | nil => simp
  | cons k rest ih =>
    rw [List.foldl_cons, ih, Obj.get?_set]
    by_cases hmem : key ∈ rest
    · simp [hmem]
    · by_cases hk : k = key
      · subst hk
        simp
      · have hk2 : ¬ key = k := fun h => hk h.symm
        simp [hmem, hk, hk2]

theorem Obj.nodup_keys_foldl_set {γ : Type} (xs : List γ) (f : Obj β → γ → Obj β) (acc : Obj β)
    (hf : ∀ a x, (Obj.keys a).Nodup → (Obj.keys (f a x)).Nodup) (hn : (Obj.keys acc).Nodup) :
    (Obj.keys (xs.foldl f acc)).Nodup := by
  induction xs generalizing acc with
  | nil => simpa using hn
  | cons x rest ih => exact ih _ (hf acc x hn)

end Objects

end Js

/-! ## Lemmas on ledgers and on mergeDataSafely -/

theorem Ledger.bucket_eq_nil_of_not_mem_days (l : Ledger) (d : String) (hd : d ∉ l.days) :
    l.bucket d = [] := by
  unfold Ledger.bucket
  have : (l.dailyEdits.getD []).get? d = none := (Obj.get?_eq_none_iff _ d).mpr hd
  simp [this]

theorem Ledger.mem_days_of_mem_bucket (l : Ledger) (d x : String) (hx : x ∈ l.bucket d) :
    d ∈ l.days := by
  by_contra hd
  rw [Ledger.bucket_eq_nil_of_not_mem_days l d hd] at hx
  simp at hx

/-- The validity loop of `HeatmapRadar.mergeDataSafely` is a filter that counts removals. -/
theorem validLoop_eq_filter (valid : String → Bool) (xs acc : List String) (n : Nat) :
    xs.foldl
        (fun (acc : List String × Nat) item =>
          if valid item then (acc.1 ++ [item], acc.2) else (acc.1, acc.2 + 1))
        (acc, n)
      = (acc ++ xs.filter (fun path => valid path),
          n + (xs.filter fun path => !valid path).length) := by
  induction xs generalizing acc n with
  | nil => simp
  | cons a as ih =>
    by_cases ha : valid a = true
    · simp [List.foldl_cons, ha, ih]
    · simp only [Bool.not_eq_true] at ha
      simp [List.foldl_cons, ha, ih]
      omega

/-- Both scripts compute the same merge. -/
theorem mergeDataSafely_eq (valid : String → Bool) (localData remoteData : Ledger) :
    HeatmapRadar.mergeDataSafely valid localData remoteData
      = PathRecord.mergeDataSafely valid localData remoteData := by
  unfold HeatmapRadar.mergeDataSafely PathRecord.mergeDataSafely
  simp only [validLoop_eq_filter, List.nil_append]

/-- Fold of the per-day step of `mergeDataSafely`: the bucket it leaves for a day. -/
theorem mergeFold_get? (f : String → List String) (g : Nat → String → Nat)
    (ds : List String) (st : Obj (List String) × Nat) (d : String) :
    (ds.foldl
        (fun (st : Obj (List String) × Nat) (date : String) =>
          if (f date).length > 0 then (Obj.set st.1 date (f date), g st.2 date)
          else (st.1, g st.2 date))
        st).1.get? d
      = if d ∈ ds ∧ f d ≠ [] then some (f d) else st.1.get? d := by
  induction ds generalizing st with
  | nil => simp
  | cons a as ih =>
    rw [List.foldl_cons, ih]
    by_cases hfa : (f a).length > 0
    · have hne : f a ≠ [] := List.length_pos.mp hfa
      by_cases had : a = d
      · subst had
        simp [hfa, hne, Obj.get?_set]
      · have hda : ¬ d = a := fun h => had h.symm
        simp [hfa, Obj.get?_set, had, hda]
    · have hnil : f a = [] := by
        cases hfa2 : f a with
        | nil => rfl
        | cons b bs => simp [hfa2] at hfa
      by_cases had : a = d
      · subst had
        simp [hfa, hnil]
      · have hda : ¬ d = a := fun h => had h.symm
        simp [hfa, hda]

/-- Fold of the per-day step of `mergeDataSafely`: a property of every stored bucket. -/
theorem mergeFold_forall (P : List String → Prop) (f : String → List String)
    (g : Nat → String → Nat) (hP : ∀ d, f d ≠ [] → P (f d))
    (ds : List String) (st : Obj (List String) × Nat) (hst : ∀ e ∈ st.1, P e.2) :
    ∀ e ∈ (ds.foldl
        (fun (st : Obj (List String) × Nat) (date : String) =>
          if (f date).length > 0 then (Obj.set st.1 date (f date), g st.2 date)
          else (st.1, g st.2 date))
        st).1, P e.2 := by
  induction ds generalizing st with
  | nil => simpa using hst
  | cons a as ih =>
    rw [List.foldl_cons]
    apply ih
    by_cases hfa : (f a).length > 0
    · simp only [hfa, if_true]
      exact Obj.forall_set P st.1 a (f a) hst (hP a (List.length_pos.mp hfa))
    · simpa [hfa] using hst

/-- Fold of the per-day step of `mergeDataSafely`: keys stay distinct. -/
theorem mergeFold_nodup_keys (f : String → List String) (g : Nat → String → Nat)
    (ds : List String) (st : Obj (List String) × Nat) (hst : (Obj.keys st.1).Nodup) :
    (Obj.keys (ds.foldl
        (fun (st : Obj (List String) × Nat) (date : String) =>
          if (f date).length > 0 then (Obj.set st.1 date (f date), g st.2 date)
          else (st.1, g st.2 date))
        st).1).Nodup := by
  induction ds generalizing st with
  | nil => simpa using hst
  | cons a as ih =>
    rw [List.foldl_cons]
    apply ih
    by_cases hfa : (f a).length > 0
    · simp only [hfa, if_true]
      exact Obj.nodup_keys_set st.1 a (f a) hst
    · simpa [hfa] using hst

/-- Stored bucket of a day after the merge. -/
theorem PathRecord.get?_mergeDataSafely (valid : String → Bool) (L R : Ledger) (d : String) :
    ((PathRecord.mergeDataSafely valid L R).dailyEdits.getD []).get? d
      = if d ∈ JsSet.ofList (L.days ++ R.days) ∧
            ((JsSet.ofList (L.bucket d ++ R.bucket d)).filter fun path => valid path) ≠ []
        then some ((JsSet.ofList (L.bucket d ++ R.bucket d)).filter fun path => valid path)
        else none := by
  unfold PathRecord.mergeDataSafely
  simp only [Option.getD_some]
  exact mergeFold_get?
    (fun date => (JsSet.ofList (L.bucket date ++ R.bucket date)).filter fun path => valid path)
    (fun n date => n + ((JsSet.ofList (L.bucket date ++ R.bucket date)).filter
      fun path => !valid path).length) _ ([], 0) d

/-- Bucket of a day after the merge: the deduplicated union, filtered by the check. -/
theorem PathRecord.bucket_mergeDataSafely (valid : String → Bool) (L R : Ledger) (d : String) :
    (PathRecord.mergeDataSafely valid L R).bucket d
      = (JsSet.ofList (L.bucket d ++ R.bucket d)).filter fun path => valid path := by
  have hget := PathRecord.get?_mergeDataSafely valid L R d
  have hb : (PathRecord.mergeDataSafely valid L R).bucket d
      = (((PathRecord.mergeDataSafely valid L R).dailyEdits.getD []).get? d).getD [] := rfl
  rw [hb, hget]
  by_cases hc : d ∈ JsSet.ofList (L.days ++ R.days) ∧
      ((JsSet.ofList (L.bucket d ++ R.bucket d)).filter fun path => valid path) ≠ []
  · rw [if_pos hc]
    rfl
  · rw [if_neg hc]
    by_cases hne : ((JsSet.ofList (L.bucket d ++ R.bucket d)).filter fun path => valid path) = []
    · rw [hne]
      rfl
    · have hd : d ∉ JsSet.ofList (L.days ++ R.days) := fun hmem => hc ⟨hmem, hne⟩
      rw [JsSet.mem_ofList, List.mem_append, not_or] at hd
      rw [Ledger.bucket_eq_nil_of_not_mem_days L d hd.1,
        Ledger.bucket_eq_nil_of_not_mem_days R d hd.2]
      rfl

/-- Membership in a merged bucket. -/
theorem PathRecord.mem_bucket_mergeDataSafely (valid : String → Bool) (L R : Ledger)
    (d x : String) :
    x ∈ (PathRecord.mergeDataSafely valid L R).bucket d
      ↔ (x ∈ L.bucket d ∨ x ∈ R.bucket d) ∧ valid x = true := by
  rw [PathRecord.bucket_mergeDataSafely, List.mem_filter, JsSet.mem_ofList, List.mem_append]

/-- Days of the merged ledger: those whose filtered union is not empty. -/
theorem PathRecord.mem_days_mergeDataSafely (valid : String → Bool) (L R : Ledger) (d : String) :
    d ∈ (PathRecord.mergeDataSafely valid L R).days
      ↔ ∃ x, (x ∈ L.bucket d ∨ x ∈ R.bucket d) ∧ valid x = true := by
  constructor
  · intro hd
    have hsome : (((PathRecord.mergeDataSafely valid L R).dailyEdits.getD []).get? d).isSome
        = true := (Obj.mem_keys_iff _ d).mp hd
    rw [PathRecord.get?_mergeDataSafely] at hsome
    by_cases hc : d ∈ JsSet.ofList (L.days ++ R.days) ∧
        ((JsSet.ofList (L.bucket d ++ R.bucket d)).filter fun path => valid path) ≠ []
    · obtain ⟨x, hx⟩ := List.exists_mem_of_ne_nil _ hc.2
      rw [List.mem_filter, JsSet.mem_ofList, List.mem_append] at hx
      exact ⟨x, hx⟩
    · rw [if_neg hc] at hsome
      simp at hsome
  · rintro ⟨x, hx⟩
    have hmem : x ∈ (PathRecord.mergeDataSafely valid L R).bucket d :=
      (PathRecord.mem_bucket_mergeDataSafely valid L R d x).mpr hx
    exact Ledger.mem_days_of_mem_bucket _ d x hmem

/-- Every stored bucket of the merged ledger is non-empty and free of repetitions, and
the day keys are distinct. -/
theorem PathRecord.entries_mergeDataSafely (valid : String → Bool) (L R : Ledger) :
    (∀ e ∈ (PathRecord.mergeDataSafely valid L R).dailyEdits.getD [], e.2 ≠ [] ∧ e.2.Nodup)
      ∧ (PathRecord.mergeDataSafely valid L R).days.Nodup := by
  unfold Ledger.days PathRecord.mergeDataSafely
  simp only [Option.getD_some]
  constructor
  · apply mergeFold_forall (fun b => b ≠ [] ∧ b.Nodup)
      (fun date => (JsSet.ofList (L.bucket date ++ R.bucket date)).filter fun path => valid path)
      (fun n date => n + ((JsSet.ofList (L.bucket date ++ R.bucket date)).filter
        fun path => !valid path).length)
    · intro d hd
      exact ⟨hd, List.Nodup.filter _ (JsSet.nodup_ofList _)⟩
    · intro e he
      simp at he
  · apply mergeFold_nodup_keys
      (fun date => (JsSet.ofList (L.bucket date ++ R.bucket date)).filter fun path => valid path)
      (fun n date => n + ((JsSet.ofList (L.bucket date ++ R.bucket date)).filter
        fun path => !valid path).length)
    simp [Obj.keys]

/-! ## Claims on mergeDataSafely -/

/-- C1: for all ledgers and every existence check, an identifier is in the merged
bucket of a day exactly when it is in the local or the remote bucket of that day (a
missing bucket counting as empty) and passes the check; in both scripts. -/
theorem mergeDataSafely_mem_bucket_iff (valid : String → Bool) (L R : Ledger) (d x : String) :
    (x ∈ (HeatmapRadar.mergeDataSafely valid L R).bucket d
        ↔ (x ∈ L.bucket d ∨ x ∈ R.bucket d) ∧ valid x = true)
    ∧ (x ∈ (PathRecord.mergeDataSafely valid L R).bucket d
        ↔ (x ∈ L.bucket d ∨ x ∈ R.bucket d) ∧ valid x = true) := by
  rw [mergeDataSafely_eq]
  exact ⟨PathRecord.mem_bucket_mergeDataSafely valid L R d x,
    PathRecord.mem_bucket_mergeDataSafely valid L R d x⟩

/-- C5: a day is a key of the merged `dailyEdits` exactly when some identifier of the
union of its two buckets passes the existence check, and no stored bucket of the
result is the empty array; in both scripts. -/
theorem mergeDataSafely_days_iff (valid : String → Bool) (L R : Ledger) :
    ((∀ d, d ∈ (HeatmapRadar.mergeDataSafely valid L R).days
          ↔ ∃ x, (x ∈ L.bucket d ∨ x ∈ R.bucket d) ∧ valid x = true)
      ∧ (∀ e ∈ (HeatmapRadar.mergeDataSafely valid L R).dailyEdits.getD [], e.2 ≠ [])
      ∧ (HeatmapRadar.mergeDataSafely valid L R).dailyEdits.isSome = true)
    ∧ ((∀ d, d ∈ (PathRecord.mergeDataSafely valid L R).days
          ↔ ∃ x, (x ∈ L.bucket d ∨ x ∈ R.bucket d) ∧ valid x = true)
      ∧ (∀ e ∈ (PathRecord.mergeDataSafely valid L R).dailyEdits.getD [], e.2 ≠ [])
      ∧ (PathRecord.mergeDataSafely valid L R).dailyEdits.isSome = true) := by
  rw [mergeDataSafely_eq]
  have key : (∀ d, d ∈ (PathRecord.mergeDataSafely valid L R).days
          ↔ ∃ x, (x ∈ L.bucket d ∨ x ∈ R.bucket d) ∧ valid x = true)
      ∧ (∀ e ∈ (PathRecord.mergeDataSafely valid L R).dailyEdits.getD [], e.2 ≠ [])
      ∧ (PathRecord.mergeDataSafely valid L R).dailyEdits.isSome = true :=
    ⟨fun d => PathRecord.mem_days_mergeDataSafely valid L R d,
      fun e he => ((PathRecord.entries_mergeDataSafely valid L R).1 e he).1, rfl⟩
  exact ⟨key, key⟩

/-- C6: every bucket of the merged ledger holds pairwise distinct identifiers, whatever
repetitions the inputs contain, and an identifier recorded for the same day on both
sides that passes the check occurs exactly once in the merged bucket; in both scripts. -/
theorem mergeDataSafely_buckets_nodup (valid : String → Bool) (L R : Ledger) :
    ((∀ e ∈ (HeatmapRadar.mergeDataSafely valid L R).dailyEdits.getD [], e.2.Nodup)
      ∧ (∀ d, ((HeatmapRadar.mergeDataSafely valid L R).bucket d).Nodup)
      ∧ (∀ d x, x ∈ L.bucket d → x ∈ R.bucket d → valid x = true →
          ((HeatmapRadar.mergeDataSafely valid L R).bucket d).count x = 1))
    ∧ ((∀ e ∈ (PathRecord.mergeDataSafely valid L R).dailyEdits.getD [], e.2.Nodup)
      ∧ (∀ d, ((PathRecord.mergeDataSafely valid L R).bucket d).Nodup)
      ∧ (∀ d x, x ∈ L.bucket d → x ∈ R.bucket d → valid x = true →
          ((PathRecord.mergeDataSafely valid L R).bucket d).count x = 1)) := by
  rw [mergeDataSafely_eq]
  have hnd : ∀ d, ((PathRecord.mergeDataSafely valid L R).bucket d).Nodup := by
    intro d
    rw [PathRecord.bucket_mergeDataSafely]
    exact List.Nodup.filter _ (JsSet.nodup_ofList _)
  have key : (∀ e ∈ (PathRecord.mergeDataSafely valid L R).dailyEdits.getD [], e.2.Nodup)
      ∧ (∀ d, ((PathRecord.mergeDataSafely valid L R).bucket d).Nodup)
      ∧ (∀ d x, x ∈ L.bucket d → x ∈ R.bucket d → valid x = true →
          ((PathRecord.mergeDataSafely valid L R).bucket d).count x = 1) := by
    refine ⟨fun e he => ((PathRecord.entries_mergeDataSafely valid L R).1 e he).2, hnd, ?_⟩
    intro d x hL _ hv
    exact List.count_eq_one_of_mem (hnd d)
      ((PathRecord.mem_bucket_mergeDataSafely valid L R d x).mpr ⟨Or.inl hL, hv⟩)
  exact ⟨key, key⟩

/-- Witness of C6: two writers that both recorded the single document `Note.md` for
the same day; the merged bucket counts it once. -/
theorem mergeDataSafely_buckets_nodup_witness :
    ((HeatmapRadar.mergeDataSafely (fun _ => true)
        { dailyEdits := some [("2025-10-19", ["Note.md"])], version := some 7, mode := none,
          hashAlgorithm := none, lastFullScan := none, lastUpdate := none }
        { dailyEdits := some [("2025-10-19", ["Note.md"])], version := some 7, mode := none,
          hashAlgorithm := none, lastFullScan := none, lastUpdate := none }).bucket
      "2025-10-19").count "Note.md" = 1 :=
  (mergeDataSafely_buckets_nodup (fun _ => true)
      { dailyEdits := some [("2025-10-19", ["Note.md"])], version := some 7, mode := none,
        hashAlgorithm := none, lastFullScan := none, lastUpdate := none }
      { dailyEdits := some [("2025-10-19", ["Note.md"])], version := some 7, mode := none,
        hashAlgorithm := none, lastFullScan := none, lastUpdate := none }).1.2.2
    "2025-10-19" "Note.md" (by decide) (by decide) rfl

/-- C7: for a fixed existence check, swapping the two arguments of `mergeDataSafely`
changes neither the set of day keys nor, for any day, the set of identifiers; in both
scripts. -/
theorem mergeDataSafely_comm (valid : String → Bool) (A B : Ledger) :
    ((∀ d, d ∈ (HeatmapRadar.mergeDataSafely valid A B).days
          ↔ d ∈ (HeatmapRadar.mergeDataSafely valid B A).days)
      ∧ (∀ d x, x ∈ (HeatmapRadar.mergeDataSafely valid A B).bucket d
          ↔ x ∈ (HeatmapRadar.mergeDataSafely valid B A).bucket d))
    ∧ ((∀ d, d ∈ (PathRecord.mergeDataSafely valid A B).days
          ↔ d ∈ (PathRecord.mergeDataSafely valid B A).days)
      ∧ (∀ d x, x ∈ (PathRecord.mergeDataSafely valid A B).bucket d
          ↔ x ∈ (PathRecord.mergeDataSafely valid B A).bucket d)) := by
  rw [mergeDataSafely_eq, mergeDataSafely_eq]
  have key : (∀ d, d ∈ (PathRecord.mergeDataSafely valid A B).days
          ↔ d ∈ (PathRecord.mergeDataSafely valid B A).days)
      ∧ (∀ d x, x ∈ (PathRecord.mergeDataSafely valid A B).bucket d
          ↔ x ∈ (PathRecord.mergeDataSafely valid B A).bucket d) := by
    constructor
    · intro d
      rw [PathRecord.mem_days_mergeDataSafely, PathRecord.mem_days_mergeDataSafely]
      constructor <;> rintro ⟨x, hx, hv⟩ <;> exact ⟨x, hx.symm, hv⟩
    · intro d x
      rw [PathRecord.mem_bucket_mergeDataSafely, PathRecord.mem_bucket_mergeDataSafely]
      constructor <;> rintro ⟨hx, hv⟩ <;> exact ⟨hx.symm, hv⟩
  exact ⟨key, key⟩

/-! ## Lemmas on the steps of a run -/

theorem Ledger.bucket_nodup_of_entries (l : Ledger) (d : String)
    (hl : ∀ e ∈ l.dailyEdits.getD [], e.2.Nodup) : (l.bucket d).Nodup := by
  unfold Ledger.bucket
  cases hg : (l.dailyEdits.getD []).get? d with
  | none => simp
  | some b => exact hl (d, b) (Obj.mem_of_get? _ d b hg)

theorem arraysOf_eq_self (m : Obj (List String)) (hn : (Obj.keys m).Nodup) : arraysOf m = m := by
  unfold arraysOf
  have := Obj.foldl_set_map_of_nodup (fun b : List String => b) m [] (by simpa [Obj.keys] using hn)
  simpa using this

theorem toCounts_eq_map (data : Ledger) (hn : data.days.Nodup) :
    toCounts data = (data.dailyEdits.getD []).map fun e => (e.1, e.2.length) := by
  unfold toCounts
  have := Obj.foldl_set_map_of_nodup (fun b : List String => b.length) (data.dailyEdits.getD []) []
    (by simpa [Obj.keys, Ledger.days] using hn)
  simpa using this

/-! ### addToday -/

theorem HeatmapRadar.get?_addToday (data : Ledger) (today : String) (T : List String)
    (d : String) :
    ((HeatmapRadar.addToday data today T).dailyEdits.getD []).get? d
      = if today = d then some (T.foldl JsSet.add (JsSet.ofList (data.bucket today)))
        else (data.dailyEdits.getD []).get? d := by
  unfold HeatmapRadar.addToday
  simp only [Option.getD_some]
  rw [Obj.get?_set]
  by_cases hd : today = d
  · subst hd
    simp only [if_true, Ledger.bucket]
    cases hg : (data.dailyEdits.getD []).get? today with
    | none => simp [Obj.get?_set]
    | some b => simp [hg]
  · simp only [hd, if_false]
    cases hg : (data.dailyEdits.getD []).get? today with
    | none => simp [Obj.get?_set, hd]
    | some b => simp

theorem HeatmapRadar.mem_bucket_addToday (data : Ledger) (today : String) (T : List String)
    (d x : String) :
    x ∈ (HeatmapRadar.addToday data today T).bucket d
      ↔ x ∈ data.bucket d ∨ (d = today ∧ x ∈ T) := by
  have hb : (HeatmapRadar.addToday data today T).bucket d
      = (((HeatmapRadar.addToday data today T).dailyEdits.getD []).get? d).getD [] := rfl
  rw [hb, HeatmapRadar.get?_addToday]
  by_cases hd : today = d
  · subst hd
    simp [JsSet.mem_foldl_add, JsSet.mem_ofList]
  · have hd2 : ¬ d = today := fun h => hd h.symm
    simp [hd, hd2, Ledger.bucket]

theorem HeatmapRadar.bucket_addToday_of_ne (data : Ledger) (today : String) (T : List String)
    (d : String) (hd : d ≠ today) :
    (HeatmapRadar.addToday data today T).bucket d = data.bucket d := by
  have hb : (HeatmapRadar.addToday data today T).bucket d
      = (((HeatmapRadar.addToday data today T).dailyEdits.getD []).get? d).getD [] := rfl
  have hd2 : ¬ today = d := fun h => hd h.symm
  rw [hb, HeatmapRadar.get?_addToday, if_neg hd2]
  rfl

theorem HeatmapRadar.nodup_bucket_addToday_today (data : Ledger) (today : String)
    (T : List String) : ((HeatmapRadar.addToday data today T).bucket today).Nodup := by
  have hb : (HeatmapRadar.addToday data today T).bucket today
      = (((HeatmapRadar.addToday data today T).dailyEdits.getD []).get? today).getD [] := rfl
  rw [hb, HeatmapRadar.get?_addToday]
  simp only [if_true, Option.getD_some]
  exact JsSet.nodup_foldl_add _ _ (JsSet.nodup_ofList _)

theorem HeatmapRadar.mem_days_addToday (data : Ledger) (today : String) (T : List String)
    (d : String) :
    d ∈ (HeatmapRadar.addToday data today T).days ↔ d = today ∨ d ∈ data.days := by
  unfold Ledger.days
  rw [Obj.mem_keys_iff, HeatmapRadar.get?_addToday, Obj.mem_keys_iff]
  by_cases hd : today = d
  · simp [hd]
  · have hd2 : ¬ d = today := fun h => hd h.symm
    simp [hd, hd2]

theorem HeatmapRadar.nodup_days_addToday (data : Ledger) (today : String) (T : List String)
    (hn : data.days.Nodup) : (HeatmapRadar.addToday data today T).days.Nodup := by
  unfold HeatmapRadar.addToday Ledger.days
  simp only [Option.getD_some]
  apply Obj.nodup_keys_set
  by_cases hg : ((data.dailyEdits.getD []).get? today).isNone = true
  · simp only [hg, if_true]
    exact Obj.nodup_keys_set _ _ _ hn
  · simpa [hg] using hn

/-! ### writeDataFile -/

theorem mem_sortBy {α : Type} (cmp : α → α → Int) (xs : List α) (x : α) :
    x ∈ sortBy cmp xs ↔ x ∈ xs :=
  (List.perm_insertionSort _ xs).mem_iff

theorem perm_sortDefault (xs : List String) : (sortDefault xs).Perm xs :=
  List.perm_insertionSort _ xs

theorem get?_sortDailyEdits (h : Host) (o : Obj (List String)) (d : String) :
    (sortDailyEdits h o).get? d = (o.get? d).map sortDefault := by
  unfold sortDailyEdits
  simp only
  rw [Obj.get?_foldl_set_keys (fun key => sortDefault ((o.get? key).getD []))]
  by_cases hk : d ∈ Obj.keys o
  · rw [if_pos ((mem_sortBy _ _ d).mpr hk)]
    cases hg : o.get? d with
    | none => exact absurd hk ((Obj.get?_eq_none_iff o d).mp hg)
    | some b => simp
  · rw [if_neg (fun hmem => hk ((mem_sortBy _ _ d).mp hmem))]
    have hg := (Obj.get?_eq_none_iff o d).mpr hk
    simp [hg, Obj.get?]

theorem nodup_keys_sortDailyEdits (h : Host) (o : Obj (List String)) :
    (Obj.keys (sortDailyEdits h o)).Nodup := by
  unfold sortDailyEdits
  apply Obj.nodup_keys_foldl_set
  · intro a x ha
    exact Obj.nodup_keys_set a x _ ha
  · simp [Obj.keys]

theorem mem_keys_sortDailyEdits (h : Host) (o : Obj (List String)) (d : String) :
    d ∈ Obj.keys (sortDailyEdits h o) ↔ d ∈ Obj.keys o := by
  rw [Obj.mem_keys_iff, Obj.mem_keys_iff, get?_sortDailyEdits]
  cases o.get? d <;> simp

theorem perm_bucket_sortDailyEdits (h : Host) (o : Obj (List String)) (d : String) :
    (((sortDailyEdits h o).get? d).getD []).Perm ((o.get? d).getD []) := by
  rw [get?_sortDailyEdits]
  cases o.get? d with
  | none => simp
  | some b => simpa using perm_sortDefault b

theorem HeatmapRadar.writeDataFile_eq (cfg : Config) (h : Host) (data : Ledger)
    (de : Obj (List String)) (hs : h.storageFails = false) (hde : data.dailyEdits = some de) :
    HeatmapRadar.writeDataFile cfg h data = some
      { dailyEdits := some (sortDailyEdits h de)
        lastUpdate := some (getCurrentTimestamp h)
        mode := some (if cfg.useHashMode then "hash-based" else "path-based")
        version := some 7
        hashAlgorithm := if cfg.useHashMode then some cfg.hashAlgorithm else data.hashAlgorithm
        lastFullScan := data.lastFullScan } := by
  unfold HeatmapRadar.writeDataFile
  simp [hs, hde]

/-! ### readDataFile -/

theorem foldl_resetNonArray_of_arr (es : List (String × JsonDay)) (acc : Obj JsonDay)
    (hes : ∀ e ∈ es, ∃ items, e.2 = JsonDay.arr items) : es.foldl resetNonArray acc = acc := by
  induction es generalizing acc with
  | nil => rfl
  | cons e rest ih =>
    obtain ⟨items, hi⟩ := hes e (List.mem_cons_self _ _)
    have hstep : resetNonArray acc e = acc := by simp [resetNonArray, hi]
    rw [List.foldl_cons, hstep]
    exact ih acc fun e2 he2 => hes e2 (List.mem_cons_of_mem _ he2)

theorem nodup_keys_jsonObject {β : Type} (members : List (String × β)) :
    (Obj.keys (jsonObject members)).Nodup := by
  unfold jsonObject
  apply Obj.nodup_keys_foldl_set
  · intro a x ha
    exact Obj.nodup_keys_set a x.1 x.2 ha
  · simp [Obj.keys]

theorem nodup_keys_resetNonArray (a : Obj JsonDay) (e : String × JsonDay)
    (ha : (Obj.keys a).Nodup) : (Obj.keys (resetNonArray a e)).Nodup := by
  unfold resetNonArray
  cases e.2 with
  | arr items => simpa using ha
  | notArray => exact Obj.nodup_keys_set a e.1 _ ha

/-- A ledger returned by `readDataFile` has `dailyEdits`, with distinct day keys. -/
theorem readDataFileWith_some (n : Nat) (file : DataFile) (L : Ledger)
    (hL : readDataFileWith n file = some L) :
    L.dailyEdits.isSome = true ∧ L.days.Nodup := by
  cases file with
  | absent => simp [readDataFileWith] at hL
  | unparsable => simp [readDataFileWith] at hL
  | parsed raw =>
    simp only [readDataFileWith, Option.some.injEq] at hL
    subst hL
    refine ⟨rfl, ?_⟩
    simp only [Ledger.days, Option.getD_some]
    have hk : ∀ (o : Obj JsonDay), Obj.keys (o.map fun kv =>
        (kv.1, match kv.2 with
          | JsonDay.arr items => items
          | JsonDay.notArray => [])) = Obj.keys o := by
      intro o
      simp [Obj.keys, List.map_map, Function.comp_def]
    rw [hk]
    apply Obj.nodup_keys_foldl_set
    · intro a x ha
      exact nodup_keys_resetNonArray a x ha
    · exact nodup_keys_jsonObject _

/-- Reading back what `writeDataFile` stored gives the stored ledger. -/
theorem readDataFileWith_toRaw (n : Nat) (l : Ledger) (de : Obj (List String)) (v : Nat)
    (hde : l.dailyEdits = some de) (hn : (Obj.keys de).Nodup) (hv : l.version = some v)
    (hv0 : v ≠ 0) : readDataFileWith n (DataFile.parsed l.toRaw) = some l := by
  have hj : jsonObject (de.map fun kv => (kv.1, JsonDay.arr kv.2))
      = de.map fun kv => (kv.1, JsonDay.arr kv.2) := by
    unfold jsonObject
    have := Obj.foldl_set_map_of_nodup (fun b : JsonDay => b)
      (de.map fun kv => (kv.1, JsonDay.arr kv.2)) []
      (by simpa [Obj.keys, List.map_map, Function.comp_def] using hn)
    simpa using this
  have hr : (de.map fun kv => (kv.1, JsonDay.arr kv.2)).foldl resetNonArray
      (de.map fun kv => (kv.1, JsonDay.arr kv.2))
      = de.map fun kv => (kv.1, JsonDay.arr kv.2) := by
    apply foldl_resetNonArray_of_arr
    intro e he
    obtain ⟨kv, _, rfl⟩ := List.mem_map.mp he
    exact ⟨kv.2, rfl⟩
  obtain ⟨de0, v0, m, ha, fs, lu⟩ := l
  simp only at hde hv
  subst hde
  subst hv
  simp only [readDataFileWith, Ledger.toRaw, Option.map_some', Option.getD_some, hj, hr, hv0,
    if_false, List.map_map, Function.comp_def]
  simp

/-- What a successful `writeDataFile` of `HeatmapRadar.js` stores. -/
theorem HeatmapRadar.writeDataFile_spec (cfg : Config) (h : Host) (data : Ledger)
    (hs : h.storageFails = false) (hde : data.dailyEdits.isSome = true) :
    ∃ W, HeatmapRadar.writeDataFile cfg h data = some W
      ∧ HeatmapRadar.readDataFile (DataFile.parsed W.toRaw) = some W
      ∧ W.days.Nodup
      ∧ (∀ d, d ∈ W.days ↔ d ∈ data.days)
      ∧ (∀ d, (W.bucket d).Perm (data.bucket d))
      ∧ W.version = some 7
      ∧ W.mode = some (if cfg.useHashMode then "hash-based" else "path-based")
      ∧ W.hashAlgorithm
          = (if cfg.useHashMode then some cfg.hashAlgorithm else data.hashAlgorithm)
      ∧ W.lastFullScan = data.lastFullScan := by
  obtain ⟨de, hde2⟩ := Option.isSome_iff_exists.mp hde
  refine ⟨_, HeatmapRadar.writeDataFile_eq cfg h data de hs hde2, ?_, ?_, ?_, ?_, rfl, rfl, rfl,
    rfl⟩
  · exact readDataFileWith_toRaw 7 _ (sortDailyEdits h de) 7 rfl
      (nodup_keys_sortDailyEdits h de) rfl (by decide)
  · exact nodup_keys_sortDailyEdits h de
  · intro d
    simp only [Ledger.days, Option.getD_some, hde2]
    exact mem_keys_sortDailyEdits h de d
  · intro d
    simp only [Ledger.bucket, Option.getD_some, hde2]
    exact perm_bucket_sortDailyEdits h de d

theorem HeatmapRadar.isSome_dailyEdits_addToday (data : Ledger) (today : String)
    (T : List String) : (HeatmapRadar.addToday data today T).dailyEdits.isSome = true := rfl

/-- The normal run: both reads succeed. -/
theorem HeatmapRadar.loadHashBasedModeData_normal (cfg : Config) (h : Host)
    (file1 file2 : DataFile) (cached R : Ledger)
    (h1 : HeatmapRadar.readDataFile file1 = some cached)
    (h2 : HeatmapRadar.readDataFile file2 = some R) :
    (HeatmapRadar.loadHashBasedModeData cfg h file1 file2).data
        = HeatmapRadar.addToday R (getTodayString h) (HeatmapRadar.getTodayModifiedFiles cfg h)
      ∧ (HeatmapRadar.loadHashBasedModeData cfg h file1 file2).countData
        = toCounts (HeatmapRadar.addToday R (getTodayString h)
            (HeatmapRadar.getTodayModifiedFiles cfg h))
      ∧ (HeatmapRadar.loadHashBasedModeData cfg h file1 file2).file
        = persist (HeatmapRadar.writeDataFile cfg h
            (HeatmapRadar.addToday R (getTodayString h)
              (HeatmapRadar.getTodayModifiedFiles cfg h))) file2 := by
  unfold HeatmapRadar.loadHashBasedModeData
  simp [h1, h2]

/-- The background task leaves the same file as the loader in a normal run. -/
theorem HeatmapRadar.backgroundUpdate_normal (cfg : Config) (h : Host)
    (file1 file2 : DataFile) (cached R : Ledger)
    (h1 : HeatmapRadar.readDataFile file1 = some cached)
    (h2 : HeatmapRadar.readDataFile file2 = some R) :
    HeatmapRadar.backgroundUpdate cfg h file1 file2
      = persist (HeatmapRadar.writeDataFile cfg h
          (HeatmapRadar.addToday R (getTodayString h)
            (HeatmapRadar.getTodayModifiedFiles cfg h))) file2 := by
  unfold HeatmapRadar.backgroundUpdate
  simp [h1, h2]

/-- The ledger persisted by a normal run whose write succeeds. -/
theorem HeatmapRadar.persisted_normal (cfg : Config) (h : Host) (file2 : DataFile) (R : Ledger)
    (hs : h.storageFails = false) :
    ∃ W, persist (HeatmapRadar.writeDataFile cfg h
          (HeatmapRadar.addToday R (getTodayString h)
            (HeatmapRadar.getTodayModifiedFiles cfg h))) file2 = DataFile.parsed W.toRaw
      ∧ HeatmapRadar.readDataFile (DataFile.parsed W.toRaw) = some W
      ∧ W.days.Nodup
      ∧ (∀ d, d ∈ W.days ↔ d = getTodayString h ∨ d ∈ R.days)
      ∧ (∀ d x, x ∈ W.bucket d ↔ x ∈ R.bucket d
          ∨ (d = getTodayString h ∧ x ∈ HeatmapRadar.getTodayModifiedFiles cfg h))
      ∧ (∀ d, d ≠ getTodayString h → (W.bucket d).Perm (R.bucket d))
      ∧ W.version = some 7
      ∧ W.mode = some (if cfg.useHashMode then "hash-based" else "path-based")
      ∧ W.hashAlgorithm = (if cfg.useHashMode then some cfg.hashAlgorithm else R.hashAlgorithm)
      ∧ W.lastFullScan = R.lastFullScan := by
  obtain ⟨W, hW, hread, hnd, hdays, hperm, hv, hm, hh, hf⟩ :=
    HeatmapRadar.writeDataFile_spec cfg h
      (HeatmapRadar.addToday R (getTodayString h) (HeatmapRadar.getTodayModifiedFiles cfg h))
      hs (HeatmapRadar.isSome_dailyEdits_addToday _ _ _)
  refine ⟨W, ?_, hread, hnd, ?_, ?_, ?_, hv, hm, ?_, ?_⟩
  · rw [hW]
    rfl
  · intro d
    rw [hdays, HeatmapRadar.mem_days_addToday]
  · intro d x
    rw [(hperm d).mem_iff, HeatmapRadar.mem_bucket_addToday]
  · intro d hd
    have := hperm d
    rwa [HeatmapRadar.bucket_addToday_of_ne _ _ _ d hd] at this
  · rw [hh]
    rfl
  · rw [hf]
    rfl

/-- The normal run of the path-recording loader: both reads succeed. -/
theorem PathRecord.loadPathBasedModeData_normal (cfg : Config) (h : Host)
    (file1 file2 : DataFile) (cached R : Ledger)
    (h1 : PathRecord.readDataFile file1 = some cached)
    (h2 : PathRecord.readDataFile file2 = some R) :
    (PathRecord.loadPathBasedModeData cfg h file1 file2).data
      = PathRecord.mergeDataSafely (validatePath h)
          { dailyEdits := some (arraysOf (PathRecord.getAllFilesDateMap cfg h))
            version := some 6
            mode := none
            hashAlgorithm := none
            lastFullScan := none
            lastUpdate := none } R := by
  unfold PathRecord.loadPathBasedModeData
  simp [h1, h2]

/-! ## Claims on a normal run of loadHashBasedModeData -/

/-- C2: in a normal run of `loadHashBasedModeData` (persisted ledger present, `R` the
copy re-read before the update), today's bucket of the resulting ledger is, as a set,
`R`'s bucket for today (empty if absent) together with `getTodayModifiedFiles()`; the
same holds for the ledger the run persists and for the one the background task of
`loadHeatmapData` persists. -/
theorem loadHashBasedModeData_today_bucket (cfg : Config) (h : Host) (file1 file2 : DataFile)
    (cached R : Ledger) (h1 : HeatmapRadar.readDataFile file1 = some cached)
    (h2 : HeatmapRadar.readDataFile file2 = some R) :
    (∀ x, x ∈ (HeatmapRadar.loadHashBasedModeData cfg h file1 file2).data.bucket (getTodayString h)
        ↔ x ∈ R.bucket (getTodayString h) ∨ x ∈ HeatmapRadar.getTodayModifiedFiles cfg h)
    ∧ (h.storageFails = false → ∃ W,
        (HeatmapRadar.loadHashBasedModeData cfg h file1 file2).file = DataFile.parsed W.toRaw
        ∧ HeatmapRadar.backgroundUpdate cfg h file1 file2 = DataFile.parsed W.toRaw
        ∧ HeatmapRadar.readDataFile (DataFile.parsed W.toRaw) = some W
        ∧ ∀ x, x ∈ W.bucket (getTodayString h)
            ↔ x ∈ R.bucket (getTodayString h) ∨ x ∈ HeatmapRadar.getTodayModifiedFiles cfg h) := by
  obtain ⟨hdata, _, hfile⟩ := HeatmapRadar.loadHashBasedModeData_normal cfg h file1 file2 cached R h1 h2
  constructor
  · intro x
    rw [hdata, HeatmapRadar.mem_bucket_addToday]
    simp
  · intro hs
    obtain ⟨W, hW, hread, _, _, hmem, _⟩ := HeatmapRadar.persisted_normal cfg h file2 R hs
    refine ⟨W, hfile.trans hW, ?_, hread, ?_⟩
    · rw [HeatmapRadar.backgroundUpdate_normal cfg h file1 file2 cached R h1 h2]
      exact hW
    · intro x
      rw [hmem]
      simp

/-- Witness of C2: `Note.md` is modified today and `Plan.md` was already recorded for
today; the hash of `Note.md` is in today's bucket because it was observed. -/
theorem loadHashBasedModeData_today_bucket_witness :
    hashPath Fixture.vaultNote "Note.md"
        ∈ (HeatmapRadar.loadHashBasedModeData HeatmapRadar.CONFIG Fixture.vaultNote
            Fixture.fileNote Fixture.fileNote).data.bucket (getTodayString Fixture.vaultNote)
      ↔ hashPath Fixture.vaultNote "Note.md"
          ∈ Fixture.ledgerNote.bucket (getTodayString Fixture.vaultNote)
        ∨ hashPath Fixture.vaultNote "Note.md"
          ∈ HeatmapRadar.getTodayModifiedFiles HeatmapRadar.CONFIG Fixture.vaultNote :=
  (loadHashBasedModeData_today_bucket HeatmapRadar.CONFIG Fixture.vaultNote Fixture.fileNote
    Fixture.fileNote Fixture.ledgerNote Fixture.ledgerNote (by decide) (by decide)).1
    (hashPath Fixture.vaultNote "Note.md")

/-- C3: a normal run of `loadHashBasedModeData` is append-only per day. For every day
other than today the resulting ledger stores exactly what the re-read persisted ledger
stores (same presence, same array), and the ledger the run persists has that day
exactly when the re-read one has it, with a permutation of its identifiers. -/
theorem loadHashBasedModeData_history_unchanged (cfg : Config) (h : Host)
    (file1 file2 : DataFile) (cached R : Ledger)
    (h1 : HeatmapRadar.readDataFile file1 = some cached)
    (h2 : HeatmapRadar.readDataFile file2 = some R) :
    (∀ d, d ≠ getTodayString h →
        ((d ∈ (HeatmapRadar.loadHashBasedModeData cfg h file1 file2).data.days ↔ d ∈ R.days)
        ∧ (((HeatmapRadar.loadHashBasedModeData cfg h file1 file2).data.dailyEdits.getD []).get? d
            = (R.dailyEdits.getD []).get? d)))
    ∧ (h.storageFails = false → ∃ W,
        (HeatmapRadar.loadHashBasedModeData cfg h file1 file2).file = DataFile.parsed W.toRaw
        ∧ HeatmapRadar.readDataFile (DataFile.parsed W.toRaw) = some W
        ∧ ∀ d, d ≠ getTodayString h →
            ((d ∈ W.days ↔ d ∈ R.days) ∧ (W.bucket d).Perm (R.bucket d))) := by
  obtain ⟨hdata, _, hfile⟩ := HeatmapRadar.loadHashBasedModeData_normal cfg h file1 file2 cached R h1 h2
  constructor
  · intro d hd
    have hd2 : ¬ getTodayString h = d := fun e => hd e.symm
    rw [hdata, HeatmapRadar.mem_days_addToday, HeatmapRadar.get?_addToday, if_neg hd2]
    simp [hd]
  · intro hs
    obtain ⟨W, hW, hread, _, hdays, _, hperm, _⟩ := HeatmapRadar.persisted_normal cfg h file2 R hs
    refine ⟨W, hfile.trans hW, hread, ?_⟩
    intro d hd
    refine ⟨?_, hperm d hd⟩
    rw [hdays]
    simp [hd]

/-- Witness of C3: the bucket of 2025-10-17 is stored unchanged by a run on 2025-10-19. -/
theorem loadHashBasedModeData_history_unchanged_witness :
    ("2025-10-17" ∈ (HeatmapRadar.loadHashBasedModeData HeatmapRadar.CONFIG Fixture.vaultNote
          Fixture.fileNote Fixture.fileNote).data.days
        ↔ "2025-10-17" ∈ Fixture.ledgerNote.days)
      ∧ (((HeatmapRadar.loadHashBasedModeData HeatmapRadar.CONFIG Fixture.vaultNote
          Fixture.fileNote Fixture.fileNote).data.dailyEdits.getD []).get? "2025-10-17"
        = (Fixture.ledgerNote.dailyEdits.getD []).get? "2025-10-17") :=
  (loadHashBasedModeData_history_unchanged HeatmapRadar.CONFIG Fixture.vaultNote
    Fixture.fileNote Fixture.fileNote Fixture.ledgerNote Fixture.ledgerNote
    (by decide) (by decide)).1 "2025-10-17" (by decide)

/-- C4, counterexample: `Old.md` was recorded on 2025-10-18 and deleted afterwards. After
the next normal run of `loadHashBasedModeData` its identifier, which fails
`validatePathOrHash`, is still in the bucket of that day, in memory and on disk. -/
theorem loadHashBasedModeData_pruning_counterexample :
    HeatmapRadar.readDataFile Fixture.fileBeforeDelete = some Fixture.ledgerBeforeDelete
      ∧ HeatmapRadar.validatePathOrHash HeatmapRadar.CONFIG Fixture.vaultAfterDelete
          (hashPath Fixture.vaultAfterDelete "Old.md") = false
      ∧ hashPath Fixture.vaultAfterDelete "Old.md"
          ∈ (HeatmapRadar.loadHashBasedModeData HeatmapRadar.CONFIG Fixture.vaultAfterDelete
              Fixture.fileBeforeDelete Fixture.fileBeforeDelete).data.bucket "2025-10-18"
      ∧ (HeatmapRadar.readDataFile
            (HeatmapRadar.loadHashBasedModeData HeatmapRadar.CONFIG Fixture.vaultAfterDelete
              Fixture.fileBeforeDelete Fixture.fileBeforeDelete).file).map
          (fun W => decide (hashPath Fixture.vaultAfterDelete "Old.md" ∈ W.bucket "2025-10-18"))
        = some true := by
  decide

/-- C4, amended: the normal run of `loadHashBasedModeData` applies no existence check.
Each bucket of the resulting ledger holds exactly the identifiers of the re-read
persisted bucket, plus today's observations in today's bucket. Pruning is done by
`mergeDataSafely`, which the path-recording `loadPathBasedModeData` calls: after its
normal run every identifier of every bucket passes `validatePath`. -/
theorem loadHashBasedModeData_keeps_persisted (cfg : Config) (h : Host) (file1 file2 : DataFile)
    (cached R : Ledger) (h1 : HeatmapRadar.readDataFile file1 = some cached)
    (h2 : HeatmapRadar.readDataFile file2 = some R) :
    (∀ d x, x ∈ (HeatmapRadar.loadHashBasedModeData cfg h file1 file2).data.bucket d
        ↔ x ∈ R.bucket d
          ∨ (d = getTodayString h ∧ x ∈ HeatmapRadar.getTodayModifiedFiles cfg h))
    ∧ (∀ d x, x ∈ (PathRecord.loadPathBasedModeData cfg h file1 file2).data.bucket d →
        validatePath h x = true) := by
  obtain ⟨hdata, _, _⟩ := HeatmapRadar.loadHashBasedModeData_normal cfg h file1 file2 cached R h1 h2
  constructor
  · intro d x
    rw [hdata, HeatmapRadar.mem_bucket_addToday]
  · have hp1 : (PathRecord.readDataFile file1).isSome = true := by
      cases file1 <;> simp_all [HeatmapRadar.readDataFile, PathRecord.readDataFile, readDataFileWith]
    have hp2 : (PathRecord.readDataFile file2).isSome = true := by
      cases file2 <;> simp_all [HeatmapRadar.readDataFile, PathRecord.readDataFile, readDataFileWith]
    obtain ⟨c6, hc6⟩ := Option.isSome_iff_exists.mp hp1
    obtain ⟨r6, hr6⟩ := Option.isSome_iff_exists.mp hp2
    intro d x hx
    rw [PathRecord.loadPathBasedModeData_normal cfg h file1 file2 c6 r6 hc6 hr6,
      PathRecord.mem_bucket_mergeDataSafely] at hx
    exact hx.2

/-- Witness of C4 (amended): the identifier of the deleted `Old.md` is in the bucket of
2025-10-18 after the run exactly because the persisted bucket holds it. -/
theorem loadHashBasedModeData_keeps_persisted_witness :
    hashPath Fixture.vaultAfterDelete "Old.md"
        ∈ (HeatmapRadar.loadHashBasedModeData HeatmapRadar.CONFIG Fixture.vaultAfterDelete
            Fixture.fileBeforeDelete Fixture.fileBeforeDelete).data.bucket "2025-10-18"
      ↔ hashPath Fixture.vaultAfterDelete "Old.md"
          ∈ Fixture.ledgerBeforeDelete.bucket "2025-10-18"
        ∨ ("2025-10-18" = getTodayString Fixture.vaultAfterDelete
          ∧ hashPath Fixture.vaultAfterDelete "Old.md"
            ∈ HeatmapRadar.getTodayModifiedFiles HeatmapRadar.CONFIG Fixture.vaultAfterDelete) :=
  (loadHashBasedModeData_keeps_persisted HeatmapRadar.CONFIG Fixture.vaultAfterDelete
    Fixture.fileBeforeDelete Fixture.fileBeforeDelete Fixture.ledgerBeforeDelete
    Fixture.ledgerBeforeDelete (by decide) (by decide)).1 "2025-10-18" (hashPath Fixture.vaultAfterDelete "Old.md")

/-! ## Lemmas on two runs in succession -/

/-- The ledger persisted by a first run (no readable file) whose writes succeed. -/
theorem HeatmapRadar.recordToday_first (cfg : Config) (h : Host) (file : DataFile)
    (h1 : HeatmapRadar.readDataFile file = none) (hs : h.storageFails = false) :
    ∃ W, HeatmapRadar.recordToday cfg h file = DataFile.parsed W.toRaw
      ∧ HeatmapRadar.readDataFile (DataFile.parsed W.toRaw) = some W
      ∧ W.days.Nodup
      ∧ (∀ d, d ∈ W.days ↔ d ∈ (HeatmapRadar.fullScanAllFiles cfg h).days)
      ∧ (∀ d, (W.bucket d).Perm ((HeatmapRadar.fullScanAllFiles cfg h).bucket d))
      ∧ W.version = some 7
      ∧ W.mode = some (if cfg.useHashMode then "hash-based" else "path-based")
      ∧ W.hashAlgorithm = (if cfg.useHashMode then some cfg.hashAlgorithm else none)
      ∧ W.lastFullScan = some (getTodayString h) := by
  obtain ⟨W1, hW1, hread1, _, hdays1, hperm1, _, _, hh1, hf1⟩ :=
    HeatmapRadar.writeDataFile_spec cfg h (HeatmapRadar.fullScanAllFiles cfg h) hs rfl
  have hsome1 : W1.dailyEdits.isSome = true := by
    have := readDataFileWith_some 7 _ W1 hread1
    exact this.1
  obtain ⟨W2, hW2, hread2, hnd2, hdays2, hperm2, hv2, hm2, hh2, hf2⟩ :=
    HeatmapRadar.writeDataFile_spec cfg h W1 hs hsome1
  refine ⟨W2, ?_, hread2, hnd2, ?_, ?_, hv2, hm2, ?_, ?_⟩
  · unfold HeatmapRadar.recordToday HeatmapRadar.loadHashBasedModeData
    simp only [h1, hW1, Option.getD_some, hW2, persist]
  · intro d
    rw [hdays2, hdays1]
  · intro d
    exact (hperm2 d).trans (hperm1 d)
  · rw [hh2, hh1]
    by_cases hmode : cfg.useHashMode = true <;> simp [hmode, HeatmapRadar.fullScanAllFiles]
  · rw [hf2, hf1]
    rfl

/-- The ledger persisted by a normal run (readable file, no other writer) whose write
succeeds. -/
theorem HeatmapRadar.recordToday_normal (cfg : Config) (h : Host) (file : DataFile) (R : Ledger)
    (h1 : HeatmapRadar.readDataFile file = some R) (hs : h.storageFails = false) :
    ∃ W, HeatmapRadar.recordToday cfg h file = DataFile.parsed W.toRaw
      ∧ HeatmapRadar.readDataFile (DataFile.parsed W.toRaw) = some W
      ∧ W.days.Nodup
      ∧ (∀ d, d ∈ W.days ↔ d = getTodayString h ∨ d ∈ R.days)
      ∧ (∀ d x, x ∈ W.bucket d ↔ x ∈ R.bucket d
          ∨ (d = getTodayString h ∧ x ∈ HeatmapRadar.getTodayModifiedFiles cfg h))
      ∧ (∀ d, d ≠ getTodayString h → (W.bucket d).Perm (R.bucket d))
      ∧ (W.bucket (getTodayString h)).Nodup
      ∧ W.version = some 7
      ∧ W.mode = some (if cfg.useHashMode then "hash-based" else "path-based")
      ∧ W.hashAlgorithm = (if cfg.useHashMode then some cfg.hashAlgorithm else R.hashAlgorithm)
      ∧ W.lastFullScan = R.lastFullScan := by
  obtain ⟨W, hW, hread, hnd, hdays, hperm, hv, hm, hh, hf⟩ :=
    HeatmapRadar.writeDataFile_spec cfg h
      (HeatmapRadar.addToday R (getTodayString h) (HeatmapRadar.getTodayModifiedFiles cfg h))
      hs (HeatmapRadar.isSome_dailyEdits_addToday _ _ _)
  refine ⟨W, ?_, hread, hnd, ?_, ?_, ?_, ?_, hv, hm, ?_, ?_⟩
  · unfold HeatmapRadar.recordToday
    rw [(HeatmapRadar.loadHashBasedModeData_normal cfg h file file R R h1 h1).2.2, hW]
    rfl
  · intro d
    rw [hdays, HeatmapRadar.mem_days_addToday]
  · intro d x
    rw [(hperm d).mem_iff, HeatmapRadar.mem_bucket_addToday]
  · intro d hd
    have := hperm d
    rwa [HeatmapRadar.bucket_addToday_of_ne _ _ _ d hd] at this
  · exact (hperm (getTodayString h)).nodup_iff.mpr
      (HeatmapRadar.nodup_bucket_addToday_today _ _ _)
  · rw [hh]
    rfl
  · rw [hf]
    rfl

/-- Today's observations depend on the clock only through today's date. -/
theorem HeatmapRadar.getTodayModifiedFiles_later (cfg : Config) (h : Host) (t2 : Int)
    (hday : getTodayString { h with now := t2 } = getTodayString h) :
    HeatmapRadar.getTodayModifiedFiles cfg { h with now := t2 }
      = HeatmapRadar.getTodayModifiedFiles cfg h := by
  simp only [HeatmapRadar.getTodayModifiedFiles, hday]
  rfl

/-- A second run, later on the same day, on the file an earlier run has persisted. -/
theorem HeatmapRadar.recordToday_again (cfg : Config) (h : Host) (t2 : Int) (W1 : Ledger)
    (X : Option String) (hs : h.storageFails = false)
    (hday : getTodayString { h with now := t2 } = getTodayString h)
    (hread : HeatmapRadar.readDataFile (DataFile.parsed W1.toRaw) = some W1)
    (hv : W1.version = some 7)
    (hm : W1.mode = some (if cfg.useHashMode then "hash-based" else "path-based"))
    (hh : W1.hashAlgorithm = (if cfg.useHashMode then some cfg.hashAlgorithm else X)) :
    ∃ L2, HeatmapRadar.readDataFile
          (HeatmapRadar.recordToday cfg { h with now := t2 } (DataFile.parsed W1.toRaw)) = some L2
      ∧ L2.version = W1.version ∧ L2.mode = W1.mode ∧ L2.hashAlgorithm = W1.hashAlgorithm
      ∧ L2.lastFullScan = W1.lastFullScan
      ∧ (∀ d, d ≠ getTodayString h →
          ((d ∈ L2.days ↔ d ∈ W1.days) ∧ (L2.bucket d).Perm (W1.bucket d)))
      ∧ (∀ x, x ∈ L2.bucket (getTodayString h)
          ↔ x ∈ W1.bucket (getTodayString h) ∨ x ∈ HeatmapRadar.getTodayModifiedFiles cfg h)
      ∧ getTodayString h ∈ L2.days
      ∧ (L2.bucket (getTodayString h)).Nodup
      ∧ (∀ d, d ∈ L2.days ↔ d = getTodayString h ∨ d ∈ W1.days) := by
  obtain ⟨W2, hW2, hread2, _, hdays2, hmem2, hperm2, hnd2, hv2, hm2, hh2, hf2⟩ :=
    HeatmapRadar.recordToday_normal cfg { h with now := t2 } (DataFile.parsed W1.toRaw) W1 hread hs
  rw [hday] at hdays2 hmem2 hperm2 hnd2
  rw [HeatmapRadar.getTodayModifiedFiles_later cfg h t2 hday] at hmem2
  refine ⟨W2, ?_, ?_, ?_, ?_, hf2, ?_, ?_, ?_, hnd2, hdays2⟩
  · rw [hW2]
    exact hread2
  · rw [hv2, hv]
  · rw [hm2, hm]
  · rw [hh2, hh]
    by_cases hmode : cfg.useHashMode = true <;> simp [hmode]
  · intro d hd
    refine ⟨?_, hperm2 d hd⟩
    rw [hdays2]
    simp [hd]
  · intro x
    rw [hmem2]
    simp
  · rw [hdays2]
    exact Or.inl rfl

/-! ## Claim on idempotence -/

/-- C8, counterexample: empty vault and no persisted file. One run persists a ledger
without any day; a second run on the same day adds the key of today with an empty
bucket, so the two persisted ledgers do not have the same day keys. -/
theorem recordToday_twice_counterexample :
    (HeatmapRadar.readDataFile
        (HeatmapRadar.recordToday HeatmapRadar.CONFIG (Fixture.host []) DataFile.absent)).map
        Ledger.days = some []
      ∧ (HeatmapRadar.readDataFile
        (HeatmapRadar.recordToday HeatmapRadar.CONFIG (Fixture.host [])
          (HeatmapRadar.recordToday HeatmapRadar.CONFIG (Fixture.host []) DataFile.absent))).map
        Ledger.days = some ["2025-10-19"] := by
  decide

/-- C8, amended: with the index and the day unchanged and the writes succeeding, the
ledger persisted by two runs in succession has the same version, mode, hashAlgorithm
and lastFullScan as the one persisted by a single run, the same buckets (up to order)
for every day other than today, and today's bucket extended by today's observations;
today is always a key after the second run. When a readable file existed before the
first run, the two ledgers have the same day keys and, for every day, the same
identifiers with the same multiplicities. -/
theorem recordToday_twice (cfg : Config) (h : Host) (t2 : Int) (file : DataFile)
    (hs : h.storageFails = false)
    (hday : getTodayString { h with now := t2 } = getTodayString h) :
    ∃ L1 L2, HeatmapRadar.readDataFile (HeatmapRadar.recordToday cfg h file) = some L1
      ∧ HeatmapRadar.readDataFile (HeatmapRadar.recordToday cfg { h with now := t2 }
          (HeatmapRadar.recordToday cfg h file)) = some L2
      ∧ L2.version = L1.version ∧ L2.mode = L1.mode ∧ L2.hashAlgorithm = L1.hashAlgorithm
      ∧ L2.lastFullScan = L1.lastFullScan
      ∧ (∀ d, d ≠ getTodayString h →
          ((d ∈ L2.days ↔ d ∈ L1.days) ∧ (L2.bucket d).Perm (L1.bucket d)))
      ∧ (∀ x, x ∈ L2.bucket (getTodayString h)
          ↔ x ∈ L1.bucket (getTodayString h) ∨ x ∈ HeatmapRadar.getTodayModifiedFiles cfg h)
      ∧ getTodayString h ∈ L2.days
      ∧ ((HeatmapRadar.readDataFile file).isSome = true →
          (∀ d, d ∈ L2.days ↔ d ∈ L1.days) ∧ (∀ d, (L2.bucket d).Perm (L1.bucket d))) := by
  cases hr : HeatmapRadar.readDataFile file with
  | none =>
    obtain ⟨W1, hW1, hread1, _, _, _, hv1, hm1, hh1, _⟩ :=
      HeatmapRadar.recordToday_first cfg h file hr hs
    obtain ⟨L2, hL2, h2v, h2m, h2h, h2f, h2o, h2t, h2k, _, _⟩ :=
      HeatmapRadar.recordToday_again cfg h t2 W1 none hs hday hread1 hv1 hm1 hh1
    refine ⟨W1, L2, ?_, ?_, h2v, h2m, h2h, h2f, h2o, h2t, h2k, ?_⟩
    · rw [hW1]
      exact hread1
    · rw [hW1]
      exact hL2
    · intro hsome
      simp at hsome
  | some R =>
    obtain ⟨W1, hW1, hread1, _, hdays1, hmem1, _, hnd1, hv1, hm1, hh1, _⟩ :=
      HeatmapRadar.recordToday_normal cfg h file R hr hs
    obtain ⟨L2, hL2, h2v, h2m, h2h, h2f, h2o, h2t, h2k, h2nd, h2d⟩ :=
      HeatmapRadar.recordToday_again cfg h t2 W1 R.hashAlgorithm hs hday hread1 hv1 hm1 hh1
    refine ⟨W1, L2, ?_, ?_, h2v, h2m, h2h, h2f, h2o, h2t, h2k, ?_⟩
    · rw [hW1]
      exact hread1
    · rw [hW1]
      exact hL2
    · intro _
      constructor
      · intro d
        rw [h2d, hdays1]
        tauto
      · intro d
        by_cases hd : d = getTodayString h
        · subst hd
          apply (List.perm_ext_iff_of_nodup h2nd hnd1).mpr
          intro x
          rw [h2t, hmem1]
          tauto
        · exact (h2o d hd).2

/-- Witness of C8 (amended): two runs at 12:00 and one second later on 2025-10-19, on a
vault where `Note.md` was modified today and a persisted file exists. -/
theorem recordToday_twice_witness :
    ∃ L1 L2, HeatmapRadar.readDataFile
          (HeatmapRadar.recordToday HeatmapRadar.CONFIG Fixture.vaultNote Fixture.fileNote)
        = some L1
      ∧ HeatmapRadar.readDataFile (HeatmapRadar.recordToday HeatmapRadar.CONFIG
          { Fixture.vaultNote with now := Fixture.october + 18 * 86400000 + 43201000 }
          (HeatmapRadar.recordToday HeatmapRadar.CONFIG Fixture.vaultNote Fixture.fileNote))
        = some L2
      ∧ L2.version = L1.version ∧ L2.mode = L1.mode ∧ L2.hashAlgorithm = L1.hashAlgorithm
      ∧ L2.lastFullScan = L1.lastFullScan
      ∧ (∀ d, d ≠ getTodayString Fixture.vaultNote →
          ((d ∈ L2.days ↔ d ∈ L1.days) ∧ (L2.bucket d).Perm (L1.bucket d)))
      ∧ (∀ x, x ∈ L2.bucket (getTodayString Fixture.vaultNote)
          ↔ x ∈ L1.bucket (getTodayString Fixture.vaultNote)
            ∨ x ∈ HeatmapRadar.getTodayModifiedFiles HeatmapRadar.CONFIG Fixture.vaultNote)
      ∧ getTodayString Fixture.vaultNote ∈ L2.days
      ∧ ((HeatmapRadar.readDataFile Fixture.fileNote).isSome = true →
          (∀ d, d ∈ L2.days ↔ d ∈ L1.days) ∧ (∀ d, (L2.bucket d).Perm (L1.bucket d))) :=
  recordToday_twice HeatmapRadar.CONFIG Fixture.vaultNote
    (Fixture.october + 18 * 86400000 + 43201000) Fixture.fileNote (by decide) (by decide)

/-! ## Lemmas on the full scan -/

theorem get?_recordFile (h : Host) (m : Obj (List String)) (f : TFile) (ident d : String) :
    (recordFile h m f ident).get? d
      = if formatDate h f.mtime = d
        then some (JsSet.add ((m.get? (formatDate h f.mtime)).getD []) ident)
        else m.get? d := by
  unfold recordFile
  simp only
  rw [Obj.get?_set]
  by_cases hnone : (m.get? (formatDate h f.mtime)).isNone = true
  · have hnone2 : m.get? (formatDate h f.mtime) = none := by simpa using hnone
    simp only [hnone, if_true, Obj.get?_set, hnone2, Option.getD_some, Option.getD_none]
    by_cases hd : formatDate h f.mtime = d
    · simp [hd, Obj.get?_set]
    · simp [hd, Obj.get?_set]
  · simp only [hnone, if_false]
    simp

theorem nodup_keys_recordFile (h : Host) (m : Obj (List String)) (f : TFile) (ident : String)
    (hn : (Obj.keys m).Nodup) : (Obj.keys (recordFile h m f ident)).Nodup := by
  unfold recordFile
  simp only
  apply Obj.nodup_keys_set
  by_cases hnone : (m.get? (formatDate h f.mtime)).isNone = true
  · simp only [hnone, if_true]
    exact Obj.nodup_keys_set _ _ _ hn
  · simpa [hnone] using hn

/-- The loop of `getAllFilesDateMap`, started from any date map whose sets are non-empty
and free of repetitions; `ident` computes the recorded identifier from the path. -/
theorem scanFold_spec (cfg : Config) (h : Host) (ident : String → String) (files : List TFile)
    (m0 : Obj (List String)) (hn : (Obj.keys m0).Nodup)
    (hinv : ∀ d b, m0.get? d = some b → b ≠ [] ∧ b.Nodup) :
    (Obj.keys (files.foldl
        (fun (dateMap : Obj (List String)) file =>
          if shouldIgnore cfg file.path then dateMap
          else recordFile h dateMap file (ident file.path)) m0)).Nodup
    ∧ (∀ d b, (files.foldl
        (fun (dateMap : Obj (List String)) file =>
          if shouldIgnore cfg file.path then dateMap
          else recordFile h dateMap file (ident file.path)) m0).get? d = some b →
          b ≠ [] ∧ b.Nodup)
    ∧ (∀ d x, x ∈ ((files.foldl
        (fun (dateMap : Obj (List String)) file =>
          if shouldIgnore cfg file.path then dateMap
          else recordFile h dateMap file (ident file.path)) m0).get? d).getD []
        ↔ x ∈ (m0.get? d).getD []
          ∨ ∃ f ∈ files, shouldIgnore cfg f.path = false ∧ ident f.path = x
              ∧ formatDate h f.mtime = d) := by
  induction files generalizing m0 with
  | nil =>
    refine ⟨by simpa using hn, by simpa using hinv, ?_⟩
    intro d x
    simp
  | cons f rest ih =>
    rw [List.foldl_cons]
    by_cases hig : shouldIgnore cfg f.path = true
    · simp only [hig, if_true]
      obtain ⟨a, b, c⟩ := ih m0 hn hinv
      refine ⟨a, b, ?_⟩
      intro d x
      rw [c]
      constructor
      · rintro (hx | ⟨g, hg, hrest⟩)
        · exact Or.inl hx
        · exact Or.inr ⟨g, List.mem_cons_of_mem _ hg, hrest⟩
      · rintro (hx | ⟨g, hg, hgi, hrest⟩)
        · exact Or.inl hx
        · rcases List.mem_cons.mp hg with rfl | hg2
          · rw [hig] at hgi
            exact absurd hgi (by decide)
          · exact Or.inr ⟨g, hg2, hgi, hrest⟩
    · have hig2 : shouldIgnore cfg f.path = false := by simpa using hig
      rw [if_neg hig]
      have hn1 := nodup_keys_recordFile h m0 f (ident f.path) hn
      have hinv1 : ∀ d b, (recordFile h m0 f (ident f.path)).get? d = some b →
          b ≠ [] ∧ b.Nodup := by
        intro d b hb
        rw [get?_recordFile] at hb
        by_cases hd : formatDate h f.mtime = d
        · rw [if_pos hd] at hb
          have hb2 := Option.some.inj hb
          subst hb2
          constructor
          · intro hnil
            have hmem : ident f.path ∈ JsSet.add ((m0.get? (formatDate h f.mtime)).getD [])
                (ident f.path) := (JsSet.mem_add _ _ _).mpr (Or.inr rfl)
            rw [hnil] at hmem
            simp at hmem
          · apply JsSet.nodup_add
            cases hg : m0.get? (formatDate h f.mtime) with
            | none => simp
            | some b0 => exact (hinv _ b0 hg).2
        · rw [if_neg hd] at hb
          exact hinv d b hb
      obtain ⟨a, b, c⟩ := ih (recordFile h m0 f (ident f.path)) hn1 hinv1
      refine ⟨a, b, ?_⟩
      intro d x
      rw [c, get?_recordFile]
      by_cases hd : formatDate h f.mtime = d
      · subst hd
        simp only [if_true, Option.getD_some, JsSet.mem_add]
        constructor
        · rintro ((hx | hx) | ⟨g, hg, hrest⟩)
          · exact Or.inl hx
          · exact Or.inr ⟨f, List.mem_cons_self _ _, hig2, hx.symm, rfl⟩
          · exact Or.inr ⟨g, List.mem_cons_of_mem _ hg, hrest⟩
        · rintro (hx | ⟨g, hg, hgi, hgx, hgd⟩)
          · exact Or.inl (Or.inl hx)
          · rcases List.mem_cons.mp hg with rfl | hg2
            · exact Or.inl (Or.inr hgx.symm)
            · exact Or.inr ⟨g, hg2, hgi, hgx, hgd⟩
      · simp only [hd, if_false]
        constructor
        · rintro (hx | ⟨g, hg, hrest⟩)
          · exact Or.inl hx
          · exact Or.inr ⟨g, List.mem_cons_of_mem _ hg, hrest⟩
        · rintro (hx | ⟨g, hg, hgi, hgx, hgd⟩)
          · exact Or.inl hx
          · rcases List.mem_cons.mp hg with rfl | hg2
            · exact absurd hgd hd
            · exact Or.inr ⟨g, hg2, hgi, hgx, hgd⟩

/-- The date map of `HeatmapRadar.js`: distinct keys, non-empty duplicate-free sets, and
the identifiers of the non-ignored files grouped by modification day. -/
theorem HeatmapRadar.getAllFilesDateMap_spec (cfg : Config) (h : Host) :
    (Obj.keys (HeatmapRadar.getAllFilesDateMap cfg h)).Nodup
    ∧ (∀ d b, (HeatmapRadar.getAllFilesDateMap cfg h).get? d = some b → b ≠ [] ∧ b.Nodup)
    ∧ (∀ d x, x ∈ ((HeatmapRadar.getAllFilesDateMap cfg h).get? d).getD []
        ↔ ∃ f ∈ h.markdownFiles, shouldIgnore cfg f.path = false
            ∧ HeatmapRadar.identifier cfg h f.path = x ∧ formatDate h f.mtime = d) := by
  obtain ⟨a, b, c⟩ := scanFold_spec cfg h (HeatmapRadar.identifier cfg h) h.markdownFiles []
    (by simp [Obj.keys]) (by intro d b hb; simp [Obj.get?] at hb)
  refine ⟨a, b, ?_⟩
  intro d x
  have := c d x
  simpa [Obj.get?] using this

/-- The date map of the path-recording script. -/
theorem PathRecord.pathDateMap_spec (cfg : Config) (h : Host) :
    (Obj.keys (PathRecord.getAllFilesDateMap cfg h)).Nodup
    ∧ (∀ d b, (PathRecord.getAllFilesDateMap cfg h).get? d = some b → b ≠ [] ∧ b.Nodup)
    ∧ (∀ d x, x ∈ ((PathRecord.getAllFilesDateMap cfg h).get? d).getD []
        ↔ ∃ f ∈ h.markdownFiles, shouldIgnore cfg f.path = false
            ∧ f.path = x ∧ formatDate h f.mtime = d) := by
  obtain ⟨a, b, c⟩ := scanFold_spec cfg h (fun p => p) h.markdownFiles []
    (by simp [Obj.keys]) (by intro d b hb; simp [Obj.get?] at hb)
  refine ⟨a, b, ?_⟩
  intro d x
  have := c d x
  simpa [Obj.get?] using this

theorem HeatmapRadar.dailyEdits_fullScanAllFiles (cfg : Config) (h : Host) :
    (HeatmapRadar.fullScanAllFiles cfg h).dailyEdits
      = some (HeatmapRadar.getAllFilesDateMap cfg h) := by
  unfold HeatmapRadar.fullScanAllFiles
  simp only [arraysOf_eq_self _ (HeatmapRadar.getAllFilesDateMap_spec cfg h).1]

theorem PathRecord.dailyEdits_pathScan (cfg : Config) (h : Host) :
    (PathRecord.fullScanAllFiles cfg h).dailyEdits
      = some (PathRecord.getAllFilesDateMap cfg h) := by
  unfold PathRecord.fullScanAllFiles
  simp only [arraysOf_eq_self _ (PathRecord.pathDateMap_spec cfg h).1]

/-! ## Claim on the full scan -/

/-- C10: for every document index, `fullScanAllFiles` returns a ledger in which an
identifier is in the bucket of a day exactly when some non-ignored markdown document
has that identifier and that modification day (`formatDate` of its mtime); stored
buckets hold no duplicates and are never empty, day keys are distinct, and a vault
without any non-ignored document (an empty vault in particular) gives `dailyEdits = {}`. -/
theorem fullScanAllFiles_spec (cfg : Config) (h : Host) :
    (∀ d x, x ∈ (HeatmapRadar.fullScanAllFiles cfg h).bucket d
        ↔ ∃ f ∈ h.markdownFiles, shouldIgnore cfg f.path = false
            ∧ HeatmapRadar.identifier cfg h f.path = x ∧ formatDate h f.mtime = d)
    ∧ (∀ e ∈ (HeatmapRadar.fullScanAllFiles cfg h).dailyEdits.getD [], e.2.Nodup ∧ e.2 ≠ [])
    ∧ (HeatmapRadar.fullScanAllFiles cfg h).days.Nodup
    ∧ ((∀ f ∈ h.markdownFiles, shouldIgnore cfg f.path = true) →
        (HeatmapRadar.fullScanAllFiles cfg h).dailyEdits = some []) := by
  obtain ⟨hn, hinv, hmem⟩ := HeatmapRadar.getAllFilesDateMap_spec cfg h
  have hde := HeatmapRadar.dailyEdits_fullScanAllFiles cfg h
  refine ⟨?_, ?_, ?_, ?_⟩
  · intro d x
    simp only [Ledger.bucket, hde, Option.getD_some]
    exact hmem d x
  · intro e he
    simp only [hde, Option.getD_some] at he
    have := hinv e.1 e.2 (Obj.get?_of_mem _ hn e.1 e.2 he)
    exact ⟨this.2, this.1⟩
  · simp only [Ledger.days, hde, Option.getD_some]
    exact hn
  · intro hall
    rw [hde]
    cases hm : HeatmapRadar.getAllFilesDateMap cfg h with
    | nil => rfl
    | cons e rest =>
      exfalso
      have he : e ∈ HeatmapRadar.getAllFilesDateMap cfg h := by
        rw [hm]
        exact List.mem_cons_self _ _
      have hget := Obj.get?_of_mem _ hn e.1 e.2 he
      obtain ⟨x, hx⟩ := List.exists_mem_of_ne_nil _ (hinv e.1 e.2 hget).1
      have hx2 : x ∈ ((HeatmapRadar.getAllFilesDateMap cfg h).get? e.1).getD [] := by
        rw [hget]
        exact hx
      obtain ⟨f, hf, hfi, _⟩ := (hmem e.1 x).mp hx2
      rw [hall f hf] at hfi
      exact absurd hfi (by decide)

/-- Witness of C10: the empty vault. -/
theorem fullScanAllFiles_spec_witness :
    (HeatmapRadar.fullScanAllFiles HeatmapRadar.CONFIG (Fixture.host [])).dailyEdits = some [] :=
  (fullScanAllFiles_spec HeatmapRadar.CONFIG (Fixture.host [])).2.2.2 (by decide)

/-! ## Lemmas on the count conversion -/

theorem toCounts_spec (data : Ledger) (hn : data.days.Nodup) :
    Obj.keys (toCounts data) = data.days
      ∧ ∀ d, (toCounts data).get? d = ((data.dailyEdits.getD []).get? d).map List.length := by
  rw [toCounts_eq_map data hn]
  exact ⟨Obj.keys_map _ _, fun d => Obj.get?_map _ _ d⟩

theorem map_length_eq_map_dedup (data : Ledger) (d : String) (hnd : (data.bucket d).Nodup) :
    ((data.dailyEdits.getD []).get? d).map List.length
      = ((data.dailyEdits.getD []).get? d).map fun b => b.dedup.length := by
  unfold Ledger.bucket at hnd
  cases hg : (data.dailyEdits.getD []).get? d with
  | none => rfl
  | some b =>
    rw [hg] at hnd
    simp only [Option.getD_some] at hnd
    simp [hnd.dedup]

/-- A ledger after a write attempt: the sorted copy when the write succeeds, the ledger
itself otherwise. Day keys stay distinct and duplicate-free buckets stay so. -/
theorem written_or_same (h : Host) (data : Ledger) (w : Option Ledger)
    (hw : w = none ∨ ∃ de, data.dailyEdits = some de ∧
      (w.map fun W => W.dailyEdits) = some (some (sortDailyEdits h de)))
    (hn : data.days.Nodup) :
    (w.getD data).days.Nodup
      ∧ ∀ d, (data.bucket d).Nodup → ((w.getD data).bucket d).Nodup := by
  rcases hw with rfl | ⟨de, hde, hW⟩
  · exact ⟨hn, fun d hd => hd⟩
  · cases w with
    | none => simp at hW
    | some W =>
      simp only [Option.map_some', Option.some.injEq] at hW
      simp only [Option.getD_some, Ledger.days, Ledger.bucket, hW, hde]
      refine ⟨nodup_keys_sortDailyEdits h de, ?_⟩
      intro d hd
      exact (perm_bucket_sortDailyEdits h de d).nodup_iff.mpr hd

theorem HeatmapRadar.writeDataFile_shape (cfg : Config) (h : Host) (data : Ledger)
    (de : Obj (List String)) (hde : data.dailyEdits = some de) :
    HeatmapRadar.writeDataFile cfg h data = none ∨ ∃ de, data.dailyEdits = some de ∧
      ((HeatmapRadar.writeDataFile cfg h data).map fun W => W.dailyEdits)
        = some (some (sortDailyEdits h de)) := by
  by_cases hs : h.storageFails = true
  · left
    simp [HeatmapRadar.writeDataFile, hs]
  · right
    refine ⟨de, hde, ?_⟩
    simp [HeatmapRadar.writeDataFile, hs, hde]

theorem PathRecord.pathWrite_shape (h : Host) (data : Ledger)
    (de : Obj (List String)) (hde : data.dailyEdits = some de) :
    PathRecord.writeDataFile h data = none ∨ ∃ de, data.dailyEdits = some de ∧
      ((PathRecord.writeDataFile h data).map fun W => W.dailyEdits)
        = some (some (sortDailyEdits h de)) := by
  by_cases hs : h.storageFails = true
  · left
    simp [PathRecord.writeDataFile, hs]
  · right
    refine ⟨de, hde, ?_⟩
    simp [PathRecord.writeDataFile, hs, hde]

theorem HeatmapRadar.fullScanAllFiles_nodup (cfg : Config) (h : Host) :
    (HeatmapRadar.fullScanAllFiles cfg h).days.Nodup
      ∧ ∀ d, ((HeatmapRadar.fullScanAllFiles cfg h).bucket d).Nodup := by
  obtain ⟨hn, hinv, _⟩ := HeatmapRadar.getAllFilesDateMap_spec cfg h
  have hde := HeatmapRadar.dailyEdits_fullScanAllFiles cfg h
  constructor
  · simpa [Ledger.days, hde] using hn
  · intro d
    simp only [Ledger.bucket, hde, Option.getD_some]
    cases hg : (HeatmapRadar.getAllFilesDateMap cfg h).get? d with
    | none => simp
    | some b => exact (hinv d b hg).2

theorem PathRecord.dateMap_nodup (cfg : Config) (h : Host) (d : String) :
    (((PathRecord.getAllFilesDateMap cfg h).get? d).getD []).Nodup := by
  obtain ⟨_, hinv, _⟩ := PathRecord.pathDateMap_spec cfg h
  cases hg : (PathRecord.getAllFilesDateMap cfg h).get? d with
  | none => simp
  | some b => exact (hinv d b hg).2

/-- The ledger of `loadHashBasedModeData` at the count conversion has distinct day
keys; today's bucket is duplicate-free in a normal run, every bucket in a first run. -/
theorem HeatmapRadar.data_nodup (cfg : Config) (h : Host) (file1 file2 : DataFile) :
    (HeatmapRadar.loadHashBasedModeData cfg h file1 file2).data.days.Nodup
    ∧ ((HeatmapRadar.readDataFile file1).isSome = true →
        ((HeatmapRadar.loadHashBasedModeData cfg h file1 file2).data.bucket
          (getTodayString h)).Nodup)
    ∧ (HeatmapRadar.readDataFile file1 = none →
        ∀ d, ((HeatmapRadar.loadHashBasedModeData cfg h file1 file2).data.bucket d).Nodup) := by
  cases h1 : HeatmapRadar.readDataFile file1 with
  | none =>
    have hdata : (HeatmapRadar.loadHashBasedModeData cfg h file1 file2).data
        = (HeatmapRadar.writeDataFile cfg h (HeatmapRadar.fullScanAllFiles cfg h)).getD
            (HeatmapRadar.fullScanAllFiles cfg h) := by
      unfold HeatmapRadar.loadHashBasedModeData
      simp [h1]
    obtain ⟨hn, hb⟩ := HeatmapRadar.fullScanAllFiles_nodup cfg h
    obtain ⟨hn2, hb2⟩ := written_or_same h (HeatmapRadar.fullScanAllFiles cfg h) _
      (HeatmapRadar.writeDataFile_shape cfg h _ _ (HeatmapRadar.dailyEdits_fullScanAllFiles cfg h))
      hn
    rw [hdata]
    exact ⟨hn2, fun hsome => by simp at hsome, fun _ d => hb2 d (hb d)⟩
  | some cached =>
    have hc := (readDataFileWith_some 7 file1 cached h1).2
    cases h2 : HeatmapRadar.readDataFile file2 with
    | none =>
      have hdata : (HeatmapRadar.loadHashBasedModeData cfg h file1 file2).data
          = HeatmapRadar.addToday cached (getTodayString h)
              (HeatmapRadar.getTodayModifiedFiles cfg h) := by
        unfold HeatmapRadar.loadHashBasedModeData
        simp [h1, h2]
      rw [hdata]
      exact ⟨HeatmapRadar.nodup_days_addToday _ _ _ hc,
        fun _ => HeatmapRadar.nodup_bucket_addToday_today _ _ _, fun hnone => by simp at hnone⟩
    | some R =>
      have hR := (readDataFileWith_some 7 file2 R h2).2
      rw [(HeatmapRadar.loadHashBasedModeData_normal cfg h file1 file2 cached R h1 h2).1]
      exact ⟨HeatmapRadar.nodup_days_addToday _ _ _ hR,
        fun _ => HeatmapRadar.nodup_bucket_addToday_today _ _ _, fun hnone => by simp at hnone⟩

/-- The ledger of `loadPathBasedModeData` at the count conversion has distinct day keys
and duplicate-free buckets, in every branch. -/
theorem PathRecord.pathData_nodup (cfg : Config) (h : Host) (file1 file2 : DataFile) :
    (PathRecord.loadPathBasedModeData cfg h file1 file2).data.days.Nodup
    ∧ ∀ d, ((PathRecord.loadPathBasedModeData cfg h file1 file2).data.bucket d).Nodup := by
  have hmap := PathRecord.pathDateMap_spec cfg h
  cases h1 : PathRecord.readDataFile file1 with
  | none =>
    have hdata : (PathRecord.loadPathBasedModeData cfg h file1 file2).data
        = (PathRecord.writeDataFile h (PathRecord.fullScanAllFiles cfg h)).getD
            (PathRecord.fullScanAllFiles cfg h) := by
      unfold PathRecord.loadPathBasedModeData
      simp [h1]
    have hde := PathRecord.dailyEdits_pathScan cfg h
    have hn : (PathRecord.fullScanAllFiles cfg h).days.Nodup := by
      simpa [Ledger.days, hde] using hmap.1
    have hb : ∀ d, ((PathRecord.fullScanAllFiles cfg h).bucket d).Nodup := by
      intro d
      simp only [Ledger.bucket, hde, Option.getD_some]
      exact PathRecord.dateMap_nodup cfg h d
    obtain ⟨hn2, hb2⟩ := written_or_same h (PathRecord.fullScanAllFiles cfg h) _
      (PathRecord.pathWrite_shape h _ _ hde) hn
    rw [hdata]
    exact ⟨hn2, fun d => hb2 d (hb d)⟩
  | some cached =>
    cases h2 : PathRecord.readDataFile file2 with
    | none =>
      have hdata : (PathRecord.loadPathBasedModeData cfg h file1 file2).data
          = { cached with dailyEdits := some (arraysOf (PathRecord.getAllFilesDateMap cfg h)) } := by
        unfold PathRecord.loadPathBasedModeData
        simp [h1, h2]
      rw [hdata, arraysOf_eq_self _ hmap.1]
      exact ⟨hmap.1, fun d => PathRecord.dateMap_nodup cfg h d⟩
    | some R =>
      rw [PathRecord.loadPathBasedModeData_normal cfg h file1 file2 cached R h1 h2]
      obtain ⟨he, hn⟩ := PathRecord.entries_mergeDataSafely (validatePath h)
        { dailyEdits := some (arraysOf (PathRecord.getAllFilesDateMap cfg h))
          version := some 6
          mode := none
          hashAlgorithm := none
          lastFullScan := none
          lastUpdate := none } R
      exact ⟨hn, fun d => Ledger.bucket_nodup_of_entries _ d fun e hmem => (he e hmem).2⟩

theorem HeatmapRadar.countData_eq (cfg : Config) (h : Host) (file1 file2 : DataFile) :
    (HeatmapRadar.loadHashBasedModeData cfg h file1 file2).countData
      = toCounts (HeatmapRadar.loadHashBasedModeData cfg h file1 file2).data := by
  unfold HeatmapRadar.loadHashBasedModeData
  cases HeatmapRadar.readDataFile file1 <;> rfl

theorem PathRecord.pathCountData_eq (cfg : Config) (h : Host) (file1 file2 : DataFile) :
    (PathRecord.loadPathBasedModeData cfg h file1 file2).countData
      = toCounts (PathRecord.loadPathBasedModeData cfg h file1 file2).data := by
  unfold PathRecord.loadPathBasedModeData
  cases PathRecord.readDataFile file1 <;> rfl

/-! ## Claim on the counts-by-day map -/

/-- C9, counterexample: the persisted bucket of 2025-10-18 lists the identifier of
`Note.md` twice. `loadHashBasedModeData` returns the count 2 for that day although one
distinct identifier is recorded. -/
theorem countData_counterexample :
    (HeatmapRadar.loadHashBasedModeData HeatmapRadar.CONFIG Fixture.vaultNote
        Fixture.fileRepeated Fixture.fileRepeated).countData.get? "2025-10-18" = some 2
      ∧ ((HeatmapRadar.loadHashBasedModeData HeatmapRadar.CONFIG Fixture.vaultNote
        Fixture.fileRepeated Fixture.fileRepeated).data.bucket "2025-10-18").dedup.length = 1 := by
  decide

/-- C9, amended: the counts-by-day map has exactly the days of the ledger as keys and
the value of a day is the length of its bucket array. That length is the number of
distinct identifiers for every day of `loadPathBasedModeData`; for
`loadHashBasedModeData` it is so for every bucket without a repeated identifier, which
today's bucket is in a normal run and every bucket is in a first run. -/
theorem countData_spec (cfg : Config) (h : Host) (file1 file2 : DataFile) :
    (Obj.keys (HeatmapRadar.loadHashBasedModeData cfg h file1 file2).countData
        = (HeatmapRadar.loadHashBasedModeData cfg h file1 file2).data.days
      ∧ (∀ d, (HeatmapRadar.loadHashBasedModeData cfg h file1 file2).countData.get? d
          = (((HeatmapRadar.loadHashBasedModeData cfg h file1 file2).data.dailyEdits.getD
              []).get? d).map List.length)
      ∧ (∀ d, ((HeatmapRadar.loadHashBasedModeData cfg h file1 file2).data.bucket d).Nodup →
          (HeatmapRadar.loadHashBasedModeData cfg h file1 file2).countData.get? d
            = (((HeatmapRadar.loadHashBasedModeData cfg h file1 file2).data.dailyEdits.getD
                []).get? d).map fun b => b.dedup.length)
      ∧ ((HeatmapRadar.readDataFile file1).isSome = true →
          ((HeatmapRadar.loadHashBasedModeData cfg h file1 file2).data.bucket
            (getTodayString h)).Nodup)
      ∧ (HeatmapRadar.readDataFile file1 = none →
          ∀ d, ((HeatmapRadar.loadHashBasedModeData cfg h file1 file2).data.bucket d).Nodup))
    ∧ (Obj.keys (PathRecord.loadPathBasedModeData cfg h file1 file2).countData
        = (PathRecord.loadPathBasedModeData cfg h file1 file2).data.days
      ∧ (∀ d, (PathRecord.loadPathBasedModeData cfg h file1 file2).countData.get? d
          = (((PathRecord.loadPathBasedModeData cfg h file1 file2).data.dailyEdits.getD
              []).get? d).map List.length)
      ∧ (∀ d, (PathRecord.loadPathBasedModeData cfg h file1 file2).countData.get? d
          = (((PathRecord.loadPathBasedModeData cfg h file1 file2).data.dailyEdits.getD
              []).get? d).map fun b => b.dedup.length)) := by
  obtain ⟨hn, htoday, hfirst⟩ := HeatmapRadar.data_nodup cfg h file1 file2
  obtain ⟨hk, hc⟩ := toCounts_spec _ hn
  obtain ⟨pn, pb⟩ := PathRecord.pathData_nodup cfg h file1 file2
  obtain ⟨pk, pc⟩ := toCounts_spec _ pn
  rw [HeatmapRadar.countData_eq, PathRecord.pathCountData_eq]
  refine ⟨⟨hk, hc, ?_, htoday, hfirst⟩, pk, pc, ?_⟩
  · intro d hd
    rw [hc, map_length_eq_map_dedup _ d hd]
  · intro d
    rw [pc, map_length_eq_map_dedup _ d (pb d)]

/-- Witness of C9 (amended): in a normal run on the vault with `Note.md`, today's count
is the number of distinct identifiers of today's bucket. -/
theorem countData_spec_witness :
    (HeatmapRadar.loadHashBasedModeData HeatmapRadar.CONFIG Fixture.vaultNote
        Fixture.fileNote Fixture.fileNote).countData.get? (getTodayString Fixture.vaultNote)
      = (((HeatmapRadar.loadHashBasedModeData HeatmapRadar.CONFIG Fixture.vaultNote
          Fixture.fileNote Fixture.fileNote).data.dailyEdits.getD []).get?
            (getTodayString Fixture.vaultNote)).map fun b => b.dedup.length :=
  (countData_spec HeatmapRadar.CONFIG Fixture.vaultNote Fixture.fileNote Fixture.fileNote).1.2.2.1
    (getTodayString Fixture.vaultNote)
    ((countData_spec HeatmapRadar.CONFIG Fixture.vaultNote Fixture.fileNote
      Fixture.fileNote).1.2.2.2.1 (by decide))

/-! ## Lemmas on reading the persisted file -/

/-- A loop that overwrites the entries failing a test with a default value. -/
theorem get?_foldl_reset {β : Type} (bad : β → Bool) (dflt : β) (es : List (String × β))
    (acc : Obj β) (d : String) :
    (es.foldl (fun (a : Obj β) (e : String × β) => if bad e.2 then Obj.set a e.1 dflt else a)
        acc).get? d
      = if ∃ e ∈ es, e.1 = d ∧ bad e.2 = true then some dflt else acc.get? d := by
  induction es generalizing acc with
  | nil => simp
  | cons e rest ih =>
    rw [List.foldl_cons, ih]
    by_cases hrest : ∃ e2 ∈ rest, e2.1 = d ∧ bad e2.2 = true
    · have hall : ∃ e2 ∈ e :: rest, e2.1 = d ∧ bad e2.2 = true := by
        obtain ⟨e2, he2, hp⟩ := hrest
        exact ⟨e2, List.mem_cons_of_mem _ he2, hp⟩
      rw [if_pos hrest, if_pos hall]
    · rw [if_neg hrest]
      by_cases hbad : bad e.2 = true
      · by_cases hd : e.1 = d
        · have hall : ∃ e2 ∈ e :: rest, e2.1 = d ∧ bad e2.2 = true :=
            ⟨e, List.mem_cons_self _ _, hd, hbad⟩
          rw [if_pos hall, if_pos hbad, Obj.get?_set, if_pos hd]
        · have hall : ¬ ∃ e2 ∈ e :: rest, e2.1 = d ∧ bad e2.2 = true := by
            rintro ⟨e2, he2, hp⟩
            rcases List.mem_cons.mp he2 with rfl | hmem
            · exact hd hp.1
            · exact hrest ⟨e2, hmem, hp⟩
          rw [if_neg hall, if_pos hbad, Obj.get?_set, if_neg hd]
      · have hall : ¬ ∃ e2 ∈ e :: rest, e2.1 = d ∧ bad e2.2 = true := by
          rintro ⟨e2, he2, hp⟩
          rcases List.mem_cons.mp he2 with rfl | hmem
          · exact hbad hp.2
          · exact hrest ⟨e2, hmem, hp⟩
        rw [if_neg hall, if_neg hbad]

/-- The same loop run over the entries of the object it updates, keys distinct. -/
theorem get?_foldl_reset_self {β : Type} (bad : β → Bool) (dflt : β) (o : Obj β)
    (hn : (Obj.keys o).Nodup) (d : String) :
    (o.foldl (fun (a : Obj β) (e : String × β) => if bad e.2 then Obj.set a e.1 dflt else a)
        o).get? d
      = (o.get? d).map fun v => if bad v then dflt else v := by
  rw [get?_foldl_reset]
  cases hg : o.get? d with
  | none =>
    have hkey : d ∉ Obj.keys o := (Obj.get?_eq_none_iff o d).mp hg
    have hno : ¬ ∃ e ∈ o, e.1 = d ∧ bad e.2 = true := by
      rintro ⟨e, he, hd, _⟩
      apply hkey
      rw [← hd]
      exact List.mem_map_of_mem Prod.fst he
    rw [if_neg hno]
    rfl
  | some v =>
    by_cases hbad : bad v = true
    · have hyes : ∃ e ∈ o, e.1 = d ∧ bad e.2 = true :=
        ⟨(d, v), Obj.mem_of_get? o d v hg, rfl, hbad⟩
      rw [if_pos hyes]
      simp [hbad]
    · have hno : ¬ ∃ e ∈ o, e.1 = d ∧ bad e.2 = true := by
        rintro ⟨e, he, hd, hb⟩
        have hget := Obj.get?_of_mem o hn e.1 e.2 he
        rw [hd, hg] at hget
        have hv := Option.some.inj hget
        rw [← hv] at hb
        exact hbad hb
      rw [if_neg hno]
      simp [hbad]

theorem resetNonArray_eq (a : Obj JsonDay) (e : String × JsonDay) :
    resetNonArray a e
      = if (match e.2 with
          | JsonDay.arr _ => false
          | JsonDay.notArray => true) then Obj.set a e.1 (JsonDay.arr []) else a := by
  unfold resetNonArray
  cases e.2 <;> rfl

theorem resetNonArrayValue_eq (a : Obj JsonValue) (e : String × JsonValue) :
    resetNonArrayValue a e
      = if (match e.2 with
          | JsonValue.arr _ => false
          | JsonValue.notArray => true) then Obj.set a e.1 (JsonValue.arr []) else a := by
  unfold resetNonArrayValue
  cases e.2 <;> rfl

/-- Stored bucket of a day in the ledger `readDataFile` returns for a parsed file. -/
theorem get?_readDataFileWith (n : Nat) (raw : RawLedger) (d : String) :
    ∃ L, readDataFileWith n (DataFile.parsed raw) = some L
      ∧ L.dailyEdits.isSome = true
      ∧ (L.dailyEdits.getD []).get? d
        = ((jsonObject (raw.dailyEdits.getD [])).get? d).map fun v =>
            match v with
            | JsonDay.arr items => items
            | JsonDay.notArray => [] := by
  refine ⟨_, rfl, rfl, ?_⟩
  simp only [Option.getD_some]
  have hfun : resetNonArray = fun (a : Obj JsonDay) (e : String × JsonDay) =>
      if (match e.2 with
          | JsonDay.arr _ => false
          | JsonDay.notArray => true) then Obj.set a e.1 (JsonDay.arr []) else a := by
    funext a e
    exact resetNonArray_eq a e
  rw [hfun]
  have hmap := Obj.get?_map (fun v : JsonDay =>
      match v with
      | JsonDay.arr items => items
      | JsonDay.notArray => [])
    ((jsonObject (raw.dailyEdits.getD [])).foldl
      (fun (a : Obj JsonDay) (e : String × JsonDay) =>
        if (match e.2 with
            | JsonDay.arr _ => false
            | JsonDay.notArray => true) then Obj.set a e.1 (JsonDay.arr []) else a)
      (jsonObject (raw.dailyEdits.getD []))) d
  rw [hmap, get?_foldl_reset_self (fun v : JsonDay =>
      match v with
      | JsonDay.arr _ => false
      | JsonDay.notArray => true) (JsonDay.arr []) _ (nodup_keys_jsonObject _) d]
  cases (jsonObject (raw.dailyEdits.getD [])).get? d with
  | none => rfl
  | some v => cases v <;> rfl

theorem get?_of_readDataFileWith (n : Nat) (raw : RawLedger) (L : Ledger)
    (hL : readDataFileWith n (DataFile.parsed raw) = some L) (d : String) :
    (L.dailyEdits.getD []).get? d
      = ((jsonObject (raw.dailyEdits.getD [])).get? d).map fun v =>
          match v with
          | JsonDay.arr items => items
          | JsonDay.notArray => [] := by
  obtain ⟨L2, h2, _, hget⟩ := get?_readDataFileWith n raw d
  rw [hL] at h2
  cases h2
  exact hget

/-- Reading back a stored ledger gives its stored buckets, whatever its version field. -/
theorem get?_readDataFileWith_toRaw (n : Nat) (W L : Ledger) (de : Obj (List String))
    (hde : W.dailyEdits = some de) (hn : (Obj.keys de).Nodup)
    (hL : readDataFileWith n (DataFile.parsed W.toRaw) = some L) (d : String) :
    (L.dailyEdits.getD []).get? d = de.get? d := by
  rw [get?_of_readDataFileWith n W.toRaw L hL d]
  have hraw : W.toRaw.dailyEdits.getD [] = de.map fun kv => (kv.1, JsonDay.arr kv.2) := by
    simp [Ledger.toRaw, hde]
  have hj : jsonObject (de.map fun kv => (kv.1, JsonDay.arr kv.2))
      = de.map fun kv => (kv.1, JsonDay.arr kv.2) := by
    unfold jsonObject
    have := Obj.foldl_set_map_of_nodup (fun b : JsonDay => b)
      (de.map fun kv => (kv.1, JsonDay.arr kv.2)) []
      (by simpa [Obj.keys, List.map_map, Function.comp_def] using hn)
    simpa using this
  rw [hraw, hj, Obj.get?_map JsonDay.arr de d]
  cases de.get? d <;> rfl

theorem HeatmapRadar.writeDataFile_some (cfg : Config) (h : Host) (data W : Ledger)
    (hw : HeatmapRadar.writeDataFile cfg h data = some W) :
    h.storageFails = false ∧ ∃ de, data.dailyEdits = some de
      ∧ W.dailyEdits = some (sortDailyEdits h de) := by
  unfold HeatmapRadar.writeDataFile at hw
  by_cases hs : h.storageFails = true
  · simp [hs] at hw
  · cases hde : data.dailyEdits with
    | none => simp [hs, hde] at hw
    | some de =>
      simp only [hs, hde] at hw
      refine ⟨by simpa using hs, de, rfl, ?_⟩
      simp only [Bool.false_eq_true, if_false, Option.some.injEq] at hw
      rw [← hw]

theorem PathRecord.pathWrite_some (h : Host) (data W : Ledger)
    (hw : PathRecord.writeDataFile h data = some W) :
    h.storageFails = false ∧ ∃ de, data.dailyEdits = some de
      ∧ W.dailyEdits = some (sortDailyEdits h de) := by
  unfold PathRecord.writeDataFile at hw
  by_cases hs : h.storageFails = true
  · simp [hs] at hw
  · cases hde : data.dailyEdits with
    | none => simp [hs, hde] at hw
    | some de =>
      simp only [hs, hde] at hw
      refine ⟨by simpa using hs, de, rfl, ?_⟩
      simp only [Bool.false_eq_true, if_false, Option.some.injEq] at hw
      rw [← hw]

/-- A ledger read back from a sorted copy has the days and identifiers of the original. -/
theorem readBack_sorted (n : Nat) (h : Host) (data W : Ledger) (de : Obj (List String))
    (hde : data.dailyEdits = some de) (hW : W.dailyEdits = some (sortDailyEdits h de)) :
    ∃ L, readDataFileWith n (DataFile.parsed W.toRaw) = some L
      ∧ (∀ d, d ∈ L.days ↔ d ∈ data.days)
      ∧ (∀ d, (L.bucket d).Perm (data.bucket d)) := by
  refine ⟨_, rfl, ?_⟩
  have hget := get?_readDataFileWith_toRaw n W _ (sortDailyEdits h de) hW
    (nodup_keys_sortDailyEdits h de) rfl
  constructor
  · intro d
    unfold Ledger.days
    rw [Obj.mem_keys_iff, hget d, ← Obj.mem_keys_iff, mem_keys_sortDailyEdits, hde]
    rfl
  · intro d
    unfold Ledger.bucket
    rw [hget d, hde]
    exact perm_bucket_sortDailyEdits h de d

/-! ## Claims on the persisted file -/

/-- C12: round trip. When `writeDataFile(ledger)` succeeds, `readDataFile()` on the file
it leaves returns a ledger with the same set of day keys and, for every day, the same
set of identifiers (indeed the same identifiers with the same multiplicities); in both
scripts. -/
theorem writeDataFile_readDataFile_roundtrip (cfg : Config) (h : Host) (data W : Ledger)
    (file : DataFile) :
    (HeatmapRadar.writeDataFile cfg h data = some W →
      ∃ L, HeatmapRadar.readDataFile (persist (HeatmapRadar.writeDataFile cfg h data) file)
          = some L
        ∧ (∀ d, d ∈ L.days ↔ d ∈ data.days)
        ∧ (∀ d x, x ∈ L.bucket d ↔ x ∈ data.bucket d)
        ∧ (∀ d, (L.bucket d).Perm (data.bucket d)))
    ∧ (PathRecord.writeDataFile h data = some W →
      ∃ L, PathRecord.readDataFile (persist (PathRecord.writeDataFile h data) file) = some L
        ∧ (∀ d, d ∈ L.days ↔ d ∈ data.days)
        ∧ (∀ d x, x ∈ L.bucket d ↔ x ∈ data.bucket d)
        ∧ (∀ d, (L.bucket d).Perm (data.bucket d))) := by
  constructor
  · intro hw
    obtain ⟨_, de, hde, hW⟩ := HeatmapRadar.writeDataFile_some cfg h data W hw
    obtain ⟨L, hL, hdays, hperm⟩ := readBack_sorted 7 h data W de hde hW
    rw [hw]
    exact ⟨L, hL, hdays, fun d x => (hperm d).mem_iff, hperm⟩
  · intro hw
    obtain ⟨_, de, hde, hW⟩ := PathRecord.pathWrite_some h data W hw
    obtain ⟨L, hL, hdays, hperm⟩ := readBack_sorted 6 h data W de hde hW
    rw [hw]
    exact ⟨L, hL, hdays, fun d x => (hperm d).mem_iff, hperm⟩

/-- Witness of C12: the ledger recording `Plan.md` and `Note.md`, written and read back
on the vault holding `Note.md`. -/
theorem writeDataFile_readDataFile_roundtrip_witness :
    ∃ L, HeatmapRadar.readDataFile
          (persist (HeatmapRadar.writeDataFile HeatmapRadar.CONFIG Fixture.vaultNote
            Fixture.ledgerNote) DataFile.absent) = some L
      ∧ (∀ d, d ∈ L.days ↔ d ∈ Fixture.ledgerNote.days)
      ∧ (∀ d x, x ∈ L.bucket d ↔ x ∈ Fixture.ledgerNote.bucket d)
      ∧ (∀ d, (L.bucket d).Perm (Fixture.ledgerNote.bucket d)) :=
  (writeDataFile_readDataFile_roundtrip HeatmapRadar.CONFIG Fixture.vaultNote
    Fixture.ledgerNote
    ((HeatmapRadar.writeDataFile HeatmapRadar.CONFIG Fixture.vaultNote Fixture.ledgerNote).getD
      Fixture.ledgerNote)
    DataFile.absent).1 (by decide)

/-- C14: for every persisted file that parses to an object, `readDataFile` returns a
ledger (not null). A day whose value is not an array has an empty bucket in it, a day
whose value is an array is returned with that array, the day keys are those of the
file, and a missing `dailyEdits` becomes the empty map; in both scripts. -/
theorem readDataFile_repairs (raw : RawLedger) :
    (∃ L, HeatmapRadar.readDataFile (DataFile.parsed raw) = some L
      ∧ (∀ d, (jsonObject (raw.dailyEdits.getD [])).get? d = some JsonDay.notArray →
          (L.dailyEdits.getD []).get? d = some [])
      ∧ (∀ d items, (jsonObject (raw.dailyEdits.getD [])).get? d = some (JsonDay.arr items) →
          (L.dailyEdits.getD []).get? d = some items)
      ∧ (∀ d, d ∈ L.days ↔ d ∈ Obj.keys (jsonObject (raw.dailyEdits.getD [])))
      ∧ (raw.dailyEdits = none → L.dailyEdits = some []))
    ∧ (∃ L, PathRecord.readDataFile (DataFile.parsed raw) = some L
      ∧ (∀ d, (jsonObject (raw.dailyEdits.getD [])).get? d = some JsonDay.notArray →
          (L.dailyEdits.getD []).get? d = some [])
      ∧ (∀ d items, (jsonObject (raw.dailyEdits.getD [])).get? d = some (JsonDay.arr items) →
          (L.dailyEdits.getD []).get? d = some items)
      ∧ (∀ d, d ∈ L.days ↔ d ∈ Obj.keys (jsonObject (raw.dailyEdits.getD [])))
      ∧ (raw.dailyEdits = none → L.dailyEdits = some [])) := by
  have key : ∀ n, ∃ L, readDataFileWith n (DataFile.parsed raw) = some L
      ∧ (∀ d, (jsonObject (raw.dailyEdits.getD [])).get? d = some JsonDay.notArray →
          (L.dailyEdits.getD []).get? d = some [])
      ∧ (∀ d items, (jsonObject (raw.dailyEdits.getD [])).get? d = some (JsonDay.arr items) →
          (L.dailyEdits.getD []).get? d = some items)
      ∧ (∀ d, d ∈ L.days ↔ d ∈ Obj.keys (jsonObject (raw.dailyEdits.getD [])))
      ∧ (raw.dailyEdits = none → L.dailyEdits = some []) := by
    intro n
    refine ⟨_, rfl, ?_, ?_, ?_, ?_⟩
    · intro d hd
      rw [get?_of_readDataFileWith n raw _ rfl d, hd]
      rfl
    · intro d items hd
      rw [get?_of_readDataFileWith n raw _ rfl d, hd]
      rfl
    · intro d
      unfold Ledger.days
      rw [Obj.mem_keys_iff, get?_of_readDataFileWith n raw _ rfl d, Obj.mem_keys_iff]
      cases (jsonObject (raw.dailyEdits.getD [])).get? d <;> simp
    · intro hnone
      simp [hnone, jsonObject]
  exact ⟨key 7, key 6⟩

/-- Witness of C14: a file whose day 2025-10-18 is not an array and whose day 2025-10-17
is the array `["Note.md"]`. -/
theorem readDataFile_repairs_witness :
    ∃ L, HeatmapRadar.readDataFile (DataFile.parsed Fixture.rawMalformed) = some L
      ∧ (L.dailyEdits.getD []).get? "2025-10-18" = some []
      ∧ (L.dailyEdits.getD []).get? "2025-10-17" = some ["Note.md"] := by
  obtain ⟨L, hL, hbad, harr, _⟩ := (readDataFile_repairs Fixture.rawMalformed).1
  exact ⟨L, hL, hbad "2025-10-18" (by decide), harr "2025-10-17" ["Note.md"] (by decide)⟩

/-- C16, counterexample: a persisted file that exists but does not parse. `readDataFile`
returns null for it, and the run that follows treats it as a first run: the file is
replaced by the full scan of the vault, which holds `Note.md` only. -/
theorem readDataFile_corrupt_counterexample :
    HeatmapRadar.readDataFile DataFile.unparsable = none
      ∧ HeatmapRadar.recordToday HeatmapRadar.CONFIG Fixture.vaultNote DataFile.unparsable
        = HeatmapRadar.recordToday HeatmapRadar.CONFIG Fixture.vaultNote DataFile.absent
      ∧ (HeatmapRadar.readDataFile
          (HeatmapRadar.recordToday HeatmapRadar.CONFIG Fixture.vaultNote
            DataFile.unparsable)).map (fun L => L.dailyEdits)
        = some (some [("2025-10-19", [hashPath Fixture.vaultNote "Note.md"])]) := by
  decide

/-- C16, amended: `readDataFile` never raises; it returns null when no persisted file
exists and also when reading or parsing the file throws, and a repaired ledger whenever
the file parses to an object. `loadHashBasedModeData` treats a file that does not parse
like a missing one: same ledger, same counts and, when the write succeeds, same
persisted file, all taken from the full scan. -/
theorem readDataFile_null_iff (file : DataFile) :
    (HeatmapRadar.readDataFile file = none
        ↔ file = DataFile.absent ∨ file = DataFile.unparsable)
    ∧ (PathRecord.readDataFile file = none
        ↔ file = DataFile.absent ∨ file = DataFile.unparsable)
    ∧ (∀ cfg h file2,
        (HeatmapRadar.loadHashBasedModeData cfg h DataFile.unparsable file2).data
            = (HeatmapRadar.loadHashBasedModeData cfg h DataFile.absent file2).data
        ∧ (HeatmapRadar.loadHashBasedModeData cfg h DataFile.unparsable file2).countData
            = (HeatmapRadar.loadHashBasedModeData cfg h DataFile.absent file2).countData
        ∧ (∀ d x, x ∈ (HeatmapRadar.loadHashBasedModeData cfg h DataFile.unparsable
              file2).data.bucket d ↔ x ∈ (HeatmapRadar.fullScanAllFiles cfg h).bucket d)
        ∧ (h.storageFails = false →
          (HeatmapRadar.loadHashBasedModeData cfg h DataFile.unparsable file2).file
            = (HeatmapRadar.loadHashBasedModeData cfg h DataFile.absent file2).file)) := by
  refine ⟨?_, ?_, ?_⟩
  · cases file <;> simp [HeatmapRadar.readDataFile, readDataFileWith]
  · cases file <;> simp [PathRecord.readDataFile, readDataFileWith]
  · intro cfg h file2
    refine ⟨rfl, rfl, ?_, ?_⟩
    · intro d x
      have hdata : (HeatmapRadar.loadHashBasedModeData cfg h DataFile.unparsable file2).data
          = (HeatmapRadar.writeDataFile cfg h (HeatmapRadar.fullScanAllFiles cfg h)).getD
              (HeatmapRadar.fullScanAllFiles cfg h) := rfl
      rw [hdata]
      cases hw : HeatmapRadar.writeDataFile cfg h (HeatmapRadar.fullScanAllFiles cfg h) with
      | none => rfl
      | some W =>
        obtain ⟨hs, _⟩ := HeatmapRadar.writeDataFile_some cfg h _ W hw
        obtain ⟨W2, hW2, _, _, _, hperm, _⟩ := HeatmapRadar.writeDataFile_spec cfg h
          (HeatmapRadar.fullScanAllFiles cfg h) hs rfl
        rw [hw] at hW2
        cases hW2
        exact (hperm d).mem_iff
    · intro hs
      obtain ⟨W, hW, _⟩ := HeatmapRadar.writeDataFile_spec cfg h
        (HeatmapRadar.fullScanAllFiles cfg h) hs rfl
      have hsome : W.dailyEdits.isSome = true := by
        obtain ⟨_, de, _, hde⟩ := HeatmapRadar.writeDataFile_some cfg h _ W hW
        rw [hde]
        rfl
      obtain ⟨W2, hW2, _⟩ := HeatmapRadar.writeDataFile_spec cfg h W hs hsome
      unfold HeatmapRadar.loadHashBasedModeData
      simp [HeatmapRadar.readDataFile, readDataFileWith, hW, hW2, persist]

/-- Witness of C16 (amended): on the vault holding `Note.md`, with working storage, the
run on an unparsable file leaves the file a run on no file leaves. -/
theorem readDataFile_null_iff_witness :
    (HeatmapRadar.loadHashBasedModeData HeatmapRadar.CONFIG Fixture.vaultNote
        DataFile.unparsable DataFile.unparsable).file
      = (HeatmapRadar.loadHashBasedModeData HeatmapRadar.CONFIG Fixture.vaultNote
        DataFile.absent DataFile.unparsable).file :=
  ((readDataFile_null_iff DataFile.unparsable).2.2 HeatmapRadar.CONFIG Fixture.vaultNote
    DataFile.unparsable).2.2.2 (by decide)

/-! ## Lemmas on hashPath -/

set_option maxRecDepth 100000 in
/-- For a byte, `b.toString(16).padStart(2, '0')` is the two-digit lowercase hexadecimal. -/
theorem padStart2_toDigits_eq :
    ∀ b, b < 256 → String.mk (padStart2 (Nat.toDigits 16 b)) = hexByte b := by
  decide

set_option maxRecDepth 100000 in
theorem hexDigit_isHexChar : ∀ n, n < 16 → isHexChar (hexDigit n) = true := by
  decide

theorem data_foldl_append (l : List String) (acc : String) :
    (l.foldl (fun r s => r ++ s) acc).data = acc.data ++ l.flatMap String.data := by
  induction l generalizing acc with
  | nil => simp
  | cons s rest ih =>
    rw [List.foldl_cons, ih, List.flatMap_cons, String.data_append, List.append_assoc]

theorem data_join (l : List String) : (String.join l).data = l.flatMap String.data := by
  unfold String.join
  rw [data_foldl_append]
  rfl

theorem data_join_hexByte (bs : List Nat) :
    (String.join (bs.map hexByte)).data
      = bs.flatMap fun b => [hexDigit (b / 16), hexDigit (b % 16)] := by
  rw [data_join]
  induction bs with
  | nil => rfl
  | cons b rest ih =>
    rw [List.map_cons, List.flatMap_cons, List.flatMap_cons, ih]
    rfl

theorem length_flatMap_pair {α β : Type} (f g : α → β) (bs : List α) :
    (bs.flatMap fun b => [f b, g b]).length = 2 * bs.length := by
  induction bs with
  | nil => rfl
  | cons b rest ih =>
    rw [List.flatMap_cons, List.length_append, ih, List.length_cons]
    simp only [List.length_cons, List.length_nil]
    omega

/-- The identifier is the concatenated hexadecimal of the first 8 digest bytes. -/
theorem hashPath_eq_hexBytes (h : Host) (p : String) (hbyte : ∀ b ∈ h.sha256 p, b < 256) :
    hashPath h p = String.join (((h.sha256 p).take 8).map hexByte) := by
  unfold hashPath
  congr 1
  apply List.map_congr_left
  intro b hb
  exact padStart2_toDigits_eq b (hbyte b (List.mem_of_mem_take hb))

/-! ## Claims on the identifier -/

/-- C19: for every path, when the digest is a sequence of at least 8 bytes (SHA-256 gives
32), `hashPath` is the two-digit zero-padded lowercase hexadecimal of its first 8 bytes:
a string of exactly 16 characters, each one of `0-9` or `a-f`, and `isHashFormat`
accepts it. -/
theorem hashPath_format (h : Host) (p : String) (hlen : 8 ≤ (h.sha256 p).length)
    (hbyte : ∀ b ∈ h.sha256 p, b < 256) :
    hashPath h p = String.join (((h.sha256 p).take 8).map hexByte)
      ∧ (hashPath h p).length = 16
      ∧ (∀ c ∈ (hashPath h p).data, isHexChar c = true)
      ∧ isHashFormat (hashPath h p) = true := by
  have heq := hashPath_eq_hexBytes h p hbyte
  have hdata := data_join_hexByte ((h.sha256 p).take 8)
  have hlen16 : (hashPath h p).data.length = 16 := by
    rw [heq, hdata, length_flatMap_pair, List.length_take]
    omega
  have hchars : ∀ c ∈ (hashPath h p).data, isHexChar c = true := by
    intro c hc
    rw [heq, hdata, List.mem_flatMap] at hc
    obtain ⟨b, _, hcb⟩ := hc
    rcases List.mem_cons.mp hcb with rfl | hcb2
    · have hb : b < 256 := hbyte b (List.mem_of_mem_take ‹_›)
      exact hexDigit_isHexChar _ (by omega)
    · rw [List.mem_singleton] at hcb2
      subst hcb2
      exact hexDigit_isHexChar _ (Nat.mod_lt _ (by decide))
  refine ⟨heq, hlen16, hchars, ?_⟩
  unfold isHashFormat
  rw [hlen16]
  simp only [beq_self_eq_true, Bool.true_and, List.all_eq_true]
  intro c hc
  exact hchars c hc

/-- Witness of C19: the path `Note.md` under the stand-in digest of the concrete host. -/
theorem hashPath_format_witness :
    hashPath Fixture.vaultNote "Note.md"
        = String.join (((Fixture.vaultNote.sha256 "Note.md").take 8).map hexByte)
      ∧ (hashPath Fixture.vaultNote "Note.md").length = 16
      ∧ (∀ c ∈ (hashPath Fixture.vaultNote "Note.md").data, isHexChar c = true)
      ∧ isHashFormat (hashPath Fixture.vaultNote "Note.md") = true :=
  hashPath_format Fixture.vaultNote "Note.md" (by decide) (by decide)

/-- One cached call: on a cache whose entries are short hashes of their own paths, the
call returns the uncached identifier and leaves such a cache. -/
theorem HeatmapRadar.hashPathCached_spec (cfg : Config) (h : Host) (cache : Obj String)
    (path : String) (hinv : ∀ q v, cache.get? q = some v → v = hashPath h q) :
    (HeatmapRadar.hashPathCached cfg h cache path).1 = hashPath h path
      ∧ ∀ q v, (HeatmapRadar.hashPathCached cfg h cache path).2.get? q = some v →
          v = hashPath h q := by
  unfold HeatmapRadar.hashPathCached
  by_cases hc : (cfg.enableHashCache && (cache.get? path).isSome) = true
  · rw [if_pos hc]
    simp only [Bool.and_eq_true] at hc
    obtain ⟨v, hv⟩ := Option.isSome_iff_exists.mp hc.2
    refine ⟨?_, hinv⟩
    simp only [hv, Option.getD_some]
    exact hinv path v hv
  · rw [if_neg hc]
    refine ⟨rfl, ?_⟩
    intro q v hq
    by_cases he : cfg.enableHashCache = true
    · simp only [he, if_true, Obj.get?_set] at hq
      by_cases hpq : path = q
      · rw [if_pos hpq] at hq
        rw [← Option.some.inj hq, hpq]
      · rw [if_neg hpq] at hq
        exact hinv q v hq
    · simp only [he] at hq
      exact hinv q v hq

theorem HeatmapRadar.cacheAfter_inv (cfg : Config) (h : Host) (paths : List String)
    (cache : Obj String) (hinv : ∀ q v, cache.get? q = some v → v = hashPath h q) :
    ∀ q v, (HeatmapRadar.cacheAfter cfg h cache paths).get? q = some v → v = hashPath h q := by
  induction paths generalizing cache with
  | nil => exact hinv
  | cons p rest ih =>
    unfold HeatmapRadar.cacheAfter
    rw [List.foldl_cons]
    exact ih _ (HeatmapRadar.hashPathCached_spec cfg h cache p hinv).2

/-- C20: memoization is transparent. After any sequence of earlier `hashPath` calls on
the initially empty `hashCache`, with the cache enabled or disabled, `hashPath(p)`
returns the identifier of the uncached computation, and every entry of the cache maps a
path to the short hash of that very path; so the same path gives the same identifier on
every call. -/
theorem hashPathCached_transparent (cfg : Config) (h : Host) (earlier : List String)
    (p : String) :
    (HeatmapRadar.hashPathCached cfg h (HeatmapRadar.cacheAfter cfg h [] earlier) p).1
        = hashPath h p
      ∧ (∀ q v, (HeatmapRadar.cacheAfter cfg h [] earlier).get? q = some v → v = hashPath h q)
      ∧ (∀ later : List String,
          (HeatmapRadar.hashPathCached cfg h
            (HeatmapRadar.cacheAfter cfg h [] (earlier ++ p :: later)) p).1
          = (HeatmapRadar.hashPathCached cfg h (HeatmapRadar.cacheAfter cfg h [] earlier) p).1) := by
  have hempty : ∀ q v, Obj.get? ([] : Obj String) q = some v → v = hashPath h q := by
    intro q v hq
    simp [Obj.get?] at hq
  have hinv := HeatmapRadar.cacheAfter_inv cfg h earlier [] hempty
  refine ⟨(HeatmapRadar.hashPathCached_spec cfg h _ p hinv).1, hinv, ?_⟩
  intro later
  rw [(HeatmapRadar.hashPathCached_spec cfg h _ p hinv).1,
    (HeatmapRadar.hashPathCached_spec cfg h _ p
      (HeatmapRadar.cacheAfter_inv cfg h (earlier ++ p :: later) [] hempty)).1]

/-- Witness of C20: the second call on `Note.md`, after calls on `Note.md` and
`Plan.md`, returns the uncached identifier. -/
theorem hashPathCached_transparent_witness :
    (HeatmapRadar.hashPathCached HeatmapRadar.CONFIG Fixture.vaultNote
        (HeatmapRadar.cacheAfter HeatmapRadar.CONFIG Fixture.vaultNote []
          ["Note.md", "Plan.md"]) "Note.md").1
      = hashPath Fixture.vaultNote "Note.md" :=
  (hashPathCached_transparent HeatmapRadar.CONFIG Fixture.vaultNote ["Note.md", "Plan.md"]
    "Note.md").1

/-! ## Lemmas on sorting -/

theorem lexLe_refl (a : List Nat) : lexLe a a = true := by
  induction a with
  | nil => rfl
  | cons x xs ih => simp [lexLe, ih]

theorem lexLe_total (a b : List Nat) : lexLe a b = true ∨ lexLe b a = true := by
  induction a generalizing b with
  | nil => exact Or.inl rfl
  | cons x xs ih =>
    cases b with
    | nil => exact Or.inr rfl
    | cons y ys =>
      by_cases hxy : x < y
      · left
        simp [lexLe, hxy]
      · by_cases hyx : y < x
        · right
          simp [lexLe, hyx]
        · simp only [lexLe, hxy, hyx, if_false]
          exact ih ys

theorem lexLe_trans (a b c : List Nat) (hab : lexLe a b = true) (hbc : lexLe b c = true) :
    lexLe a c = true := by
  induction a generalizing b c with
  | nil => rfl
  | cons x xs ih =>
    cases b with
    | nil => simp [lexLe] at hab
    | cons y ys =>
      cases c with
      | nil => simp [lexLe] at hbc
      | cons z zs =>
        by_cases hxy : x < y
        · by_cases hyz : y < z
          · have hxz : x < z := by omega
            simp [lexLe, hxz]
          · by_cases hzy : z < y
            · simp [lexLe, hyz, hzy] at hbc
            · have hxz : x < z := by omega
              simp [lexLe, hxz]
        · by_cases hyx : y < x
          · simp [lexLe, hxy, hyx] at hab
          · have hxy2 : x = y := by omega
            subst hxy2
            simp only [lexLe, hxy, if_false] at hab
            by_cases hxz : x < z
            · simp [lexLe, hxz]
            · by_cases hzx : z < x
              · simp [lexLe, hxz, hzx] at hbc
              · simp only [lexLe, hxz, hzx, if_false] at hbc ⊢
                exact ih ys zs hab hbc

theorem orderedInsert_congr {α : Type} (r s : α → α → Prop) [DecidableRel r] [DecidableRel s]
    (a : α) (l : List α) (hrs : ∀ b ∈ l, (r a b ↔ s a b)) :
    l.orderedInsert r a = l.orderedInsert s a := by
  induction l with
  | nil => rfl
  | cons b rest ih =>
    have hb := hrs b (List.mem_cons_self _ _)
    have ih2 := ih fun c hc => hrs c (List.mem_cons_of_mem _ hc)
    by_cases hr : r a b
    · have hs : s a b := hb.mp hr
      simp [List.orderedInsert, hr, hs]
    · have hs : ¬ s a b := fun h => hr (hb.mpr h)
      simp [List.orderedInsert, hr, hs, ih2]

/-- Insertion sort depends on the comparison only through the elements of the list. -/
theorem insertionSort_congr {α : Type} (r s : α → α → Prop) [DecidableRel r] [DecidableRel s]
    (l : List α) (hrs : ∀ a ∈ l, ∀ b ∈ l, (r a b ↔ s a b)) :
    l.insertionSort r = l.insertionSort s := by
  induction l with
  | nil => rfl
  | cons a rest ih =>
    have ih2 := ih fun x hx y hy =>
      hrs x (List.mem_cons_of_mem _ hx) y (List.mem_cons_of_mem _ hy)
    show (rest.insertionSort r).orderedInsert r a = (rest.insertionSort s).orderedInsert s a
    rw [ih2]
    apply orderedInsert_congr
    intro b hb
    exact hrs a (List.mem_cons_self _ _) b
      (List.mem_cons_of_mem _ ((List.mem_insertionSort s).mp hb))

/-- Default `sort()` leaves the strings in ascending order of their UTF-16 code units. -/
theorem sorted_sortDefault (xs : List String) :
    (sortDefault xs).Sorted fun a b => lexLe (utf16 a) (utf16 b) = true := by
  haveI : IsTotal String (fun a b => lexLe (utf16 a) (utf16 b) = true) :=
    ⟨fun a b => lexLe_total (utf16 a) (utf16 b)⟩
  haveI : IsTrans String (fun a b => lexLe (utf16 a) (utf16 b) = true) :=
    ⟨fun a b c hab hbc => lexLe_trans (utf16 a) (utf16 b) (utf16 c) hab hbc⟩
  exact List.sorted_insertionSort (fun a b => lexLe (utf16 a) (utf16 b) = true) xs

/-- Sorting keys with a collation that agrees with the code-unit order on them leaves
them in descending code-unit order. -/
theorem sorted_sortBy_localeCompare (h : Host) (ks : List String)
    (hcoll : ∀ a ∈ ks, ∀ b ∈ ks,
      (h.localeCompare a b ≤ 0 ↔ lexLe (utf16 a) (utf16 b) = true)) :
    (sortBy (fun a b => h.localeCompare b a) ks).Sorted
      fun a b => lexLe (utf16 b) (utf16 a) = true := by
  haveI : IsTotal String (fun a b => lexLe (utf16 b) (utf16 a) = true) :=
    ⟨fun a b => lexLe_total (utf16 b) (utf16 a)⟩
  haveI : IsTrans String (fun a b => lexLe (utf16 b) (utf16 a) = true) :=
    ⟨fun a b c hab hbc => lexLe_trans (utf16 c) (utf16 b) (utf16 a) hbc hab⟩
  unfold sortBy
  rw [insertionSort_congr (fun a b => h.localeCompare b a ≤ 0)
    (fun a b => lexLe (utf16 b) (utf16 a) = true) ks fun a ha b hb => hcoll b hb a ha]
  exact List.sorted_insertionSort (fun a b => lexLe (utf16 b) (utf16 a) = true) ks

theorem Obj.foldl_set_keys_of_nodup {β : Type} (g : String → β) (ks : List String)
    (acc : Obj β) (hn : (Obj.keys acc ++ ks).Nodup) :
    ks.foldl (fun (a : Obj β) k => Obj.set a k (g k)) acc
      = acc ++ ks.map fun k => (k, g k) := by
  induction ks generalizing acc with
  | nil => simp
  | cons k rest ih =>
    have hk : k ∉ Obj.keys acc := by
      have hd := List.disjoint_of_nodup_append hn
      intro hmem
      exact hd hmem (List.mem_cons_self _ _)
    rw [List.foldl_cons, Obj.set_of_not_mem acc k (g k) hk, ih]
    · simp
    · simpa [Obj.keys] using hn

/-- The sorted copy of an object with distinct keys, entry by entry. -/
theorem sortDailyEdits_eq_map (h : Host) (de : Obj (List String)) (hn : (Obj.keys de).Nodup) :
    sortDailyEdits h de
      = (sortBy (fun a b => h.localeCompare b a) (Obj.keys de)).map fun k =>
          (k, sortDefault ((de.get? k).getD [])) := by
  unfold sortDailyEdits
  have hperm : (sortBy (fun a b => h.localeCompare b a) (Obj.keys de)).Perm (Obj.keys de) :=
    List.perm_insertionSort _ _
  have := Obj.foldl_set_keys_of_nodup (fun k => sortDefault ((de.get? k).getD []))
    (sortBy (fun a b => h.localeCompare b a) (Obj.keys de)) []
    (by simpa [Obj.keys] using hperm.nodup_iff.mpr hn)
  simpa using this

/-- The sorted copy: days in strictly descending order, each bucket ascending, nothing
added, dropped or merged. -/
theorem sortDailyEdits_sorted (h : Host) (de : Obj (List String)) (hn : (Obj.keys de).Nodup)
    (hcoll : ∀ a ∈ Obj.keys de, ∀ b ∈ Obj.keys de,
      (h.localeCompare a b ≤ 0 ↔ lexLe (utf16 a) (utf16 b) = true)) :
    (Obj.keys (sortDailyEdits h de)).Sorted (fun a b => lexLe (utf16 b) (utf16 a) = true ∧ a ≠ b)
      ∧ (Obj.keys (sortDailyEdits h de)).Perm (Obj.keys de)
      ∧ (∀ e ∈ sortDailyEdits h de,
          e.2.Sorted fun x y => lexLe (utf16 x) (utf16 y) = true) := by
  have hkeys : Obj.keys (sortDailyEdits h de)
      = sortBy (fun a b => h.localeCompare b a) (Obj.keys de) := by
    rw [sortDailyEdits_eq_map h de hn]
    simp [Obj.keys, List.map_map, Function.comp_def]
  have hperm : (sortBy (fun a b => h.localeCompare b a) (Obj.keys de)).Perm (Obj.keys de) :=
    List.perm_insertionSort _ _
  refine ⟨?_, ?_, ?_⟩
  · rw [hkeys]
    have hs := sorted_sortBy_localeCompare h (Obj.keys de) hcoll
    have hnd : (sortBy (fun a b => h.localeCompare b a) (Obj.keys de)).Nodup :=
      hperm.nodup_iff.mpr hn
    exact List.Pairwise.and hs hnd
  · rw [hkeys]
    exact hperm
  · intro e he
    rw [sortDailyEdits_eq_map h de hn] at he
    obtain ⟨k, _, rfl⟩ := List.mem_map.mp he
    exact sorted_sortDefault _

theorem Fixture.localeCompare_le_iff (a b : String) :
    Fixture.localeCompare a b ≤ 0 ↔ lexLe (utf16 a) (utf16 b) = true := by
  unfold Fixture.localeCompare
  by_cases hab : a = b
  · subst hab
    simp [lexLe_refl]
  · by_cases hle : lexLe (utf16 a) (utf16 b) = true
    · simp [hab, hle]
    · simp [hab, hle]

/-! ## Claim on the serialised order -/

/-- C13: for every ledger whose day keys are distinct `YYYY-MM-DD` strings, on a host
whose collation orders such strings by their characters, the `dailyEdits` that
`writeDataFile` serialises lists the days in strictly descending order and each day's
identifiers in ascending order (of UTF-16 code units); its days are a permutation of
the input days and each bucket a permutation of the input bucket; in both scripts. -/
theorem writeDataFile_sorted (cfg : Config) (h : Host) (data W : Ledger)
    (hn : data.days.Nodup) (hkeys : ∀ d ∈ data.days, isDayKey d = true)
    (hcoll : ∀ a b, isDayKey a = true → isDayKey b = true →
      (h.localeCompare a b ≤ 0 ↔ lexLe (utf16 a) (utf16 b) = true))
    (hw : HeatmapRadar.writeDataFile cfg h data = some W
      ∨ PathRecord.writeDataFile h data = some W) :
    W.days.Sorted (fun a b => lexLe (utf16 b) (utf16 a) = true ∧ a ≠ b)
      ∧ W.days.Perm data.days
      ∧ (∀ e ∈ W.dailyEdits.getD [], e.2.Sorted fun x y => lexLe (utf16 x) (utf16 y) = true)
      ∧ (∀ d, (W.bucket d).Perm (data.bucket d)) := by
  have hshape : ∃ de, data.dailyEdits = some de ∧ W.dailyEdits = some (sortDailyEdits h de) := by
    rcases hw with hw | hw
    · exact (HeatmapRadar.writeDataFile_some cfg h data W hw).2
    · exact (PathRecord.pathWrite_some h data W hw).2
  obtain ⟨de, hde, hW⟩ := hshape
  have hdays : data.days = Obj.keys de := by simp [Ledger.days, hde]
  rw [hdays] at hn hkeys
  obtain ⟨hsorted, hperm, hbuckets⟩ := sortDailyEdits_sorted h de hn
    fun a ha b hb => hcoll a b (hkeys a ha) (hkeys b hb)
  have hWdays : W.days = Obj.keys (sortDailyEdits h de) := by simp [Ledger.days, hW]
  refine ⟨?_, ?_, ?_, ?_⟩
  · rw [hWdays]
    exact hsorted
  · rw [hWdays, hdays]
    exact hperm
  · intro e he
    rw [hW] at he
    exact hbuckets e he
  · intro d
    simp only [Ledger.bucket, hW, hde, Option.getD_some]
    exact perm_bucket_sortDailyEdits h de d

/-- Witness of C13: the ledger with the days 2025-10-17 and 2025-10-19, written on the
concrete host. -/
theorem writeDataFile_sorted_witness :
    ((HeatmapRadar.writeDataFile HeatmapRadar.CONFIG Fixture.vaultNote
        Fixture.ledgerUnsorted).getD Fixture.ledgerUnsorted).days.Sorted
      (fun a b => lexLe (utf16 b) (utf16 a) = true ∧ a ≠ b)
      ∧ ((HeatmapRadar.writeDataFile HeatmapRadar.CONFIG Fixture.vaultNote
        Fixture.ledgerUnsorted).getD Fixture.ledgerUnsorted).days.Perm
          Fixture.ledgerUnsorted.days
      ∧ (∀ e ∈ ((HeatmapRadar.writeDataFile HeatmapRadar.CONFIG Fixture.vaultNote
          Fixture.ledgerUnsorted).getD Fixture.ledgerUnsorted).dailyEdits.getD [],
          e.2.Sorted fun x y => lexLe (utf16 x) (utf16 y) = true)
      ∧ (∀ d, (((HeatmapRadar.writeDataFile HeatmapRadar.CONFIG Fixture.vaultNote
          Fixture.ledgerUnsorted).getD Fixture.ledgerUnsorted).bucket d).Perm
            (Fixture.ledgerUnsorted.bucket d)) :=
  writeDataFile_sorted HeatmapRadar.CONFIG Fixture.vaultNote Fixture.ledgerUnsorted
    ((HeatmapRadar.writeDataFile HeatmapRadar.CONFIG Fixture.vaultNote
      Fixture.ledgerUnsorted).getD Fixture.ledgerUnsorted)
    (by decide) (by decide) (fun a b _ _ => Fixture.localeCompare_le_iff a b)
    (Or.inl (by decide))

/-! ## Claim on today's observations -/

/-- C11, at two failing inputs. On a machine in UTC, `Early.md` is not ignored and was
modified today in Asia/Shanghai (03:00), the full scan records it under today, and
`getTodayModifiedFiles` does not return it. On a machine in Asia/Shanghai, `Late.md`
was modified today at 23:59:59.500 and is not returned either. -/
theorem getTodayModifiedFiles_misses_today :
    (getTodayString Fixture.vaultUtc = "2025-10-19"
      ∧ shouldIgnore HeatmapRadar.CONFIG "Early.md" = false
      ∧ formatDate Fixture.vaultUtc (Fixture.october + 18 * 86400000 + 10800000) = "2025-10-19"
      ∧ (HeatmapRadar.fullScanAllFiles HeatmapRadar.CONFIG Fixture.vaultUtc).bucket "2025-10-19"
          = [hashPath Fixture.vaultUtc "Early.md"]
      ∧ HeatmapRadar.getTodayModifiedFiles HeatmapRadar.CONFIG Fixture.vaultUtc = [])
    ∧ (getTodayString Fixture.vaultLate = "2025-10-19"
      ∧ shouldIgnore HeatmapRadar.CONFIG "Late.md" = false
      ∧ formatDate Fixture.vaultLate (Fixture.october + 18 * 86400000 + 86399500) = "2025-10-19"
      ∧ (HeatmapRadar.fullScanAllFiles HeatmapRadar.CONFIG Fixture.vaultLate).bucket "2025-10-19"
          = [hashPath Fixture.vaultLate "Late.md"]
      ∧ HeatmapRadar.getTodayModifiedFiles HeatmapRadar.CONFIG Fixture.vaultLate = []) := by
  decide

/-! ## Lemmas on array elements of the persisted file -/

theorem get?_readDailyEdits (members : Option (List (String × JsonValue))) (d : String) :
    (readDailyEdits members).get? d
      = ((jsonObject (members.getD [])).get? d).map fun v =>
          match v with
          | JsonValue.arr items => items
          | JsonValue.notArray => [] := by
  unfold readDailyEdits
  simp only
  have hfun : resetNonArrayValue = fun (a : Obj JsonValue) (e : String × JsonValue) =>
      if (match e.2 with
          | JsonValue.arr _ => false
          | JsonValue.notArray => true) then Obj.set a e.1 (JsonValue.arr []) else a := by
    funext a e
    exact resetNonArrayValue_eq a e
  rw [hfun]
  have hmap := Obj.get?_map (fun v : JsonValue =>
      match v with
      | JsonValue.arr items => items
      | JsonValue.notArray => [])
    ((jsonObject (members.getD [])).foldl
      (fun (a : Obj JsonValue) (e : String × JsonValue) =>
        if (match e.2 with
            | JsonValue.arr _ => false
            | JsonValue.notArray => true) then Obj.set a e.1 (JsonValue.arr []) else a)
      (jsonObject (members.getD []))) d
  rw [hmap, get?_foldl_reset_self (fun v : JsonValue =>
      match v with
      | JsonValue.arr _ => false
      | JsonValue.notArray => true) (JsonValue.arr []) _ (nodup_keys_jsonObject _) d]
  cases (jsonObject (members.getD [])).get? d with
  | none => rfl
  | some v => cases v <;> rfl

theorem Obj.map_set {β γ : Type} (F : β → γ) (o : Obj β) (k : String) (v : β) :
    (Obj.set o k v).map (fun e => (e.1, F e.2))
      = Obj.set (o.map fun e => (e.1, F e.2)) k (F v) := by
  induction o with
  | nil => rfl
  | cons e rest ih =>
    obtain ⟨k0, w⟩ := e
    by_cases hk : k0 = k
    · simp [Obj.set, hk]
    · simp only [Obj.set, hk, if_false, List.map_cons]
      rw [ih]

theorem jsonObject_map {β γ : Type} (F : β → γ) (members : List (String × β)) :
    jsonObject (members.map fun e => (e.1, F e.2))
      = (jsonObject members).map fun e => (e.1, F e.2) := by
  unfold jsonObject
  have key : ∀ (acc : Obj β),
      (members.map fun e => (e.1, F e.2)).foldl
          (fun (a : Obj γ) (m : String × γ) => Obj.set a m.1 m.2)
          (acc.map fun e => (e.1, F e.2))
        = (members.foldl (fun (a : Obj β) (m : String × β) => Obj.set a m.1 m.2) acc).map
            fun e => (e.1, F e.2) := by
    induction members with
    | nil => intro acc; rfl
    | cons m rest ih =>
      intro acc
      rw [List.map_cons, List.foldl_cons, List.foldl_cons, ← Obj.map_set, ih]
  exact key []

/-- On a file whose arrays hold strings only, the reading with unrestricted elements
returns the buckets of `readDataFile`. -/
theorem readDailyEdits_of_strings (n : Nat) (raw : RawLedger) (L : Ledger)
    (hL : readDataFileWith n (DataFile.parsed raw) = some L) (d : String) :
    (readDailyEdits (raw.dailyEdits.map fun ms => ms.map fun e => (e.1, e.2.toValue))).get? d
      = ((L.dailyEdits.getD []).get? d).map fun b => b.map JsonItem.str := by
  rw [get?_readDailyEdits, get?_of_readDataFileWith n raw L hL d]
  have hmem : (raw.dailyEdits.map fun ms => ms.map fun e => (e.1, e.2.toValue)).getD []
      = (raw.dailyEdits.getD []).map fun e => (e.1, e.2.toValue) := by
    cases raw.dailyEdits <;> rfl
  rw [hmem, jsonObject_map JsonDay.toValue, Obj.get?_map JsonDay.toValue]
  cases (jsonObject (raw.dailyEdits.getD [])).get? d with
  | none => rfl
  | some v => cases v <;> rfl

/-! ## Claim on array elements -/

/-- C15, counterexample: the persisted value of 2025-10-18 is an array holding a number,
null, a nested value and a string. The bucket `readDataFile` returns for that day is
that array, which is not an array of strings, and not the empty bucket. -/
theorem readDataFile_elements_counterexample :
    (readDailyEdits (some [("2025-10-18", JsonValue.arr
        [JsonItem.num 42, JsonItem.null, JsonItem.nested, JsonItem.str "Note.md"])])).get?
          "2025-10-18"
        = some [JsonItem.num 42, JsonItem.null, JsonItem.nested, JsonItem.str "Note.md"]
      ∧ ((readDailyEdits (some [("2025-10-18", JsonValue.arr
        [JsonItem.num 42, JsonItem.null, JsonItem.nested, JsonItem.str "Note.md"])])).get?
          "2025-10-18").map allStrings = some false := by
  decide

/-- C15, amended: every ledger returned by `readDataFile` has, for every day, a bucket
that is an array. A day whose persisted value is not an array is reset to the empty
bucket; a day whose value is an array keeps it unchanged whatever its elements, so an
array of strings stays an array of strings and the buckets of a file holding only
string arrays are those of the string-level reading. -/
theorem readDataFile_checks_arrays_only (members : Option (List (String × JsonValue))) :
    (∀ d, (jsonObject (members.getD [])).get? d = some JsonValue.notArray →
        (readDailyEdits members).get? d = some [])
    ∧ (∀ d items, (jsonObject (members.getD [])).get? d = some (JsonValue.arr items) →
        (readDailyEdits members).get? d = some items)
    ∧ (∀ d, d ∈ Obj.keys (readDailyEdits members) ↔ d ∈ Obj.keys (jsonObject (members.getD [])))
    ∧ (∀ n raw L, readDataFileWith n (DataFile.parsed raw) = some L → ∀ d,
        (readDailyEdits (raw.dailyEdits.map fun ms => ms.map fun e => (e.1, e.2.toValue))).get? d
          = ((L.dailyEdits.getD []).get? d).map fun b => b.map JsonItem.str) := by
  refine ⟨?_, ?_, ?_, ?_⟩
  · intro d hd
    rw [get?_readDailyEdits, hd]
    rfl
  · intro d items hd
    rw [get?_readDailyEdits, hd]
    rfl
  · intro d
    rw [Obj.mem_keys_iff, get?_readDailyEdits, Obj.mem_keys_iff]
    cases (jsonObject (members.getD [])).get? d <;> simp
  · intro n raw L hL d
    exact readDailyEdits_of_strings n raw L hL d

/-- Witness of C15 (amended): the day 2025-10-18 holds a non-array and is reset, the day
2025-10-17 holds an array with a number and keeps it. -/
theorem readDataFile_checks_arrays_only_witness :
    (readDailyEdits (some [("2025-10-18", JsonValue.notArray),
        ("2025-10-17", JsonValue.arr [JsonItem.num 42])])).get? "2025-10-18" = some []
      ∧ (readDailyEdits (some [("2025-10-18", JsonValue.notArray),
        ("2025-10-17", JsonValue.arr [JsonItem.num 42])])).get? "2025-10-17"
          = some [JsonItem.num 42] :=
  ⟨(readDataFile_checks_arrays_only (some [("2025-10-18", JsonValue.notArray),
      ("2025-10-17", JsonValue.arr [JsonItem.num 42])])).1 "2025-10-18" (by decide),
    (readDataFile_checks_arrays_only (some [("2025-10-18", JsonValue.notArray),
      ("2025-10-17", JsonValue.arr [JsonItem.num 42])])).2.1 "2025-10-17" [JsonItem.num 42]
      (by decide)⟩

/-! ## Lemmas on exceptions -/

theorem foldlM_ok_of_mem {α β : Type} (f : β → α → Except String β) (g : β → α → β)
    (xs : List α) (b : β) (hfg : ∀ a ∈ xs, ∀ b, f b a = Except.ok (g b a)) :
    xs.foldlM f b = Except.ok (xs.foldl g b) := by
  induction xs generalizing b with
  | nil => rfl
  | cons a rest ih =>
    rw [List.foldlM_cons, hfg a (List.mem_cons_self _ _) b, List.foldl_cons]
    exact ih (g b a) fun a2 ha2 => hfg a2 (List.mem_cons_of_mem _ ha2)

theorem foldlM_error {α β : Type} (f : β → α → Except String β) (xs : List α) (b : β)
    (hf : ∃ a ∈ xs, ∀ b, (f b a).isOk = false) : (xs.foldlM f b).isOk = false := by
  induction xs generalizing b with
  | nil =>
    obtain ⟨a, ha, _⟩ := hf
    simp at ha
  | cons x rest ih =>
    rw [List.foldlM_cons]
    cases hx : f b x with
    | error e => rfl
    | ok b2 =>
      obtain ⟨a, ha, hbad⟩ := hf
      rcases List.mem_cons.mp ha with rfl | hmem
      · have := hbad b
        rw [hx] at this
        exact Bool.noConfusion this
      · exact ih b2 ⟨a, hmem, hbad⟩

theorem filterE_ok_of_mem (p : String → Except String Bool) (q : String → Bool)
    (xs : List String) (hpq : ∀ a ∈ xs, p a = Except.ok (q a)) :
    filterE p xs = Except.ok (xs.filter q) := by
  induction xs with
  | nil => rfl
  | cons a rest ih =>
    have ih2 := ih fun a2 ha2 => hpq a2 (List.mem_cons_of_mem _ ha2)
    unfold filterE
    rw [hpq a (List.mem_cons_self _ _), ih2]
    cases hq : q a <;> simp [List.filter, hq] <;> rfl

theorem filterE_error (p : String → Except String Bool) (xs : List String)
    (hp : ∃ a ∈ xs, (p a).isOk = false) : (filterE p xs).isOk = false := by
  induction xs with
  | nil =>
    obtain ⟨a, ha, _⟩ := hp
    simp at ha
  | cons x rest ih =>
    unfold filterE
    cases hx : p x with
    | error e => rfl
    | ok keep =>
      obtain ⟨a, ha, hbad⟩ := hp
      rcases List.mem_cons.mp ha with rfl | hmem
      · rw [hx] at hbad
        exact Bool.noConfusion hbad
      · have hrest := ih ⟨a, hmem, hbad⟩
        cases hr : filterE p rest with
        | error e => rfl
        | ok r =>
          rw [hr] at hrest
          exact Bool.noConfusion hrest

theorem HeatmapRadar.identifierE_ok (cfg : Config) (h : Host) (faults : Faults) (path : String)
    (hd : faults.digestThrows = false ∨ cfg.useHashMode = false) :
    HeatmapRadar.identifierE cfg h faults path
      = Except.ok (HeatmapRadar.identifier cfg h path) := by
  unfold HeatmapRadar.identifierE HeatmapRadar.identifier HeatmapRadar.hashPathE
  rcases hd with hd | hd
  · by_cases hm : cfg.useHashMode = true <;> simp [hd, hm]
  · simp [hd]

theorem HeatmapRadar.getAllFilesDateMapE_ok (cfg : Config) (h : Host) (faults : Faults)
    (hi : faults.indexThrows = false)
    (hd : faults.digestThrows = false ∨ cfg.useHashMode = false) :
    HeatmapRadar.getAllFilesDateMapE cfg h faults
      = Except.ok (HeatmapRadar.getAllFilesDateMap cfg h) := by
  unfold HeatmapRadar.getAllFilesDateMapE HeatmapRadar.getAllFilesDateMap
    HeatmapRadar.markdownFilesE
  simp only [hi, Bool.false_eq_true, if_false, bind, Except.bind]
  apply foldlM_ok_of_mem
  intro file _ dateMap
  by_cases hig : shouldIgnore cfg file.path = true
  · simp only [hig, if_true]
    rfl
  · simp only [hig, if_false, HeatmapRadar.identifierE_ok cfg h faults file.path hd]
    rfl

theorem HeatmapRadar.getTodayModifiedFilesE_ok (cfg : Config) (h : Host) (faults : Faults)
    (hi : faults.indexThrows = false)
    (hd : faults.digestThrows = false ∨ cfg.useHashMode = false) :
    HeatmapRadar.getTodayModifiedFilesE cfg h faults
      = Except.ok (HeatmapRadar.getTodayModifiedFiles cfg h) := by
  unfold HeatmapRadar.getTodayModifiedFilesE HeatmapRadar.getTodayModifiedFiles
    HeatmapRadar.markdownFilesE
  simp only [hi, Bool.false_eq_true, if_false, bind, Except.bind]
  apply foldlM_ok_of_mem
  intro file _ todayHashes
  by_cases hig : shouldIgnore cfg file.path = true
  · simp only [hig, if_true]
    rfl
  · simp only [hig, if_false]
    by_cases hin : (HeatmapRadar.dateGe file.mtime
        (h.parseDate (getTodayString h ++ " 00:00:00")) &&
        HeatmapRadar.dateLe file.mtime (h.parseDate (getTodayString h ++ " 23:59:59"))) = true
    · simp only [hin, if_true, HeatmapRadar.identifierE_ok cfg h faults file.path hd]
      rfl
    · simp only [hin, if_false]
      rfl

/-- Without a failure of the index or of the digest, the loader with exceptions returns
what the loader returns, for every state of the file and of the storage. -/
theorem HeatmapRadar.loadHashBasedModeDataE_ok (cfg : Config) (h : Host) (faults : Faults)
    (file1 file2 : DataFile) (hi : faults.indexThrows = false)
    (hd : faults.digestThrows = false ∨ cfg.useHashMode = false) :
    HeatmapRadar.loadHashBasedModeDataE cfg h faults file1 file2
      = Except.ok (HeatmapRadar.loadHashBasedModeData cfg h file1 file2) := by
  unfold HeatmapRadar.loadHashBasedModeDataE HeatmapRadar.loadHashBasedModeData
    HeatmapRadar.fullScanAllFilesE HeatmapRadar.fullScanAllFiles
  cases HeatmapRadar.readDataFile file1 with
  | none =>
    simp only [HeatmapRadar.getAllFilesDateMapE_ok cfg h faults hi hd, bind, Except.bind,
      pure, Except.pure]
  | some cached =>
    simp only [HeatmapRadar.getTodayModifiedFilesE_ok cfg h faults hi hd, bind, Except.bind,
      pure, Except.pure]

/-- A failure of the index makes the loader raise, in the first run and in a normal run. -/
theorem HeatmapRadar.loadHashBasedModeDataE_error (cfg : Config) (h : Host) (faults : Faults)
    (file1 file2 : DataFile) (hi : faults.indexThrows = true) :
    (HeatmapRadar.loadHashBasedModeDataE cfg h faults file1 file2).isOk = false := by
  unfold HeatmapRadar.loadHashBasedModeDataE HeatmapRadar.fullScanAllFilesE
    HeatmapRadar.getAllFilesDateMapE HeatmapRadar.getTodayModifiedFilesE
    HeatmapRadar.markdownFilesE
  cases HeatmapRadar.readDataFile file1 <;>
    simp only [hi, if_true, bind, Except.bind] <;> rfl

/-- In the modes that use the edit log, `loadHeatmapData` returns the counts of
`loadHashBasedModeData`, or raises with it. -/
theorem HeatmapRadar.loadHeatmapDataE_editLog (cfg : Config) (h : Host) (faults : Faults)
    (type : Option String) (cdayData mdayData : Except String (Obj Nat))
    (file1 file2 : DataFile) (hc : trim (type.getD "") ≠ "cday")
    (hm : trim (type.getD "") ≠ "mday") :
    HeatmapRadar.loadHeatmapDataE cfg h faults type cdayData mdayData file1 file2
      = (HeatmapRadar.loadHashBasedModeDataE cfg h faults file1 file2).map
          fun run => run.countData := by
  unfold HeatmapRadar.loadHeatmapDataE
  simp only [hc, hm, if_false]
  split <;> rfl

/-! ## Claim on exceptions of loadHeatmapData -/

/-- C17, counterexample: in the default mode, on the vault holding `Note.md` (modified
today) with a readable data file, `loadHeatmapData` raises to its caller when listing
the document index throws, and also when the digest used for hashing a path is not
available. -/
theorem loadHeatmapData_raises_counterexample :
    (HeatmapRadar.loadHeatmapDataE HeatmapRadar.CONFIG Fixture.vaultNote Fixture.indexFault
        none (Except.ok []) (Except.ok []) Fixture.fileNote Fixture.fileNote).isOk = false
      ∧ (HeatmapRadar.loadHeatmapDataE HeatmapRadar.CONFIG Fixture.vaultNote Fixture.digestFault
        (some "default") (Except.ok []) (Except.ok []) Fixture.fileNote Fixture.fileNote).isOk
          = false := by
  decide

/-- C17, amended: in the modes that use the edit log, `loadHeatmapData` does not raise
for a failure of reading, parsing or writing the data file: whatever the state of the
file and of the storage, it returns the counts map of `loadHashBasedModeData`, provided
listing the document index and hashing do not throw. A failure of the listing is not
caught on the awaited path and makes `loadHeatmapData` raise. -/
theorem loadHeatmapData_catches_storage_only (cfg : Config) (h : Host) (faults : Faults)
    (type : Option String) (cdayData mdayData : Except String (Obj Nat))
    (file1 file2 : DataFile) (hc : trim (type.getD "") ≠ "cday")
    (hm : trim (type.getD "") ≠ "mday") :
    (faults.indexThrows = false → (faults.digestThrows = false ∨ cfg.useHashMode = false) →
        HeatmapRadar.loadHeatmapDataE cfg h faults type cdayData mdayData file1 file2
          = Except.ok (HeatmapRadar.loadHashBasedModeData cfg h file1 file2).countData)
    ∧ (faults.indexThrows = true →
        (HeatmapRadar.loadHeatmapDataE cfg h faults type cdayData mdayData file1 file2).isOk
          = false) := by
  rw [HeatmapRadar.loadHeatmapDataE_editLog cfg h faults type cdayData mdayData file1 file2
    hc hm]
  constructor
  · intro hi hd
    rw [HeatmapRadar.loadHashBasedModeDataE_ok cfg h faults file1 file2 hi hd]
    rfl
  · intro hi
    have herr := HeatmapRadar.loadHashBasedModeDataE_error cfg h faults file1 file2 hi
    cases hr : HeatmapRadar.loadHashBasedModeDataE cfg h faults file1 file2 with
    | error e => rfl
    | ok run =>
      rw [hr] at herr
      exact Bool.noConfusion herr

/-- Witness of C17 (amended): the data file does not parse and the storage adapter
throws on every write; `loadHeatmapData` still returns the counts map. -/
theorem loadHeatmapData_catches_storage_only_witness :
    HeatmapRadar.loadHeatmapDataE HeatmapRadar.CONFIG Fixture.vaultNoteReadOnly Fixture.noFaults
        (some " default ") (Except.ok []) (Except.ok []) DataFile.unparsable DataFile.unparsable
      = Except.ok (HeatmapRadar.loadHashBasedModeData HeatmapRadar.CONFIG
          Fixture.vaultNoteReadOnly DataFile.unparsable DataFile.unparsable).countData :=
  (loadHeatmapData_catches_storage_only HeatmapRadar.CONFIG Fixture.vaultNoteReadOnly
    Fixture.noFaults (some " default ") (Except.ok []) (Except.ok []) DataFile.unparsable
    DataFile.unparsable (by decide) (by decide)).1 rfl (Or.inl rfl)

/-! ## Lemmas on a throwing existence check -/

theorem validLoopE_ok (valid : String → Except String Bool) (v : String → Bool)
    (items : List String) (acc : List String × Nat)
    (hv : ∀ x ∈ items, valid x = Except.ok (v x)) :
    items.foldlM
        (fun (acc : List String × Nat) item => do
          let isValid ← valid item
          pure (if isValid then (acc.1 ++ [item], acc.2) else (acc.1, acc.2 + 1)))
        acc
      = Except.ok (items.foldl
          (fun (acc : List String × Nat) item =>
            if v item then (acc.1 ++ [item], acc.2) else (acc.1, acc.2 + 1))
          acc) := by
  apply foldlM_ok_of_mem
  intro item hitem st
  rw [hv item hitem]
  cases v item <;> rfl

theorem validLoopE_error (valid : String → Except String Bool) (items : List String)
    (acc : List String × Nat) (hv : ∃ x ∈ items, (valid x).isOk = false) :
    (items.foldlM
        (fun (acc : List String × Nat) item => do
          let isValid ← valid item
          pure (if isValid then (acc.1 ++ [item], acc.2) else (acc.1, acc.2 + 1)))
        acc).isOk = false := by
  apply foldlM_error
  obtain ⟨x, hx, hbad⟩ := hv
  refine ⟨x, hx, ?_⟩
  intro st
  cases hvx : valid x with
  | error e => rfl
  | ok b =>
    rw [hvx] at hbad
    exact Bool.noConfusion hbad

theorem length_sub_length_filter (q : String → Bool) (xs : List String) :
    xs.length - (xs.filter fun p => q p).length = (xs.filter fun p => !q p).length := by
  induction xs with
  | nil => rfl
  | cons a rest ih =>
    have hle : (rest.filter fun p => q p).length ≤ rest.length := List.length_filter_le _ _
    cases hq : q a
    · simp only [List.filter_cons, hq, Bool.false_eq_true, if_false, Bool.not_false, if_true,
        List.length_cons]
      omega
    · simp only [List.filter_cons, hq, if_true, Bool.not_true, Bool.false_eq_true, if_false,
        List.length_cons]
      omega

/-- When the check throws for no identifier of the two ledgers, the merge with
exceptions returns the ledger of the merge (`HeatmapRadar.js`). -/
theorem HeatmapRadar.mergeDataSafelyE_ok (valid : String → Except String Bool)
    (v : String → Bool) (L R : Ledger)
    (hv : ∀ d x, (x ∈ L.bucket d ∨ x ∈ R.bucket d) → valid x = Except.ok (v x)) :
    HeatmapRadar.mergeDataSafelyE valid L R
      = Except.ok (HeatmapRadar.mergeDataSafely v L R) := by
  unfold HeatmapRadar.mergeDataSafelyE HeatmapRadar.mergeDataSafely
  have houter := foldlM_ok_of_mem
    (fun (st : Obj (List String) × Nat) (date : String) => do
      let inner ← (JsSet.ofList (L.bucket date ++ R.bucket date)).foldlM
        (fun (acc : List String × Nat) item => do
          let isValid ← valid item
          pure (if isValid then (acc.1 ++ [item], acc.2) else (acc.1, acc.2 + 1)))
        ([], st.2)
      pure (if inner.1.length > 0 then (Obj.set st.1 date inner.1, inner.2)
        else (st.1, inner.2)))
    (fun (st : Obj (List String) × Nat) (date : String) =>
      if ((JsSet.ofList (L.bucket date ++ R.bucket date)).foldl
          (fun (acc : List String × Nat) item =>
            if v item then (acc.1 ++ [item], acc.2) else (acc.1, acc.2 + 1))
          ([], st.2)).1.length > 0
      then (Obj.set st.1 date ((JsSet.ofList (L.bucket date ++ R.bucket date)).foldl
          (fun (acc : List String × Nat) item =>
            if v item then (acc.1 ++ [item], acc.2) else (acc.1, acc.2 + 1))
          ([], st.2)).1,
        ((JsSet.ofList (L.bucket date ++ R.bucket date)).foldl
          (fun (acc : List String × Nat) item =>
            if v item then (acc.1 ++ [item], acc.2) else (acc.1, acc.2 + 1))
          ([], st.2)).2)
      else (st.1, ((JsSet.ofList (L.bucket date ++ R.bucket date)).foldl
          (fun (acc : List String × Nat) item =>
            if v item then (acc.1 ++ [item], acc.2) else (acc.1, acc.2 + 1))
          ([], st.2)).2))
    (JsSet.ofList (L.days ++ R.days)) ([], 0)
    (by
      intro date _ st
      beta_reduce
      rw [validLoopE_ok valid v _ _ fun x hx =>
        hv date x (List.mem_append.mp ((JsSet.mem_ofList _ x).mp hx))]
      rfl)
  simp only [] at houter ⊢
  rw [houter]
  rfl

/-- When the check throws for an identifier recorded on either side, the merge raises
(`HeatmapRadar.js`). -/
theorem HeatmapRadar.mergeDataSafelyE_error (valid : String → Except String Bool)
    (L R : Ledger)
    (hv : ∃ d x, (x ∈ L.bucket d ∨ x ∈ R.bucket d) ∧ (valid x).isOk = false) :
    (HeatmapRadar.mergeDataSafelyE valid L R).isOk = false := by
  obtain ⟨d, x, hx, hbad⟩ := hv
  have hd : d ∈ JsSet.ofList (L.days ++ R.days) := by
    rw [JsSet.mem_ofList, List.mem_append]
    rcases hx with hx | hx
    · exact Or.inl (Ledger.mem_days_of_mem_bucket L d x hx)
    · exact Or.inr (Ledger.mem_days_of_mem_bucket R d x hx)
  have houter := foldlM_error
    (fun (st : Obj (List String) × Nat) (date : String) => do
      let inner ← (JsSet.ofList (L.bucket date ++ R.bucket date)).foldlM
        (fun (acc : List String × Nat) item => do
          let isValid ← valid item
          pure (if isValid then (acc.1 ++ [item], acc.2) else (acc.1, acc.2 + 1)))
        ([], st.2)
      pure (if inner.1.length > 0 then (Obj.set st.1 date inner.1, inner.2)
        else (st.1, inner.2)))
    (JsSet.ofList (L.days ++ R.days)) ([], 0)
    ⟨d, hd, by
      intro st
      beta_reduce
      have hinner := validLoopE_error valid (JsSet.ofList (L.bucket d ++ R.bucket d))
        ([], st.2) ⟨x, (JsSet.mem_ofList _ x).mpr (List.mem_append.mpr hx), hbad⟩
      cases hr : (JsSet.ofList (L.bucket d ++ R.bucket d)).foldlM
          (fun (acc : List String × Nat) item => do
            let isValid ← valid item
            pure (if isValid then (acc.1 ++ [item], acc.2) else (acc.1, acc.2 + 1)))
          ([], st.2) with
      | error e => rfl
      | ok r =>
        rw [hr] at hinner
        exact Bool.noConfusion hinner⟩
  unfold HeatmapRadar.mergeDataSafelyE
  simp only [] at houter ⊢
  cases hr : (JsSet.ofList (L.days ++ R.days)).foldlM
      (fun (st : Obj (List String) × Nat) (date : String) => do
        let inner ← (JsSet.ofList (L.bucket date ++ R.bucket date)).foldlM
          (fun (acc : List String × Nat) item => do
            let isValid ← valid item
            pure (if isValid then (acc.1 ++ [item], acc.2) else (acc.1, acc.2 + 1)))
          ([], st.2)
        pure (if inner.1.length > 0 then (Obj.set st.1 date inner.1, inner.2)
          else (st.1, inner.2)))
      ([], 0) with
  | error e => rfl
  | ok r =>
    rw [hr] at houter
    exact Bool.noConfusion houter

/-- When the check throws for no identifier of the two ledgers, the merge with
exceptions returns the ledger of the merge (path-recording script). -/
theorem PathRecord.pathMergeE_ok (valid : String → Except String Bool)
    (v : String → Bool) (L R : Ledger)
    (hv : ∀ d x, (x ∈ L.bucket d ∨ x ∈ R.bucket d) → valid x = Except.ok (v x)) :
    PathRecord.mergeDataSafelyE valid L R
      = Except.ok (PathRecord.mergeDataSafely v L R) := by
  unfold PathRecord.mergeDataSafelyE PathRecord.mergeDataSafely
  have houter := foldlM_ok_of_mem
    (fun (st : Obj (List String) × Nat) (date : String) => do
      let validPaths ← filterE valid (JsSet.ofList (L.bucket date ++ R.bucket date))
      pure (if validPaths.length > 0
        then (Obj.set st.1 date validPaths,
          st.2 + ((JsSet.ofList (L.bucket date ++ R.bucket date)).length - validPaths.length))
        else (st.1,
          st.2 + ((JsSet.ofList (L.bucket date ++ R.bucket date)).length - validPaths.length))))
    (fun (st : Obj (List String) × Nat) (date : String) =>
      if ((JsSet.ofList (L.bucket date ++ R.bucket date)).filter fun path => v path).length > 0
      then (Obj.set st.1 date
          ((JsSet.ofList (L.bucket date ++ R.bucket date)).filter fun path => v path),
        st.2 + ((JsSet.ofList (L.bucket date ++ R.bucket date)).filter
          fun path => !v path).length)
      else (st.1, st.2 + ((JsSet.ofList (L.bucket date ++ R.bucket date)).filter
          fun path => !v path).length))
    (JsSet.ofList (L.days ++ R.days)) ([], 0)
    (by
      intro date _ st
      beta_reduce
      rw [filterE_ok_of_mem valid (fun path => v path) _ fun x hx =>
        hv date x (List.mem_append.mp ((JsSet.mem_ofList _ x).mp hx))]
      simp only [bind, Except.bind, pure, Except.pure, length_sub_length_filter])
  simp only [] at houter ⊢
  rw [houter]
  rfl

/-- When the check throws for an identifier recorded on either side, the merge raises
(path-recording script). -/
theorem PathRecord.pathMergeE_error (valid : String → Except String Bool) (L R : Ledger)
    (hv : ∃ d x, (x ∈ L.bucket d ∨ x ∈ R.bucket d) ∧ (valid x).isOk = false) :
    (PathRecord.mergeDataSafelyE valid L R).isOk = false := by
  obtain ⟨d, x, hx, hbad⟩ := hv
  have hd : d ∈ JsSet.ofList (L.days ++ R.days) := by
    rw [JsSet.mem_ofList, List.mem_append]
    rcases hx with hx | hx
    · exact Or.inl (Ledger.mem_days_of_mem_bucket L d x hx)
    · exact Or.inr (Ledger.mem_days_of_mem_bucket R d x hx)
  have houter := foldlM_error
    (fun (st : Obj (List String) × Nat) (date : String) => do
      let validPaths ← filterE valid (JsSet.ofList (L.bucket date ++ R.bucket date))
      pure (if validPaths.length > 0
        then (Obj.set st.1 date validPaths,
          st.2 + ((JsSet.ofList (L.bucket date ++ R.bucket date)).length - validPaths.length))
        else (st.1,
          st.2 + ((JsSet.ofList (L.bucket date ++ R.bucket date)).length - validPaths.length))))
    (JsSet.ofList (L.days ++ R.days)) ([], 0)
    ⟨d, hd, by
      intro st
      beta_reduce
      have hinner := filterE_error valid (JsSet.ofList (L.bucket d ++ R.bucket d))
        ⟨x, (JsSet.mem_ofList _ x).mpr (List.mem_append.mpr hx), hbad⟩
      cases hr : filterE valid (JsSet.ofList (L.bucket d ++ R.bucket d)) with
      | error e => rfl
      | ok r =>
        rw [hr] at hinner
        exact Bool.noConfusion hinner⟩
  unfold PathRecord.mergeDataSafelyE
  simp only [] at houter ⊢
  cases hr : (JsSet.ofList (L.days ++ R.days)).foldlM
      (fun (st : Obj (List String) × Nat) (date : String) => do
        let validPaths ← filterE valid (JsSet.ofList (L.bucket date ++ R.bucket date))
        pure (if validPaths.length > 0
          then (Obj.set st.1 date validPaths,
            st.2 + ((JsSet.ofList (L.bucket date ++ R.bucket date)).length - validPaths.length))
          else (st.1,
            st.2 + ((JsSet.ofList (L.bucket date ++ R.bucket date)).length
              - validPaths.length))))
      ([], 0) with
  | error e => rfl
  | ok r =>
    rw [hr] at houter
    exact Bool.noConfusion houter

/-! ## Claim on a throwing existence check -/

/-- C18, counterexample: the lookup of `Note.md` throws while a local view and a remote
ledger that both record it are merged. Neither script's `mergeDataSafely` completes: the
exception propagates and no merged ledger, hence no bucket keeping `Note.md`, exists. -/
theorem mergeDataSafely_lookup_counterexample :
    (PathRecord.mergeDataSafelyE (validatePathE Fixture.vaultNote Fixture.lookupFault)
        Fixture.localNote Fixture.remoteNote).isOk = false
      ∧ (HeatmapRadar.mergeDataSafelyE (validatePathE Fixture.vaultNote Fixture.lookupFault)
        Fixture.localNote Fixture.remoteNote).isOk = false
      ∧ (PathRecord.mergeDataSafelyE (validatePathE Fixture.vaultNote Fixture.lookupFault)
        Fixture.localNote Fixture.remoteNote).toOption = none := by
  decide

/-- C18, amended: `mergeDataSafely` has no handler around the existence check, in either
script. When the check throws for an identifier recorded for some day on either side,
the merge raises and returns no ledger; when it throws for none of them, the merge
returns the ledger computed from the answers of the check. -/
theorem mergeDataSafely_check_throws (valid : String → Except String Bool) (L R : Ledger) :
    (∀ v : String → Bool,
        (∀ d x, (x ∈ L.bucket d ∨ x ∈ R.bucket d) → valid x = Except.ok (v x)) →
        HeatmapRadar.mergeDataSafelyE valid L R = Except.ok (HeatmapRadar.mergeDataSafely v L R)
          ∧ PathRecord.mergeDataSafelyE valid L R
            = Except.ok (PathRecord.mergeDataSafely v L R))
    ∧ ((∃ d x, (x ∈ L.bucket d ∨ x ∈ R.bucket d) ∧ (valid x).isOk = false) →
        (HeatmapRadar.mergeDataSafelyE valid L R).isOk = false
          ∧ (PathRecord.mergeDataSafelyE valid L R).isOk = false) := by
  constructor
  · intro v hv
    exact ⟨HeatmapRadar.mergeDataSafelyE_ok valid v L R hv,
      PathRecord.pathMergeE_ok valid v L R hv⟩
  · intro hv
    exact ⟨HeatmapRadar.mergeDataSafelyE_error valid L R hv,
      PathRecord.pathMergeE_error valid L R hv⟩

/-- Witness of C18 (amended): with no failing lookup the merge of the local view and the
remote ledger returns the merged ledger; with the lookup of `Note.md` failing it raises. -/
theorem mergeDataSafely_check_throws_witness :
    PathRecord.mergeDataSafelyE (validatePathE Fixture.vaultNote Fixture.noFaults)
        Fixture.localNote Fixture.remoteNote
      = Except.ok (PathRecord.mergeDataSafely (validatePath Fixture.vaultNote)
          Fixture.localNote Fixture.remoteNote)
    ∧ (PathRecord.mergeDataSafelyE (validatePathE Fixture.vaultNote Fixture.lookupFault)
        Fixture.localNote Fixture.remoteNote).isOk = false :=
  ⟨((mergeDataSafely_check_throws (validatePathE Fixture.vaultNote Fixture.noFaults)
      Fixture.localNote Fixture.remoteNote).1 (validatePath Fixture.vaultNote)
      (fun _ _ _ => rfl)).2,
    ((mergeDataSafely_check_throws (validatePathE Fixture.vaultNote Fixture.lookupFault)
      Fixture.localNote Fixture.remoteNote).2
      ⟨"2025-10-19", "Note.md", Or.inl (by decide), by decide⟩).2⟩

/-! ## Claim on associativity of the merge -/

/-- C21: for a fixed existence check and all ledgers A, B, C, merging (A with B) with C
and merging A with (B with C) give the same set of day keys and, for every day, the
same set of identifiers; in both scripts. -/
theorem mergeDataSafely_assoc (valid : String → Bool) (A B C : Ledger) :
    ((∀ d, d ∈ (HeatmapRadar.mergeDataSafely valid (HeatmapRadar.mergeDataSafely valid A B) C).days
          ↔ d ∈ (HeatmapRadar.mergeDataSafely valid A (HeatmapRadar.mergeDataSafely valid B C)).days)
      ∧ (∀ d x,
          x ∈ (HeatmapRadar.mergeDataSafely valid (HeatmapRadar.mergeDataSafely valid A B) C).bucket d
          ↔ x ∈ (HeatmapRadar.mergeDataSafely valid A
              (HeatmapRadar.mergeDataSafely valid B C)).bucket d))
    ∧ ((∀ d, d ∈ (PathRecord.mergeDataSafely valid (PathRecord.mergeDataSafely valid A B) C).days
          ↔ d ∈ (PathRecord.mergeDataSafely valid A (PathRecord.mergeDataSafely valid B C)).days)
      ∧ (∀ d x,
          x ∈ (PathRecord.mergeDataSafely valid (PathRecord.mergeDataSafely valid A B) C).bucket d
          ↔ x ∈ (PathRecord.mergeDataSafely valid A
              (PathRecord.mergeDataSafely valid B C)).bucket d)) := by
  have hfun : HeatmapRadar.mergeDataSafely = PathRecord.mergeDataSafely := by
    funext valid0 L R
    exact mergeDataSafely_eq valid0 L R
  rw [hfun]
  have hb : ∀ d x,
      x ∈ (PathRecord.mergeDataSafely valid (PathRecord.mergeDataSafely valid A B) C).bucket d
        ↔ x ∈ (PathRecord.mergeDataSafely valid A (PathRecord.mergeDataSafely valid B C)).bucket d := by
    intro d x
    rw [PathRecord.mem_bucket_mergeDataSafely, PathRecord.mem_bucket_mergeDataSafely,
      PathRecord.mem_bucket_mergeDataSafely, PathRecord.mem_bucket_mergeDataSafely]
    tauto
  have hd : ∀ d,
      d ∈ (PathRecord.mergeDataSafely valid (PathRecord.mergeDataSafely valid A B) C).days
        ↔ d ∈ (PathRecord.mergeDataSafely valid A (PathRecord.mergeDataSafely valid B C)).days := by
    intro d
    rw [PathRecord.mem_days_mergeDataSafely, PathRecord.mem_days_mergeDataSafely]
    constructor
    · rintro ⟨x, hx, hv⟩
      rw [PathRecord.mem_bucket_mergeDataSafely] at hx
      refine ⟨x, ?_, hv⟩
      rw [PathRecord.mem_bucket_mergeDataSafely]
      tauto
    · rintro ⟨x, hx, hv⟩
      rw [PathRecord.mem_bucket_mergeDataSafely] at hx
      refine ⟨x, ?_, hv⟩
      rw [PathRecord.mem_bucket_mergeDataSafely]
      tauto
  exact ⟨⟨hd, hb⟩, ⟨hd, hb⟩⟩

/-! ## Claim on the hashAlgorithm field -/

/-- C22, at a failing input. `ledgerNote` is what `readDataFile` returns for a file
written under `useHashMode: true`. With `useHashMode: false`, `writeDataFile` writes it
with mode `path-based` and still with `hashAlgorithm: "SHA-256-64bit"`, and so does a
whole run on that file; `fullScanAllFiles` under the same setting leaves
`hashAlgorithm` undefined. -/
theorem writeDataFile_stale_hashAlgorithm :
    HeatmapRadar.readDataFile Fixture.fileNote = some Fixture.ledgerNote
      ∧ (HeatmapRadar.writeDataFile Fixture.pathConfig Fixture.vaultNote Fixture.ledgerNote).map
          (fun W => (W.mode, W.hashAlgorithm))
        = some (some "path-based", some "SHA-256-64bit")
      ∧ (HeatmapRadar.readDataFile
            (HeatmapRadar.recordToday Fixture.pathConfig Fixture.vaultNote Fixture.fileNote)).map
          (fun W => (W.mode, W.hashAlgorithm))
        = some (some "path-based", some "SHA-256-64bit")
      ∧ (HeatmapRadar.fullScanAllFiles Fixture.pathConfig Fixture.vaultNote).mode
        = some "path-based"
      ∧ (HeatmapRadar.fullScanAllFiles Fixture.pathConfig Fixture.vaultNote).hashAlgorithm
        = none := by
  decide

/-! ## Claim on the metadata of the path-recording ledger -/

/-- C23, at a failing input. The file left by a full reconcile holds
`lastFullScan: "2025-10-19"` and `mode: "path-based"`; the file left by the next run of
`loadPathBasedModeData` on it holds neither field, only `version: 6`. The same two
runs of `HeatmapRadar.js` keep both fields. -/
theorem loadPathBasedModeData_drops_metadata :
    (PathRecord.readDataFile Fixture.fileAfterFullScan).map
        (fun W => (W.lastFullScan, W.mode, W.version))
      = some (some "2025-10-19", some "path-based", some 6)
    ∧ (PathRecord.readDataFile
          (PathRecord.loadPathBasedModeData PathRecord.CONFIG Fixture.vaultNote
            Fixture.fileAfterFullScan Fixture.fileAfterFullScan).file).map
        (fun W => (W.lastFullScan, W.mode, W.version, W.days))
      = some (none, none, some 6, ["2025-10-19"])
    ∧ (HeatmapRadar.readDataFile
          (HeatmapRadar.recordToday HeatmapRadar.CONFIG Fixture.vaultNote
            (HeatmapRadar.recordToday HeatmapRadar.CONFIG Fixture.vaultNote
              DataFile.absent))).map
        (fun W => (W.lastFullScan, W.mode, W.version))
      = some (some "2025-10-19", some "hash-based", some 7) := by
  decide

/-! ## Lemmas on updateTodayData -/

theorem length_ofList_toFinset {α : Type} [DecidableEq α] (xs : List α) :
    (JsSet.ofList xs).length = xs.toFinset.card := by
  rw [← List.toFinset_card_of_nodup (JsSet.nodup_ofList xs)]
  congr 1
  ext x
  simp [JsSet.mem_ofList]

theorem CountRecord.todayFiles_eq (cfg : Config) (h : Host) :
    CountRecord.todayFiles cfg h
      = JsSet.ofList ((h.markdownFiles.filter fun f =>
          !shouldIgnore cfg f.path && decide (formatDate h f.mtime = getTodayString h)).map
          TFile.path) := by
  unfold CountRecord.todayFiles JsSet.ofList
  simp only
  generalize ([] : List String) = acc
  induction h.markdownFiles generalizing acc with
  | nil => rfl
  | cons f rest ih =>
    rw [List.foldl_cons, ih]
    by_cases hig : shouldIgnore cfg f.path = true
    · simp [hig]
    · by_cases hd : formatDate h f.mtime = getTodayString h
      · simp [hig, hd]
      · simp [hig, hd]

theorem CountRecord.get?_sortedCounts (h : Host) (o : Obj Nat) (d : String) :
    ((sortBy (fun a b => h.localeCompare b a) (Obj.keys o)).foldl
        (fun (acc : Obj Nat) key => Obj.set acc key ((o.get? key).getD 0)) []).get? d
      = o.get? d := by
  rw [Obj.get?_foldl_set_keys (fun key => (o.get? key).getD 0)]
  by_cases hk : d ∈ Obj.keys o
  · rw [if_pos ((mem_sortBy _ _ d).mpr hk)]
    cases hg : o.get? d with
    | none => exact absurd hk ((Obj.get?_eq_none_iff o d).mp hg)
    | some b => simp
  · rw [if_neg (fun hmem => hk ((mem_sortBy _ _ d).mp hmem))]
    have hg := (Obj.get?_eq_none_iff o d).mpr hk
    simp [hg, Obj.get?]

theorem CountRecord.countWrite_spec (h : Host) (data : CountLedger)
    (hs : h.storageFails = false) :
    ∃ W, CountRecord.writeDataFile h data = some W
      ∧ (∀ d, W.dailyEdits.get? d = data.dailyEdits.get? d)
      ∧ W.version = data.version ∧ W.lastFullScan = data.lastFullScan := by
  unfold CountRecord.writeDataFile
  simp only [hs, Bool.false_eq_true, if_false]
  exact ⟨_, rfl, fun d => CountRecord.get?_sortedCounts h data.dailyEdits d, rfl, rfl⟩

/-! ## Claim on updateTodayData -/

/-- C24: `updateTodayData` of the count-recording scripts. With N the number of
distinct paths of non-ignored markdown files whose Asia/Shanghai modification day is
today and `old` the previous count of today (0 when absent): afterwards `dailyEdits`
maps today to N and every other day to its previous count; the returned flag is true
exactly when N differs from `old`; when they are equal the persisted file is not
touched; when they differ `writeDataFile` is called with the updated ledger, and, the
storage working, the persisted file then holds the same counts. The other metadata
are left as they were. -/
theorem updateTodayData_spec (cfg : Config) (h : Host) (data : CountRecord.CountLedger)
    (file : Option CountRecord.CountLedger) (N old : Nat)
    (hN : N = ((h.markdownFiles.filter fun f =>
        !shouldIgnore cfg f.path && decide (formatDate h f.mtime = getTodayString h)).map
        TFile.path).toFinset.card)
    (hold : old = (data.dailyEdits.get? (getTodayString h)).getD 0) :
    (∀ d, (CountRecord.updateTodayData cfg h data file).data.dailyEdits.get? d
        = if d = getTodayString h then some N else data.dailyEdits.get? d)
      ∧ (CountRecord.updateTodayData cfg h data file).returned = decide (N ≠ old)
      ∧ (N = old → (CountRecord.updateTodayData cfg h data file).file = file)
      ∧ (N ≠ old → (CountRecord.updateTodayData cfg h data file).file
          = match CountRecord.writeDataFile h
              { data with dailyEdits := Obj.set data.dailyEdits (getTodayString h) N } with
            | some written => some written
            | none => file)
      ∧ (N ≠ old → h.storageFails = false →
          ∃ W, (CountRecord.updateTodayData cfg h data file).file = some W
            ∧ ∀ d, W.dailyEdits.get? d
              = if d = getTodayString h then some N else data.dailyEdits.get? d)
      ∧ (CountRecord.updateTodayData cfg h data file).data.version = data.version
      ∧ (CountRecord.updateTodayData cfg h data file).data.lastFullScan = data.lastFullScan := by
  have hlen : (CountRecord.todayFiles cfg h).length = N := by
    rw [CountRecord.todayFiles_eq, length_ofList_toFinset, hN]
  have hset : ∀ d, (Obj.set data.dailyEdits (getTodayString h) N).get? d
      = if d = getTodayString h then some N else data.dailyEdits.get? d := by
    intro d
    rw [Obj.get?_set]
    by_cases hd : d = getTodayString h
    · subst hd
      simp
    · have hd2 : ¬ getTodayString h = d := fun e => hd e.symm
      simp [hd, hd2]
  unfold CountRecord.updateTodayData
  simp only [hlen, ← hold]
  by_cases hne : old = N
  · rw [if_neg (fun hc : old ≠ N => hc hne)]
    refine ⟨hset, by simp [hne], fun _ => rfl, fun hc => absurd hne.symm hc,
      fun hc => absurd hne.symm hc, rfl, rfl⟩
  · have hne2 : ¬ N = old := fun e => hne e.symm
    rw [if_pos hne]
    cases hw : CountRecord.writeDataFile h
        { data with dailyEdits := Obj.set data.dailyEdits (getTodayString h) N } with
    | none =>
      refine ⟨hset, by simp [hne2], fun hc => absurd hc hne2, fun _ => rfl, ?_, rfl, rfl⟩
      intro _ hs
      obtain ⟨W, hW, _⟩ := CountRecord.countWrite_spec h
        { data with dailyEdits := Obj.set data.dailyEdits (getTodayString h) N } hs
      rw [hw] at hW
      exact Option.noConfusion hW
    | some written =>
      have hs : h.storageFails = false := by
        unfold CountRecord.writeDataFile at hw
        by_cases hf : h.storageFails = true
        · rw [if_pos hf] at hw
          exact Option.noConfusion hw
        · simpa using hf
      obtain ⟨W, hW, hget, hv, hl⟩ := CountRecord.countWrite_spec h
        { data with dailyEdits := Obj.set data.dailyEdits (getTodayString h) N } hs
      rw [hw] at hW
      cases hW
      refine ⟨?_, by simp [hne2], fun hc => absurd hc hne2, fun _ => rfl, ?_, hv, hl⟩
      · intro d
        rw [hget d]
        exact hset d
      · intro _ _
        refine ⟨written, rfl, ?_⟩
        intro d
        rw [hget d]
        exact hset d

/-- Witness of C24: two non-ignored files were modified today and the ledger holds 1
for today; the call sets today to 2, leaves 2025-10-17 at 3, returns true and persists. -/
theorem updateTodayData_spec_witness :
    ((CountRecord.updateTodayData CountRecord.CONFIG Fixture.vaultCount Fixture.countLedger
        none).data.dailyEdits.get? "2025-10-17" = some 3
      ∧ (CountRecord.updateTodayData CountRecord.CONFIG Fixture.vaultCount Fixture.countLedger
        none).data.dailyEdits.get? "2025-10-19" = some 2)
    ∧ (CountRecord.updateTodayData CountRecord.CONFIG Fixture.vaultCount Fixture.countLedger
        none).returned = true := by
  have key := updateTodayData_spec CountRecord.CONFIG Fixture.vaultCount Fixture.countLedger none
    2 1 (by decide) (by decide)
  refine ⟨⟨?_, ?_⟩, ?_⟩
  · rw [key.1 "2025-10-17"]
    decide
  · rw [key.1 "2025-10-19"]
    decide
  · rw [key.2.1]
    decide

/-! ## Claim on folder attribution -/

/-- C25, at a failing input. Category `Parent` is given folder `A` and category `Child`
its sub-folder written `A\B`. The sub-folder is normalized to `A/B` but its depth is
counted on the text as written, which has no `/`: both folders get depth 1, `A` stays
first, and the note `A/B/x.md` is attributed to `Parent`. With the sub-folder written
`A/B` the same note is attributed to `Child`. -/
theorem fileOwnership_backslash_subfolder :
    sortedFolders Fixture.categoriesBackslash
        = [{ folder := "A", category := "Parent", depth := 1 },
            { folder := "A/B", category := "Child", depth := 1 }]
      ∧ fileOwnership Fixture.dataviewNested Fixture.categoriesBackslash
        = [("A/B/x.md", "Parent"), ("A/y.md", "Parent")]
      ∧ sortedFolders Fixture.categoriesSlash
        = [{ folder := "A/B", category := "Child", depth := 2 },
            { folder := "A", category := "Parent", depth := 1 }]
      ∧ fileOwnership Fixture.dataviewNested Fixture.categoriesSlash
        = [("A/B/x.md", "Child"), ("A/y.md", "Parent")] := by
  decide

/-! ## Lemmas on the radar statistics -/

/-- Paths owned by the category through folders, in the order of `fileOwnership`. -/
theorem radarSets_folders (own : Obj String) (name : String)
    (st : List String × List String × List String) :
    own.foldl
        (fun (st : List String × List String × List String) (entry : String × String) =>
          if entry.2 = name then (JsSet.add st.1 entry.1, JsSet.add st.2.1 entry.1, st.2.2)
          else st)
        st
      = (((own.filter fun e => e.2 = name).map Prod.fst).foldl JsSet.add st.1,
          ((own.filter fun e => e.2 = name).map Prod.fst).foldl JsSet.add st.2.1, st.2.2) := by
  induction own generalizing st with
  | nil => rfl
  | cons e rest ih =>
    rw [List.foldl_cons, ih]
    by_cases he : e.2 = name
    · simp [he]
    · simp [he]

theorem radarSets_pages (pages : List Page) (st : List String × List String × List String) :
    pages.foldl
        (fun (st : List String × List String × List String) page =>
          (JsSet.add st.1 (normalizePath page.path), st.2.1,
            JsSet.add st.2.2 (normalizePath page.path)))
        st
      = ((pages.map fun p => normalizePath p.path).foldl JsSet.add st.1, st.2.1,
          (pages.map fun p => normalizePath p.path).foldl JsSet.add st.2.2) := by
  induction pages generalizing st with
  | nil => rfl
  | cons p rest ih =>
    rw [List.foldl_cons, ih]
    simp

theorem radarSets_tags (dv : Dataview) (tags : List String)
    (st : List String × List String × List String) :
    tags.foldl
        (fun (st : List String × List String × List String) tag =>
          (dv.pagesWithTag tag).foldl
            (fun (st : List String × List String × List String) page =>
              (JsSet.add st.1 (normalizePath page.path), st.2.1,
                JsSet.add st.2.2 (normalizePath page.path)))
            st)
        st
      = ((tags.flatMap fun tag =>
            (dv.pagesWithTag tag).map fun p => normalizePath p.path).foldl JsSet.add st.1,
          st.2.1,
          (tags.flatMap fun tag =>
            (dv.pagesWithTag tag).map fun p => normalizePath p.path).foldl JsSet.add st.2.2) := by
  induction tags generalizing st with
  | nil => rfl
  | cons t rest ih =>
    rw [List.foldl_cons, radarSets_pages, ih]
    simp [List.flatMap_cons, List.foldl_append]

/-- The three sets of `radarSets` as sets of the folder-owned and the tagged paths. -/
theorem radarSets_eq (dv : Dataview) (own : Obj String) (cat : Category) :
    radarSets dv own cat
      = (JsSet.ofList (((own.filter fun e => e.2 = cat.name).map Prod.fst)
            ++ ((cat.tags.getD []).flatMap fun tag =>
              (dv.pagesWithTag tag).map fun p => normalizePath p.path)),
          JsSet.ofList ((own.filter fun e => e.2 = cat.name).map Prod.fst),
          JsSet.ofList ((cat.tags.getD []).flatMap fun tag =>
              (dv.pagesWithTag tag).map fun p => normalizePath p.path)) := by
  unfold radarSets
  simp only
  rw [radarSets_folders]
  cases htags : cat.tags with
  | none => simp [JsSet.ofList]
  | some tags =>
    simp only [Option.getD_some]
    rw [radarSets_tags]
    simp [JsSet.ofList, List.foldl_append]

theorem overlapCount_eq (folderFiles tagFiles : List String) :
    overlapCount folderFiles tagFiles = (tagFiles.filter fun p => p ∈ folderFiles).length := by
  unfold overlapCount
  have key : ∀ n, tagFiles.foldl
      (fun (n : Nat) filePath => if filePath ∈ folderFiles then n + 1 else n) n
      = n + (tagFiles.filter fun p => p ∈ folderFiles).length := by
    induction tagFiles with
    | nil => intro n; rfl
    | cons p rest ih =>
      intro n
      rw [List.foldl_cons, ih]
      by_cases hp : p ∈ folderFiles
      · simp [hp]
        omega
      · simp [hp]
  simpa using key 0

/-- Sizes of two sets without repetition and of their union. -/
theorem length_union_nodup (C F T : List String) (hC : C.Nodup) (hF : F.Nodup) (hT : T.Nodup)
    (hmem : ∀ p, p ∈ C ↔ p ∈ F ∨ p ∈ T) :
    C.length + (T.filter fun p => p ∈ F).length = F.length + T.length
      ∧ (F.filter fun p => p ∉ T).length + (T.filter fun p => p ∈ F).length = F.length := by
  have hCc : C.length = (F.toFinset ∪ T.toFinset).card := by
    rw [← List.toFinset_card_of_nodup hC]
    congr 1
    ext p
    simp [hmem p]
  have hOc : (T.filter fun p => p ∈ F).length = (F.toFinset ∩ T.toFinset).card := by
    rw [← List.toFinset_card_of_nodup (hT.filter _)]
    congr 1
    ext p
    simp [and_comm]
  have hDc : (F.filter fun p => p ∉ T).length = (F.toFinset \ T.toFinset).card := by
    rw [← List.toFinset_card_of_nodup (hF.filter _)]
    congr 1
    ext p
    simp
  have hFc : F.length = F.toFinset.card := (List.toFinset_card_of_nodup hF).symm
  have hTc : T.length = T.toFinset.card := (List.toFinset_card_of_nodup hT).symm
  rw [hCc, hOc, hDc, hFc, hTc]
  exact ⟨Finset.card_union_add_card_inter _ _, Finset.card_sdiff_add_card_inter _ _⟩

/-! ## Claim on the radar statistics -/

/-- C26: for every ownership map, every tag source and every category, with F the set
of paths the category owns through folders and T the set of paths carrying one of its
tags: countedPages is the union of F and T, the test
`folderCount + tagCount - overlapCount === totalCount` holds (so the `Math.round`
branch is never taken), fromFolders is the number of paths of F outside T, fromTags is
the size of T, both are non-negative and their sum is the total. -/
theorem radarData_display_counts (dv : Dataview) (own : Obj String) (cat : Category) :
    (∀ p, p ∈ (radarSets dv own cat).2.1 ↔ ∃ e ∈ own, e.1 = p ∧ e.2 = cat.name)
    ∧ (∀ p, p ∈ (radarSets dv own cat).2.2
        ↔ ∃ tag ∈ cat.tags.getD [], ∃ page ∈ dv.pagesWithTag tag, normalizePath page.path = p)
    ∧ (∀ p, p ∈ (radarSets dv own cat).1
        ↔ p ∈ (radarSets dv own cat).2.1 ∨ p ∈ (radarSets dv own cat).2.2)
    ∧ ((radarSets dv own cat).1.Nodup ∧ (radarSets dv own cat).2.1.Nodup
        ∧ (radarSets dv own cat).2.2.Nodup)
    ∧ (((radarSets dv own cat).2.1.length : Int) + ((radarSets dv own cat).2.2.length : Int)
          - (overlapCount (radarSets dv own cat).2.1 (radarSets dv own cat).2.2 : Int)
        = ((radarSets dv own cat).1.length : Int))
    ∧ (radarData dv own cat).fromFolders
        = ((((radarSets dv own cat).2.1.filter fun p => p ∉ (radarSets dv own cat).2.2).length
            : Nat) : Int)
    ∧ (radarData dv own cat).fromTags = ((radarSets dv own cat).2.2.length : Int)
    ∧ 0 ≤ (radarData dv own cat).fromFolders
    ∧ 0 ≤ (radarData dv own cat).fromTags
    ∧ (radarData dv own cat).fromFolders + (radarData dv own cat).fromTags
        = ((radarData dv own cat).total : Int)
    ∧ (radarData dv own cat).total = (radarSets dv own cat).1.length := by
  have hF : ∀ p, p ∈ (radarSets dv own cat).2.1 ↔ ∃ e ∈ own, e.1 = p ∧ e.2 = cat.name := by
    intro p
    rw [radarSets_eq]
    simp only [JsSet.mem_ofList, List.mem_map, List.mem_filter, decide_eq_true_eq]
    constructor
    · rintro ⟨e, ⟨he, hn⟩, hp⟩
      exact ⟨e, he, hp, hn⟩
    · rintro ⟨e, he, hp, hn⟩
      exact ⟨e, ⟨he, hn⟩, hp⟩
  have hT : ∀ p, p ∈ (radarSets dv own cat).2.2
      ↔ ∃ tag ∈ cat.tags.getD [], ∃ page ∈ dv.pagesWithTag tag, normalizePath page.path = p := by
    intro p
    rw [radarSets_eq]
    simp only [JsSet.mem_ofList, List.mem_flatMap, List.mem_map]
  have hC : ∀ p, p ∈ (radarSets dv own cat).1
      ↔ p ∈ (radarSets dv own cat).2.1 ∨ p ∈ (radarSets dv own cat).2.2 := by
    intro p
    rw [radarSets_eq]
    simp only [JsSet.mem_ofList, List.mem_append]
  have hnd : (radarSets dv own cat).1.Nodup ∧ (radarSets dv own cat).2.1.Nodup
      ∧ (radarSets dv own cat).2.2.Nodup := by
    rw [radarSets_eq]
    exact ⟨JsSet.nodup_ofList _, JsSet.nodup_ofList _, JsSet.nodup_ofList _⟩
  obtain ⟨h1, h2⟩ := length_union_nodup _ _ _ hnd.1 hnd.2.1 hnd.2.2 hC
  have hov := overlapCount_eq (radarSets dv own cat).2.1 (radarSets dv own cat).2.2
  have hsum : ((radarSets dv own cat).2.1.length : Int) + ((radarSets dv own cat).2.2.length : Int)
        - (overlapCount (radarSets dv own cat).2.1 (radarSets dv own cat).2.2 : Int)
      = ((radarSets dv own cat).1.length : Int) := by
    rw [hov]
    omega
  have hT0 : (radarSets dv own cat).2.2.length = 0 →
      ((radarSets dv own cat).2.1.filter fun p => p ∉ (radarSets dv own cat).2.2).length
        = (radarSets dv own cat).2.1.length := by
    intro h0
    rw [List.length_eq_zero] at h0
    rw [h0]
    simp
  have hdisp : (radarData dv own cat).fromFolders
        = ((((radarSets dv own cat).2.1.filter fun p => p ∉ (radarSets dv own cat).2.2).length
            : Nat) : Int)
      ∧ (radarData dv own cat).fromTags = ((radarSets dv own cat).2.2.length : Int) := by
    unfold radarData displayCounts
    simp only
    by_cases hb : (radarSets dv own cat).2.1.length > 0 ∧ (radarSets dv own cat).2.2.length > 0
    · rw [if_pos hb, if_pos hsum]
      simp only
      rw [hov]
      constructor <;> omega
    · rw [if_neg hb]
      by_cases hf : (radarSets dv own cat).2.1.length > 0
      · rw [if_pos hf]
        have ht : (radarSets dv own cat).2.2.length = 0 := by omega
        have := hT0 ht
        simp only
        constructor <;> omega
      · rw [if_neg hf]
        by_cases ht : (radarSets dv own cat).2.2.length > 0
        · rw [if_pos ht]
          simp only
          constructor <;> omega
        · rw [if_neg ht]
          simp only
          have hF0 : (radarSets dv own cat).2.1.length = 0 := Nat.eq_zero_of_not_pos hf
          have hT00 : (radarSets dv own cat).2.2.length = 0 := Nat.eq_zero_of_not_pos ht
          have hD0 : ((radarSets dv own cat).2.1.filter
              fun p => p ∉ (radarSets dv own cat).2.2).length = 0 := by
            rw [hT0 hT00]
            exact hF0
          rw [hD0, hF0]
          exact ⟨rfl, trivial⟩
  refine ⟨hF, hT, hC, hnd, hsum, hdisp.1, hdisp.2, ?_, ?_, ?_, rfl⟩
  · rw [hdisp.1]
    exact Int.natCast_nonneg _
  · rw [hdisp.2]
    exact Int.natCast_nonneg _
  · rw [hdisp.1, hdisp.2]
    show _ = (((radarSets dv own cat).1.length : Nat) : Int)
    omega

/-! ## Claim on the heatmap grid -/

/-- The flag `future` in terms of the cell number and the weekday of today. -/
theorem future_iff (g : HeatmapInput) (dayCount : Nat) :
    future g dayCount = true ↔ 730 ≤ dayCount ∧ 729 + g.getDay ≤ dayCount := by
  unfold future theDay startDay daylong
  simp only [Bool.and_eq_true, decide_eq_true_eq]
  constructor
  · rintro ⟨h1, h2⟩
    constructor <;> omega
  · rintro ⟨h1, h2⟩
    constructor <;> omega

/-- The week loop renders every column it is asked for, whatever the weekday. -/
theorem length_weekLoop (g : HeatmapInput) (weeks dayCount : Nat)
    (h : dayCount + 7 * weeks ≤ 735 + g.getDay) :
    (weekLoop g weeks dayCount).length = weeks := by
  induction weeks generalizing dayCount with
  | zero => rfl
  | succ n ih =>
    unfold weekLoop
    have hle : ¬ startDay g + (dayCount : Int) * daylong > g.today := by
      unfold startDay daylong
      omega
    rw [if_neg hle, List.length_cons, ih (dayCount + 7) (by omega)]

set_option maxRecDepth 100000 in
/-- On Sunday 2025-10-19 the rendered cell number 729 is the one computed by `dayCell`. -/
theorem heatmapWeeks_sunday_cell :
    (heatmapWeeks Fixture.sunday).flatten.get? 729 = some (dayCell Fixture.sunday 729) := by
  decide

/-- C27. For every clock and weekday all 105 columns are rendered, today's cell is
cell 728 + weekday, and a cell is marked `future` exactly when its number is at least
730 and at least 729 + weekday. At a failing input, Sunday 2025-10-19: cell 729, whose
instant is exactly one day after now (Monday 2025-10-20), is not marked
`dms-heatmap-future-day` and carries a tooltip; cell 730 is marked. -/
theorem heatmap_sunday_tomorrow_not_future :
    (∀ g : HeatmapInput, (heatmapWeeks g).length = 105)
      ∧ (∀ g : HeatmapInput, theDay g (728 + g.getDay) = g.today)
      ∧ (∀ (g : HeatmapInput) (dayCount : Nat),
          future g dayCount = true ↔ 730 ≤ dayCount ∧ 729 + g.getDay ≤ dayCount)
      ∧ theDay Fixture.sunday 729 = Fixture.sunday.today + daylong
      ∧ future Fixture.sunday 729 = false
      ∧ dayCell Fixture.sunday 729
        = { className := ["dms-heatmap-day", "dms-heatmap-level-0"]
            tipLabel := "aria-label=\"2025-10-20\"" }
      ∧ (heatmapWeeks Fixture.sunday).flatten.get? 729 = some (dayCell Fixture.sunday 729)
      ∧ dayCell Fixture.sunday 730
        = { className := ["dms-heatmap-day", "dms-heatmap-level-0", "dms-heatmap-future-day"]
            tipLabel := "" } := by
  refine ⟨fun g => length_weekLoop g 105 0 (by omega), ?_, future_iff, by decide, by decide,
    by decide, heatmapWeeks_sunday_cell, by decide⟩
  intro g
  unfold theDay startDay daylong
  push_cast
  ring

/-! ## Claim on normalizePath -/

theorem dropWhile_eq_self_of_head {α : Type} (p : α → Bool) (l : List α)
    (h : ∀ x ∈ l.head?, p x = false) : l.dropWhile p = l := by
  cases l with
  | nil => rfl
  | cons a rest =>
    have ha : p a = false := h a (by simp)
    simp [List.dropWhile, ha]

/-- Trimming the run of `/` at both ends of a character list gives a list that neither
starts nor ends with `/`, and that trimming leaves as it is. -/
theorem trim_slashes_fixed (l t : List Char)
    (ht : t = ((l.dropWhile fun c => c = '/').reverse.dropWhile fun c => c = '/').reverse) :
    ((t.dropWhile fun c => c = '/').reverse.dropWhile fun c => c = '/').reverse = t
      ∧ (∀ c ∈ t.head?, c ≠ '/') ∧ (∀ c ∈ t.getLast?, c ≠ '/') := by
  have hlast : ∀ c ∈ t.getLast?, c ≠ '/' := by
    intro c hc
    have : t.reverse.head? = some c := by
      rw [List.head?_reverse]
      exact hc
    simp only [ht, List.reverse_reverse] at this
    have h2 := List.head?_dropWhile_not (fun c => decide (c = '/'))
      (List.dropWhile (fun c => decide (c = '/')) l).reverse
    rw [this] at h2
    simpa using h2
  have hhead : ∀ c ∈ t.head?, c ≠ '/' := by
    intro c hc
    have hpre : t <+: l.dropWhile fun c => c = '/' := by
      rw [ht]
      exact List.rdropWhile_prefix _ _
    obtain ⟨s, hs⟩ := hpre
    cases t with
    | nil => simp at hc
    | cons a rest =>
      simp at hc
      subst hc
      have h2 := List.head?_dropWhile_not (fun c => decide (c = '/')) l
      rw [← hs] at h2
      simpa using h2
  refine ⟨?_, hhead, hlast⟩
  have h1 : (t.dropWhile fun c => c = '/') = t := by
    apply dropWhile_eq_self_of_head
    intro x hx
    simpa using hhead x hx
  rw [h1]
  have h2 : (t.reverse.dropWhile fun c => c = '/') = t.reverse := by
    apply dropWhile_eq_self_of_head
    intro x hx
    rw [List.head?_reverse] at hx
    simpa using hlast x hx
  rw [h2, List.reverse_reverse]

/-- On a path without backslash `normalizePath` only trims: its result neither starts
nor ends with `/` and is left as it is by a second call. -/
theorem normalizePath_of_no_backslash (path : String) (h : Char.ofNat 92 ∉ path.data) :
    normalizePath (normalizePath path) = normalizePath path
      ∧ (∀ c ∈ (normalizePath path).data.head?, c ≠ '/')
      ∧ (∀ c ∈ (normalizePath path).data.getLast?, c ≠ '/') := by
  have hmap : ∀ l : List Char, Char.ofNat 92 ∉ l →
      l.map (fun c => if c = Char.ofNat 92 then '/' else c) = l := by
    intro l hl
    induction l with
    | nil => rfl
    | cons a rest ih =>
      have ha : ¬ a = Char.ofNat 92 := fun e => hl (by rw [e]; simp)
      have hr : Char.ofNat 92 ∉ rest := fun hm => hl (List.mem_cons_of_mem _ hm)
      rw [List.map_cons, if_neg ha, ih hr]
  by_cases hp : path = ""
  · subst hp
    decide
  · obtain ⟨hfix, hhead, hlast⟩ := trim_slashes_fixed path.data _ rfl
    have hsub : Char.ofNat 92 ∉
        ((path.data.dropWhile fun c => c = '/').reverse.dropWhile fun c => c = '/').reverse := by
      intro hm
      apply h
      rw [List.mem_reverse] at hm
      have h1 := (List.dropWhile_sublist _).subset hm
      rw [List.mem_reverse] at h1
      exact (List.dropWhile_sublist _).subset h1
    have hn : normalizePath path = String.mk
        ((path.data.dropWhile fun c => c = '/').reverse.dropWhile fun c => c = '/').reverse := by
      unfold normalizePath
      rw [if_neg hp]
      simp only
      rw [hmap _ hsub]
    rw [hn]
    refine ⟨?_, hhead, hlast⟩
    unfold normalizePath
    by_cases he : String.mk
        ((path.data.dropWhile fun c => c = '/').reverse.dropWhile fun c => c = '/').reverse = ""
    · rw [if_pos he, he]
    · rw [if_neg he]
      simp only
      rw [hfix, hmap _ hsub]

/-- The result of `normalizePath` holds no backslash. -/
theorem normalizePath_no_backslash (path : String) :
    Char.ofNat 92 ∉ (normalizePath path).data := by
  unfold normalizePath
  by_cases hp : path = ""
  · rw [if_pos hp]
    simp
  · rw [if_neg hp]
    simp only [List.mem_map, not_exists, not_and]
    intro c _ hc
    by_cases h92 : c = Char.ofNat 92
    · rw [if_pos h92] at hc
      exact absurd hc (by decide)
    · rw [if_neg h92] at hc
      exact h92 hc

/-- C28. No result of `normalizePath` holds a backslash. At a failing input, a path
written with a leading backslash: the slashes are trimmed before the backslashes are
replaced, so the result starts with `/`, and normalizing it once more gives another
string; in the same way a trailing backslash leaves a trailing `/`. -/
theorem normalizePath_leading_backslash :
    (∀ path : String, Char.ofNat 92 ∉ (normalizePath path).data)
      ∧ normalizePath "\\a" = "/a"
      ∧ normalizePath (normalizePath "\\a") = "a"
      ∧ normalizePath (normalizePath "\\a") ≠ normalizePath "\\a"
      ∧ normalizePath "a\\" = "a/"
      ∧ normalizePath "/a/" = "a" :=
  ⟨normalizePath_no_backslash, by decide, by decide, by decide, by decide, by decide⟩

/-! ## Lemmas on the line queue -/

namespace ObsidianTermynal

/-- Once the batch is not empty, the loop of `collectOutputBatch` appends the entries of
a run of lines that are all unprocessed and of an output type, and only the last one of
the run can have its own delay. -/
theorem collectLoop_append (processedLines : List Nat) (rest : List LineData) (i : Nat)
    (batch : List BatchEntry) (hb : batch ≠ []) :
    ∃ n, n ≤ rest.length
      ∧ collectLoop processedLines rest i batch
        = batch ++ ((rest.take n).enumFrom i).map (fun e => BatchEntry.mk e.2 e.1)
      ∧ (∀ l ∈ rest.take n, l.originalIndex ∉ processedLines ∧ l.type ∈ outputTypes)
      ∧ (∀ l ∈ (rest.take n).dropLast, l.lineDelay = none) := by
  induction rest generalizing i batch with
  | nil => exact ⟨0, le_refl _, by simp [collectLoop], by simp, by simp⟩
  | cons l rest ih =>
    unfold collectLoop
    have hlen : ¬ batch.length = 0 := fun h0 => hb (List.length_eq_zero.mp h0)
    by_cases hp : l.originalIndex ∈ processedLines
    · rw [if_pos hp, if_neg hlen]
      exact ⟨0, Nat.zero_le _, by simp, by simp, by simp⟩
    · rw [if_neg hp]
      by_cases ho : l.type ∉ outputTypes
      · rw [if_pos ho]
        exact ⟨0, Nat.zero_le _, by simp, by simp, by simp⟩
      · rw [if_neg ho]
        have ho2 : l.type ∈ outputTypes := not_not.mp ho
        simp only
        by_cases hd : l.lineDelay.isSome = true
        · rw [if_pos hd]
          refine ⟨1, by simp, by simp [List.enumFrom], ?_, by simp⟩
          intro l2 hl2
          simp at hl2
          subst hl2
          exact ⟨hp, ho2⟩
        · rw [if_neg hd]
          obtain ⟨n, hn, heq, hall, hlast⟩ := ih (i + 1)
            (batch ++ [{ lineData := l, index := i }]) (by simp)
          refine ⟨n + 1, by simpa using hn, ?_, ?_, ?_⟩
          · rw [heq]
            simp [List.enumFrom]
          · intro l2 hl2
            rw [List.take_succ_cons, List.mem_cons] at hl2
            rcases hl2 with h | h
            · subst h
              exact ⟨hp, ho2⟩
            · exact hall l2 h
          · intro l2 hl2
            rw [List.take_succ_cons] at hl2
            cases htk : rest.take n with
            | nil =>
              rw [htk] at hl2
              simp at hl2
            | cons x xs =>
              rw [htk, List.dropLast_cons₂, List.mem_cons] at hl2
              rcases hl2 with h | h
              · subst h
                cases hld : l2.lineDelay with
                | none => rfl
                | some v => rw [hld] at hd; exact absurd rfl hd
              · apply hlast
                rw [htk]
                exact h

/-- Closed form of a batch that starts at an unprocessed line of an output type. -/
theorem collectOutputBatch_run (lineQueue : List LineData) (processedLines : List Nat)
    (startIndex : Nat) (lineData : LineData) (hget : lineQueue.get? startIndex = some lineData)
    (hun : lineData.originalIndex ∉ processedLines) (hout : lineData.type ∈ outputTypes) :
    ∃ n, 1 ≤ n ∧ startIndex + n ≤ lineQueue.length
      ∧ collectOutputBatch lineQueue processedLines startIndex
        = (((lineQueue.drop startIndex).take n).enumFrom startIndex).map
            (fun e => BatchEntry.mk e.2 e.1)
      ∧ (∀ l ∈ (lineQueue.drop startIndex).take n,
          l.originalIndex ∉ processedLines ∧ l.type ∈ outputTypes)
      ∧ (∀ l ∈ ((lineQueue.drop startIndex).take n).dropLast, l.lineDelay = none) := by
  have hlt : startIndex < lineQueue.length := by
    rw [List.get?_eq_some] at hget
    exact hget.1
  have hdrop : lineQueue.drop startIndex = lineData :: lineQueue.drop (startIndex + 1) := by
    rw [List.drop_eq_getElem_cons hlt]
    congr 1
    rw [List.get?_eq_getElem?, List.getElem?_eq_getElem hlt] at hget
    exact Option.some.inj hget
  have hlen : (lineQueue.drop (startIndex + 1)).length + (startIndex + 1) = lineQueue.length := by
    rw [List.length_drop]
    omega
  unfold collectOutputBatch
  rw [hdrop]
  unfold collectLoop
  rw [if_neg hun, if_neg (not_not.mpr hout)]
  simp only [List.nil_append]
  by_cases hd : lineData.lineDelay.isSome = true
  · rw [if_pos hd]
    refine ⟨1, le_refl _, by omega, by simp [List.enumFrom], ?_, by simp⟩
    intro l hl
    simp at hl
    subst hl
    exact ⟨hun, hout⟩
  · rw [if_neg hd]
    obtain ⟨n, hn, heq, hall, hlast⟩ := collectLoop_append processedLines
      (lineQueue.drop (startIndex + 1)) (startIndex + 1)
      [{ lineData := lineData, index := startIndex }] (by simp)
    refine ⟨n + 1, by omega, by omega, ?_, ?_, ?_⟩
    · rw [heq]
      simp [List.enumFrom]
    · intro l hl
      rw [List.take_succ_cons, List.mem_cons] at hl
      rcases hl with h | h
      · subst h
        exact ⟨hun, hout⟩
      · exact hall l h
    · intro l hl
      rw [List.take_succ_cons] at hl
      cases htk : (lineQueue.drop (startIndex + 1)).take n with
      | nil =>
        rw [htk] at hl
        simp at hl
      | cons x xs =>
        rw [htk, List.dropLast_cons₂, List.mem_cons] at hl
        rcases hl with h | h
        · subst h
          cases hld : l.lineDelay with
          | none => rfl
          | some v => rw [hld] at hd; exact absurd rfl hd
        · apply hlast
          rw [htk]
          exact h

end ObsidianTermynal

namespace ObsidianTermynal

/-- Indices of the entries of a batch in closed form. -/
theorem batch_indices (xs : List LineData) (i : Nat) :
    ((xs.enumFrom i).map (fun e => BatchEntry.mk e.2 e.1)).map (fun e => e.index)
      = List.range' i xs.length := by
  induction xs generalizing i with
  | nil => rfl
  | cons x rest ih =>
    simp only [List.enumFrom, List.map_cons, List.length_cons, List.range'_succ]
    rw [ih]

/-- Entries of a batch in closed form are lines of the queue at their index. -/
theorem batch_entries (lineQueue : List LineData) (s n : Nat) (e : BatchEntry)
    (he : e ∈ (((lineQueue.drop s).take n).enumFrom s).map (fun e => BatchEntry.mk e.2 e.1)) :
    lineQueue.get? e.index = some e.lineData ∧ e.lineData ∈ (lineQueue.drop s).take n := by
  rw [List.mem_map] at he
  obtain ⟨⟨k, l⟩, hkl, rfl⟩ := he
  have hmem := List.mem_enumFrom hkl
  simp only
  obtain ⟨hk1, hk2, hl⟩ := hmem
  refine ⟨?_, ?_⟩
  · rw [List.get?_eq_getElem?]
    have : ((lineQueue.drop s).take n)[k - s]? = some l := by
      rw [hl]
      apply List.getElem?_eq_getElem
    rw [List.getElem?_take] at this
    split at this
    · rw [List.getElem?_drop] at this
      have hks : s + (k - s) = k := by omega
      rw [hks] at this
      exact this
    · exact Option.noConfusion this
  · rw [hl]
    exact List.getElem_mem _

/-- The loop of `processLines` ends within `lineQueue.length - i + 1` evaluations of
its condition, and its iterations deal with the indices from `i` on, in order, each
once. -/
theorem processLoop_spec (lineQueue : List LineData) (inDom : Nat → Bool) (fuel i : Nat)
    (processedLines : List Nat) (steps : List Step) (hi : i ≤ lineQueue.length)
    (hfuel : lineQueue.length - i < fuel) :
    ∃ final tail, processLoop lineQueue inDom fuel i processedLines steps
        = some (final, steps ++ tail)
      ∧ tail.flatMap Step.indices = List.range' i (lineQueue.length - i)
      ∧ (∀ st ∈ tail, st.indices ≠ [])
      ∧ tail.length ≤ lineQueue.length - i := by
  induction fuel generalizing i processedLines steps with
  | zero => omega
  | succ fuel ih =>
    unfold processLoop
    cases hget : lineQueue.get? i with
    | none =>
      have hlen : lineQueue.length ≤ i := by
        rw [List.get?_eq_none] at hget
        exact hget
      have h0 : lineQueue.length - i = 0 := by omega
      refine ⟨processedLines, [], by simp, by simp [h0], by simp, by simp⟩
    | some lineData =>
      have hlt : i < lineQueue.length := by
        rw [List.get?_eq_some] at hget
        exact hget.1
      have hsplit : lineQueue.length - i = (lineQueue.length - (i + 1)) + 1 := by omega
      simp only
      by_cases hskip : lineData.originalIndex ∈ processedLines ∨ inDom lineData.originalIndex = true
      · rw [if_pos hskip]
        obtain ⟨final, tail, heq, hidx, hne, hlen⟩ := ih (i + 1)
          (JsSet.add processedLines lineData.originalIndex) (steps ++ [Step.skipped i])
          (by omega) (by omega)
        refine ⟨final, Step.skipped i :: tail, by rw [heq]; simp, ?_, ?_, ?_⟩
        · rw [List.flatMap_cons, hidx, hsplit, List.range'_succ]
          rfl
        · intro st hst
          rw [List.mem_cons] at hst
          rcases hst with h | h
          · subst h
            simp [Step.indices]
          · exact hne st h
        · rw [List.length_cons]
          omega
      · rw [if_neg hskip]
        have hun : lineData.originalIndex ∉ processedLines := fun h => hskip (Or.inl h)
        by_cases hout : lineData.type ∈ outputTypes
        · rw [if_pos hout]
          obtain ⟨n, hn1, hn2, hbatch, _, _⟩ :=
            collectOutputBatch_run lineQueue processedLines i lineData hget hun hout
          have htake : ((lineQueue.drop i).take n).length = n := by
            rw [List.length_take, List.length_drop]
            omega
          have hblen : (collectOutputBatch lineQueue processedLines i).length = n := by
            rw [hbatch, List.length_map, List.enumFrom_length, htake]
          have hbidx : (collectOutputBatch lineQueue processedLines i).map (fun e => e.index)
              = List.range' i n := by
            rw [hbatch, batch_indices, htake]
          rw [hblen, hbidx]
          obtain ⟨final, tail, heq, hidx, hne, hlen⟩ := ih (i + n)
            ((collectOutputBatch lineQueue processedLines i).foldl
              (fun (s : List Nat) e => JsSet.add s e.lineData.originalIndex) processedLines)
            (steps ++ [Step.batch (List.range' i n)])
            (by omega) (by omega)
          refine ⟨final, Step.batch (List.range' i n) :: tail, by rw [heq]; simp, ?_, ?_, ?_⟩
          · rw [List.flatMap_cons, hidx]
            show List.range' i n ++ List.range' (i + n) (lineQueue.length - (i + n))
              = List.range' i (lineQueue.length - i)
            rw [List.range'_append_1]
            congr 1
            omega
          · intro st hst
            rw [List.mem_cons] at hst
            rcases hst with h | h
            · subst h
              show List.range' i n ≠ []
              intro hnil
              have := congrArg List.length hnil
              simp at this
              omega
            · exact hne st h
          · rw [List.length_cons]
            omega
        · rw [if_neg hout]
          obtain ⟨final, tail, heq, hidx, hne, hlen⟩ := ih (i + 1)
            (JsSet.add processedLines lineData.originalIndex) (steps ++ [Step.single i])
            (by omega) (by omega)
          refine ⟨final, Step.single i :: tail, by rw [heq]; simp, ?_, ?_, ?_⟩
          · rw [List.flatMap_cons, hidx, hsplit, List.range'_succ]
            rfl
          · intro st hst
            rw [List.mem_cons] at hst
            rcases hst with h | h
            · subst h
              simp [Step.indices]
            · exact hne st h
          · rw [List.length_cons]
            omega

end ObsidianTermynal

/-! ## Claim on the line queue -/

/-- C29. For every queue, every set of processed lines and every document: if the line
at `startIndex` is unprocessed and of an output type, `collectOutputBatch(startIndex)`
returns a batch that is not empty, whose entries sit at the consecutive indices from
`startIndex` on, each being the line of the queue at its index, unprocessed and of an
output type, and no entry but the last has its own `lineDelay`; and, whatever the
queue holds (the empty queue and queues without any output line included), the loop of
`processLines` ends (within one evaluation of its condition per line, plus one), every
iteration deals with at least one index, and the indices dealt with are 0, 1, ... up to
the end of the queue, in order and each once. -/
theorem collectOutputBatch_processLines (lineQueue : List ObsidianTermynal.LineData)
    (processedLines : List Nat) (inDom : Nat → Bool) :
    (∀ (startIndex : Nat) (lineData : ObsidianTermynal.LineData),
        lineQueue.get? startIndex = some lineData →
        lineData.originalIndex ∉ processedLines →
        lineData.type ∈ ObsidianTermynal.outputTypes →
        ObsidianTermynal.collectOutputBatch lineQueue processedLines startIndex ≠ []
          ∧ (ObsidianTermynal.collectOutputBatch lineQueue processedLines startIndex).map
              (fun e => e.index)
            = List.range' startIndex
                (ObsidianTermynal.collectOutputBatch lineQueue processedLines startIndex).length
          ∧ (∀ e ∈ ObsidianTermynal.collectOutputBatch lineQueue processedLines startIndex,
              lineQueue.get? e.index = some e.lineData
                ∧ e.lineData.originalIndex ∉ processedLines
                ∧ e.lineData.type ∈ ObsidianTermynal.outputTypes)
          ∧ (∀ e ∈ (ObsidianTermynal.collectOutputBatch lineQueue processedLines
                startIndex).dropLast,
              e.lineData.lineDelay = none))
    ∧ (∀ fuel, lineQueue.length < fuel →
        ∃ final steps,
          ObsidianTermynal.processLines fuel lineQueue processedLines inDom = some (final, steps)
            ∧ steps.flatMap ObsidianTermynal.Step.indices = List.range lineQueue.length
            ∧ (∀ st ∈ steps, st.indices ≠ [])
            ∧ steps.length ≤ lineQueue.length) := by
  constructor
  · intro startIndex lineData hget hun hout
    obtain ⟨n, hn1, hn2, hbatch, hall, hlast⟩ :=
      ObsidianTermynal.collectOutputBatch_run lineQueue processedLines startIndex lineData
        hget hun hout
    have htake : ((lineQueue.drop startIndex).take n).length = n := by
      rw [List.length_take, List.length_drop]
      omega
    rw [hbatch]
    refine ⟨?_, ?_, ?_, ?_⟩
    · intro hnil
      have := congrArg List.length hnil
      rw [List.length_map, List.enumFrom_length, htake] at this
      simp at this
      omega
    · rw [ObsidianTermynal.batch_indices, List.length_map, List.enumFrom_length]
    · intro e he
      obtain ⟨h1, h2⟩ := ObsidianTermynal.batch_entries lineQueue startIndex n e he
      exact ⟨h1, hall _ h2⟩
    · intro e he
      rw [← List.map_dropLast] at he
      rw [List.mem_map] at he
      obtain ⟨⟨k, l⟩, hkl, rfl⟩ := he
      apply hlast
      simp only
      have hfst : l ∈ (((lineQueue.drop startIndex).take n).enumFrom startIndex).dropLast.map
          Prod.snd := List.mem_map_of_mem Prod.snd hkl
      rw [List.map_dropLast] at hfst
      rw [List.enumFrom_map_snd] at hfst
      exact hfst
  · intro fuel hfuel
    have hlen : (sortBy (fun (a b : ObsidianTermynal.LineData) =>
        (a.originalIndex : Int) - (b.originalIndex : Int)) lineQueue).length
        = lineQueue.length := List.length_insertionSort _ _
    obtain ⟨final, tail, heq, hidx, hne, hcount⟩ := ObsidianTermynal.processLoop_spec
      (sortBy (fun (a b : ObsidianTermynal.LineData) =>
        (a.originalIndex : Int) - (b.originalIndex : Int)) lineQueue)
      inDom fuel 0 processedLines [] (Nat.zero_le _) (by rw [hlen]; omega)
    refine ⟨final, tail, ?_, ?_, hne, ?_⟩
    · unfold ObsidianTermynal.processLines
      rw [heq]
      simp
    · rw [hidx, hlen, List.range_eq_range']
      simp
    · rw [hlen] at hcount
      simpa using hcount

/-- Witness of C29. In a queue of five lines whose lines 1 to 3 are output and line 2
has its own delay, the batch collected at index 1 is not empty and holds the lines 1 and
2, and the loop ends and deals with the indices 0 to 4; on the empty queue and on a queue
holding one command only, the loop ends as well. -/
theorem collectOutputBatch_processLines_witness :
    (ObsidianTermynal.collectOutputBatch Fixture.queueFive [] 1 ≠ []
      ∧ (ObsidianTermynal.collectOutputBatch Fixture.queueFive [] 1).map (fun e => e.index)
        = [1, 2])
    ∧ ObsidianTermynal.processLines 6 Fixture.queueFive [] (fun _ => false)
      = some ([0, 1, 2, 3, 4],
          [ObsidianTermynal.Step.single 0, ObsidianTermynal.Step.batch [1, 2],
            ObsidianTermynal.Step.batch [3], ObsidianTermynal.Step.single 4])
    ∧ (∃ final steps,
        ObsidianTermynal.processLines 6 Fixture.queueFive [] (fun _ => false)
            = some (final, steps)
          ∧ steps.flatMap ObsidianTermynal.Step.indices = List.range Fixture.queueFive.length
          ∧ (∀ st ∈ steps, st.indices ≠ [])
          ∧ steps.length ≤ Fixture.queueFive.length)
    ∧ (∃ final steps,
        ObsidianTermynal.processLines 1 [] [] (fun _ => false) = some (final, steps)
          ∧ steps.flatMap ObsidianTermynal.Step.indices
            = List.range ([] : List ObsidianTermynal.LineData).length
          ∧ (∀ st ∈ steps, st.indices ≠ [])
          ∧ steps.length ≤ ([] : List ObsidianTermynal.LineData).length)
    ∧ (∃ final steps,
        ObsidianTermynal.processLines 2
            [{ type := "input", lineDelay := none, originalIndex := 0 }] [] (fun _ => false)
            = some (final, steps)
          ∧ steps.flatMap ObsidianTermynal.Step.indices
            = List.range
              [({ type := "input", lineDelay := none, originalIndex := 0 } :
                ObsidianTermynal.LineData)].length
          ∧ (∀ st ∈ steps, st.indices ≠ [])
          ∧ steps.length
            ≤ [({ type := "input", lineDelay := none, originalIndex := 0 } :
                ObsidianTermynal.LineData)].length) :=
  ⟨⟨((collectOutputBatch_processLines Fixture.queueFive [] (fun _ => false)).1 1
        { type := "output", lineDelay := none, originalIndex := 1 }
        (by decide) (by decide) (by decide)).1,
      by decide⟩,
    by decide,
    (collectOutputBatch_processLines Fixture.queueFive [] (fun _ => false)).2 6 (by decide),
    (collectOutputBatch_processLines [] [] (fun _ => false)).2 1 (by decide),
    (collectOutputBatch_processLines
      [{ type := "input", lineDelay := none, originalIndex := 0 }] [] (fun _ => false)).2 2
      (by decide)⟩

/-! ## Claim on the instance identifier -/

set_option maxRecDepth 100000 in
/-- The identifier of the configuration titled `Aa`. -/
theorem generateInstanceId_Aa :
    ObsidianTermynal.generateInstanceId Fixture.linesJson (some "Aa") (some "dark")
      = "termynal_4romlo" := by
  decide

set_option maxRecDepth 100000 in
/-- The identifier of the configuration titled `BB`. -/
theorem generateInstanceId_BB :
    ObsidianTermynal.generateInstanceId Fixture.linesJson (some "BB") (some "dark")
      = "termynal_4romlo" := by
  decide

set_option maxRecDepth 100000 in
/-- The JSON text of the configuration titled `Aa`. -/
theorem configStr_Aa :
    ObsidianTermynal.configStr Fixture.linesJson (some "Aa") (some "dark")
      = "\x7b\"lines\":[\x7b\"type\":\"input\",\"value\":\"ls\"\x7d],\"title\":\"Aa\",\"theme\":\"dark\"\x7d" := by
  decide

set_option maxRecDepth 100000 in
/-- The JSON texts of the two configurations differ. -/
theorem configStr_Aa_ne_BB :
    ObsidianTermynal.configStr Fixture.linesJson (some "Aa") (some "dark")
      ≠ ObsidianTermynal.configStr Fixture.linesJson (some "BB") (some "dark") := by
  decide

/-- C30, at a failing input: two configurations with the same lines and theme whose
titles are `Aa` and `BB`. Their JSON texts differ and `generateInstanceId` returns
`termynal_4romlo` for both. -/
theorem generateInstanceId_collision :
    ObsidianTermynal.configStr Fixture.linesJson (some "Aa") (some "dark")
        = "\x7b\"lines\":[\x7b\"type\":\"input\",\"value\":\"ls\"\x7d],\"title\":\"Aa\",\"theme\":\"dark\"\x7d"
      ∧ ObsidianTermynal.configStr Fixture.linesJson (some "Aa") (some "dark")
        ≠ ObsidianTermynal.configStr Fixture.linesJson (some "BB") (some "dark")
      ∧ ObsidianTermynal.generateInstanceId Fixture.linesJson (some "Aa") (some "dark")
        = "termynal_4romlo"
      ∧ ObsidianTermynal.generateInstanceId Fixture.linesJson (some "BB") (some "dark")
        = "termynal_4romlo" :=
  ⟨configStr_Aa, configStr_Aa_ne_BB, generateInstanceId_Aa, generateInstanceId_BB⟩
